import Mathlib

/-!
# SharedGamemode: stage state machine and scenario voting

A shallow embedding of the stage execution engine
(`Private/ScenarioInstance.cpp`), of the base transition component
(`Private/Components/ScenarioTransitionComponent.cpp`), of the weighted
transition component (`Private/Components/EnhancedScenarioTransitionComponent.cpp`)
of the rotation and statistics of `Private/ScenarioPersistenceManager.cpp`
and of the tag stacks of `Private/TagStackContainer.cpp`.

Conventions of the embedding

* A `UObject*` is an address (`Nat`) looked up in a store of template
  objects, wrapped in `Option` where the code tests the pointer
  (`none` is a null or invalid pointer).
* `TMap` is an association list in insertion order with unique keys.
* `float` delays and timers are rationals; only their sign is inspected.
  Where the order or the rounding of a `float` result decides an outcome
  (`PopularityScore`, `WeightedCount`), every `float` operation is the exact
  operation followed by `ToFloat`, the rounding to IEEE 754 binary32.
* `FMath::RandRange` consumes one raw draw of a stream `Nat → Nat`.
* Dereferencing a null pointer is the outcome `none` of the function
  that does it; so is the use of a pointer obtained by a `static_cast` to a
  class that the object is not an instance of.
* A `FPrimaryAssetId` is a number; 0 is the default-constructed, invalid one.
* A `FDateTime` or `FTimespan` is its tick count; the clock is an argument.
* A derived class holds its base-class part in the member `Super`.
-/

namespace SharedGamemode

/-! ## ScenarioTypes.h -/

/-- Enumeration `EScenarioState`. -/
inductive EScenarioState where
  | None
  | Active
  | Success
  | Failure
  | Cancelled
  deriving DecidableEq, Repr

/-- Enumeration `EScenarioResult`. -/
inductive EScenarioResult where
  | InProgress
  | Success
  | Failure
  | None
  deriving DecidableEq, Repr

/-- Enumeration `EScenarioCompletionMode`. -/
inductive EScenarioCompletionMode where
  | AnySuccess
  | AllSuccess
  deriving DecidableEq, Repr

/-- Net modes of the engine that `HasAuthority` distinguishes. -/
inductive ENetMode where
  | NM_Standalone
  | NM_DedicatedServer
  | NM_ListenServer
  | NM_Client
  deriving DecidableEq, Repr

/-! ## TMap as an association list -/

/-- Result of `TMap::Find`: the value stored under the key, if any. -/
def TMapFind {κ ν : Type} [DecidableEq κ] : List (κ × ν) → κ → Option ν
  | [], _ => none
  | (k', v) :: m, k => if k' = k then some v else TMapFind m k

/-- Result of `TMap::Add`: overwrite the value of an existing key, else append a new pair. -/
def TMapAdd {κ ν : Type} [DecidableEq κ] : List (κ × ν) → κ → ν → List (κ × ν)
  | [], k, v => [(k, v)]
  | (k', v') :: m, k, v => if k' = k then (k, v) :: m else (k', v') :: TMapAdd m k v

/-- Result of `TMap::FindOrAdd`: the map after the call (the pair is added with the
default only when the key is absent). -/
def TMapFindOrAdd {κ ν : Type} [DecidableEq κ] (m : List (κ × ν)) (k : κ) (d : ν) :
    List (κ × ν) :=
  match TMapFind m k with
  | some _ => m
  | none => TMapAdd m k d

/-! ## Tasks, objectives, stages -/

/-- Runtime objective tracker: `CurrentResult` of `UScenarioTask` and the back-reference
`Objective` (an address, `none` when null). -/
structure UScenarioTask_ObjectiveTracker where
  CurrentResult : EScenarioResult
  Objective : Option Nat
  deriving DecidableEq, Repr

/-- Stage service: `CurrentResult` of `UScenarioTask` and `OwningStage`. -/
structure UScenarioTask_StageService where
  CurrentResult : EScenarioResult
  OwningStage : Option Nat
  deriving DecidableEq, Repr

/-- Template `UScenarioObjective`; a tracker template may be a null pointer. -/
structure UScenarioObjective where
  CompletionMode : EScenarioCompletionMode
  ObjectiveTrackers : List (Option UScenarioTask_ObjectiveTracker)

/-- Template `UScenarioStage`; `Objectives` holds addresses of objectives. -/
structure UScenarioStage where
  CompletionMode : EScenarioCompletionMode
  StageCompletionDelay : ℚ
  NextStage_Success : Option Nat
  NextStage_Failure : Option Nat
  Objectives : List Nat
  StageServices : List (Option UScenarioTask_StageService)

/-- The two members of `UGameplayScenario` (declared in `GameplayScenario.h`) that the
scenario instance reads. -/
structure UGameplayScenario where
  InitialStage : Option Nat
  BaseStageProgressionTimer : ℚ

/-- Store of the immutable template objects, by address. -/
structure Templates where
  Stage : Nat → UScenarioStage
  Objective : Nat → UScenarioObjective

/-- Observable calls made by the instance, in order. -/
inductive ScenarioEvent where
  | ServiceBeginPlay (svc : UScenarioTask_StageService)
  | ServiceEndPlay (svc : UScenarioTask_StageService) (bCancelled : Bool)
  | TrackerBeginPlay (trk : UScenarioTask_ObjectiveTracker)
  | TrackerEndPlay (trk : UScenarioTask_ObjectiveTracker) (bCancelled : Bool)
  | ScenarioEnded (bCancelled : Bool)
  deriving DecidableEq, Repr

/-- Members of `UScenarioInstance`. `World` is the net mode of the world the instance
lives in (`none` when `GetWorld()` is null); `StageProgressionTimer` is the pending
one-shot timer with its delay and bound verdict; `Trace` records the hooks and
broadcasts issued so far. -/
structure UScenarioInstance where
  World : Option ENetMode
  ScenarioAsset : Option UGameplayScenario
  ScenarioState : EScenarioState
  CurrentStage : Option Nat
  PreviousStageResult : EScenarioResult
  RuntimeTags : List Nat
  GlobalServices : List (Option UScenarioTask_StageService)
  StageServices : List (Option UScenarioTask_StageService)
  ObjectiveTrackers : List (Option UScenarioTask_ObjectiveTracker)
  StageProgressionTimer : Option (ℚ × EScenarioResult)
  Trace : List ScenarioEvent

/-! ## UScenarioInstance::EvaluateObjectives -/

/-- How the tracker loop of `EvaluateObjectives` ends. -/
inductive TrackerLoopOutcome where
  | nullObjective
  | returned (r : EScenarioResult)
  | completed (ObjectiveStates : List (Nat × EScenarioResult))
  deriving DecidableEq, Repr

/-- Body of one iteration, after the two quick checks: the `FindOrAdd` and the update of
`ObjState` through the reference. -/
def updateObjectiveState (ObjectiveStates : List (Nat × EScenarioResult)) (Objective : Nat)
    (ObjectiveMode : EScenarioCompletionMode) (TrackerState : EScenarioResult) :
    List (Nat × EScenarioResult) :=
  let m := TMapFindOrAdd ObjectiveStates Objective
    (if ObjectiveMode = EScenarioCompletionMode.AllSuccess then EScenarioResult.Success
     else EScenarioResult.Failure)
  if ObjectiveMode = EScenarioCompletionMode.AllSuccess then
    if TrackerState ≠ EScenarioResult.Success then
      TMapAdd m Objective
        (if TrackerState = EScenarioResult.Failure then EScenarioResult.Failure
         else EScenarioResult.InProgress)
    else m
  else
    if TrackerState = EScenarioResult.Success then
      TMapAdd m Objective EScenarioResult.Success
    else if TrackerState = EScenarioResult.InProgress then
      TMapAdd m Objective EScenarioResult.InProgress
    else m

/-- The loop over `ObjectiveTrackers` (lines 133-197). -/
def trackerLoop (T : Templates) (StageCompletionMode : EScenarioCompletionMode) :
    List (Option UScenarioTask_ObjectiveTracker) → List (Nat × EScenarioResult) →
    TrackerLoopOutcome
  | [], ObjectiveStates => TrackerLoopOutcome.completed ObjectiveStates
  | none :: rest, ObjectiveStates => trackerLoop T StageCompletionMode rest ObjectiveStates
  | some Tracker :: rest, ObjectiveStates =>
    let TrackerState := Tracker.CurrentResult
    match Tracker.Objective with
    | none => TrackerLoopOutcome.nullObjective
    | some Objective =>
      let ObjectiveMode := (T.Objective Objective).CompletionMode
      if StageCompletionMode = EScenarioCompletionMode.AllSuccess ∧
          ObjectiveMode = EScenarioCompletionMode.AllSuccess ∧
          TrackerState = EScenarioResult.Failure then
        TrackerLoopOutcome.returned EScenarioResult.Failure
      else if StageCompletionMode = EScenarioCompletionMode.AnySuccess ∧
          ObjectiveMode = EScenarioCompletionMode.AnySuccess ∧
          TrackerState = EScenarioResult.Success then
        TrackerLoopOutcome.returned EScenarioResult.Success
      else
        trackerLoop T StageCompletionMode rest
          (updateObjectiveState ObjectiveStates Objective ObjectiveMode TrackerState)

/-- The counting loop over `ObjectiveStates` (lines 200-213): the pair
`(SuccessCount, CompleteCount)`. -/
def countObjectiveStates : List (Nat × EScenarioResult) → Nat × Nat → Nat × Nat
  | [], c => c
  | KV :: rest, (SuccessCount, CompleteCount) =>
    if KV.2 ≠ EScenarioResult.InProgress then
      if KV.2 = EScenarioResult.Success then
        countObjectiveStates rest (SuccessCount + 1, CompleteCount + 1)
      else countObjectiveStates rest (SuccessCount, CompleteCount + 1)
    else countObjectiveStates rest (SuccessCount, CompleteCount)

/-- The final evaluation of the stage state (lines 199-236). -/
def finalStageState (StageCompletionMode : EScenarioCompletionMode)
    (ObjectiveStates : List (Nat × EScenarioResult)) : EScenarioResult :=
  let c := countObjectiveStates ObjectiveStates (0, 0)
  let SuccessCount := c.1
  let CompleteCount := c.2
  if CompleteCount = ObjectiveStates.length then
    if StageCompletionMode = EScenarioCompletionMode.AllSuccess then
      if SuccessCount = CompleteCount then EScenarioResult.Success else EScenarioResult.Failure
    else
      if SuccessCount > 0 then EScenarioResult.Success else EScenarioResult.Failure
  else EScenarioResult.InProgress

/-- Model of `UScenarioInstance::EvaluateObjectives`; `none` when a live tracker with a
null `Objective` is dereferenced. -/
def EvaluateObjectives (T : Templates) (s : UScenarioInstance) : Option EScenarioResult :=
  match s.CurrentStage with
  | none => some EScenarioResult.None
  | some stage =>
    let StageCompletionMode := (T.Stage stage).CompletionMode
    match trackerLoop T StageCompletionMode s.ObjectiveTrackers [] with
    | TrackerLoopOutcome.nullObjective => none
    | TrackerLoopOutcome.returned r => some r
    | TrackerLoopOutcome.completed ObjectiveStates =>
      some (finalStageState StageCompletionMode ObjectiveStates)

/-! ## UScenarioInstance: stage transitions -/

/-- Model of `UScenarioInstance::HasAuthority`: a world exists and it is not a client. -/
def HasAuthority (s : UScenarioInstance) : Bool :=
  match s.World with
  | some World => if World = ENetMode.NM_Client then false else true
  | none => false

/-- The objects of a list of pointers that pass `IsValid`. -/
def validObjects {α : Type} (ptrs : List (Option α)) : List α :=
  ptrs.filterMap id

/-- Result of `DuplicateObject` over a list of templates: one copy per non-null template
(a null template yields a null copy, which the caller skips). -/
def duplicateAll {α : Type} (templates : List (Option α)) : List α :=
  validObjects templates

/-- All tracker templates of the objectives of a stage, in iteration order. -/
def stageTrackerTemplates (T : Templates) :
    List Nat → List (Option UScenarioTask_ObjectiveTracker)
  | [] => []
  | Objective :: rest => (T.Objective Objective).ObjectiveTrackers ++ stageTrackerTemplates T rest

/-- Model of `UScenarioInstance::EnterStage`. -/
def EnterStage (T : Templates) (s : UScenarioInstance) (Stage : Nat) : UScenarioInstance :=
  let s1 := { s with CurrentStage := some Stage }
  if HasAuthority s1 then
    let NewServices := duplicateAll (T.Stage Stage).StageServices
    let NewTrackers := duplicateAll (stageTrackerTemplates T (T.Stage Stage).Objectives)
    { s1 with
      StageServices := s1.StageServices ++ NewServices.map some
      ObjectiveTrackers := s1.ObjectiveTrackers ++ NewTrackers.map some
      Trace := s1.Trace ++ NewServices.map ScenarioEvent.ServiceBeginPlay
        ++ NewTrackers.map ScenarioEvent.TrackerBeginPlay }
  else s1

/-- Model of `UScenarioInstance::ExitStage` (the argument is not read by the code). -/
def ExitStage (s : UScenarioInstance) (_Stage : Nat) : UScenarioInstance :=
  { s with
    StageServices := []
    ObjectiveTrackers := []
    Trace := s.Trace
      ++ (validObjects s.StageServices).map (fun svc => ScenarioEvent.ServiceEndPlay svc false)
      ++ (validObjects s.ObjectiveTrackers).map
          (fun trk => ScenarioEvent.TrackerEndPlay trk false) }

/-- Model of `UScenarioInstance::EndScenario`. -/
def EndScenario (s : UScenarioInstance) (bCancelled : Bool) : UScenarioInstance :=
  let s1 := { s with
    ScenarioState := if bCancelled then EScenarioState.Cancelled else s.ScenarioState }
  let s2 := match s1.CurrentStage with
    | some Stage => ExitStage s1 Stage
    | none => s1
  { s2 with
    GlobalServices := []
    Trace := s2.Trace
      ++ (validObjects s2.GlobalServices).map
          (fun svc => ScenarioEvent.ServiceEndPlay svc bCancelled)
      ++ [ScenarioEvent.ScenarioEnded bCancelled] }

/-- Model of `UScenarioInstance::ProgressStage_Internal`. -/
def ProgressStage_Internal (T : Templates) (s : UScenarioInstance)
    (Transition : EScenarioResult) : UScenarioInstance :=
  match s.CurrentStage with
  | none => s
  | some Current =>
    let NextStage :=
      if Transition = EScenarioResult.Success then (T.Stage Current).NextStage_Success
      else (T.Stage Current).NextStage_Failure
    let s1 := ExitStage s Current
    let s2 := { s1 with PreviousStageResult := Transition }
    match NextStage with
    | some Next => EnterStage T s2 Next
    | none =>
      EndScenario
        { s2 with
          ScenarioState :=
            if Transition = EScenarioResult.Success then EScenarioState.Success
            else EScenarioState.Failure }
        false

/-- Model of `UScenarioInstance::GetStageTransitionDelay`. -/
def GetStageTransitionDelay (T : Templates) (s : UScenarioInstance) : ℚ :=
  let d0 : ℚ := 0
  let d1 := match s.ScenarioAsset with
    | some Asset => d0 + Asset.BaseStageProgressionTimer
    | none => d0
  match s.CurrentStage with
  | some Stage => d1 + (T.Stage Stage).StageCompletionDelay
  | none => d1

/-- Model of `UScenarioInstance::TryProgressStage`: the returned flag and the instance
afterwards; `none` when `EvaluateObjectives` dereferences a null objective. -/
def TryProgressStage (T : Templates) (s : UScenarioInstance) :
    Option (Bool × UScenarioInstance) :=
  if ¬ (HasAuthority s = true) ∨ s.CurrentStage = none then some (false, s)
  else
    match EvaluateObjectives T s with
    | none => none
    | some StageResult =>
      if StageResult = EScenarioResult.InProgress then some (false, s)
      else
        let Delay := GetStageTransitionDelay T s
        if Delay > 0 then
          some (true, { s with StageProgressionTimer := some (Delay, StageResult) })
        else some (true, ProgressStage_Internal T s StageResult)

/-- Model of `UScenarioInstance::IsActive`: the current stage pointer is not null. -/
def IsActive (s : UScenarioInstance) : Bool :=
  s.CurrentStage.isSome

/-- Model of `UScenarioInstanceSubsystem::CancelScenario`, as far as the instance is
concerned; `none` is an invalid instance pointer. -/
def CancelScenario (Instance : Option UScenarioInstance) : Option UScenarioInstance :=
  match Instance with
  | none => none
  | some s => if IsActive s then some (EndScenario s true) else some s

/-- Model of `FGameplayTagContainer::AppendTags`: every tag of `InitTags` that is not yet
present is added. -/
def AppendTags (RuntimeTags InitTags : List Nat) : List Nat :=
  InitTags.foldl (fun acc Tag => if Tag ∈ acc then acc else acc ++ [Tag]) RuntimeTags

/-- Model of `UScenarioInstance::InitScenario`: the returned flag and the instance
afterwards; `Scenario` is `none` for an invalid pointer. -/
def InitScenario (T : Templates) (s : UScenarioInstance) (Scenario : Option UGameplayScenario)
    (InitTags : List Nat) : Bool × UScenarioInstance :=
  match Scenario with
  | none => (false, s)
  | some Asset =>
    match Asset.InitialStage with
    | none => (false, s)
    | some InitialStage =>
      (true,
        EnterStage T
          { s with
            ScenarioAsset := some Asset
            RuntimeTags := AppendTags s.RuntimeTags InitTags
            ScenarioState := EScenarioState.Active }
          InitialStage)

/-- Model of `UScenarioInstance::NotifyTaskUpdate`; `none` when `EvaluateObjectives`
dereferences a null objective. -/
def NotifyTaskUpdate (T : Templates) (s : UScenarioInstance)
    (Task : Option UScenarioTask_ObjectiveTracker) : Option UScenarioInstance :=
  if Task ∈ s.ObjectiveTrackers then (TryProgressStage T s).map Prod.snd else some s

/-- Model of `UScenarioTask::SetTaskResult` called on the tracker at position `Index` of
`ObjectiveTrackers` (through `MarkSuccess` or `MarkFailure`); the outer object of such a
tracker is the instance. -/
def SetTaskResult (T : Templates) (s : UScenarioInstance) (Index : Nat)
    (NewResult : EScenarioResult) : Option UScenarioInstance :=
  match s.ObjectiveTrackers.get? Index with
  | some (some Tracker) =>
    if Tracker.CurrentResult ≠ NewResult then
      let Updated : UScenarioTask_ObjectiveTracker := { Tracker with CurrentResult := NewResult }
      NotifyTaskUpdate T
        { s with ObjectiveTrackers := s.ObjectiveTrackers.set Index (some Updated) }
        (some Updated)
    else some s
  | _ => some s

/-- The one-shot timer `StageProgressionTimer` of the engine's timer manager while
`DeltaSeconds` pass: a pending timer whose remaining time is used up fires
`ProgressStage_Internal` with the verdict bound to it and is cleared, otherwise its
remaining time shrinks. `SetTimer` on the handle (in `TryProgressStage`) replaces a pending
timer. -/
def AdvanceTime (T : Templates) (s : UScenarioInstance) (DeltaSeconds : ℚ) :
    UScenarioInstance :=
  match s.StageProgressionTimer with
  | none => s
  | some (Remaining, Transition) =>
    if Remaining ≤ DeltaSeconds then
      ProgressStage_Internal T { s with StageProgressionTimer := none } Transition
    else { s with StageProgressionTimer := some (Remaining - DeltaSeconds, Transition) }

/-! ## UScenarioTransitionComponent (base voting) -/

/-- Net roles of the owner of a component. -/
inductive ENetRole where
  | ROLE_None
  | ROLE_SimulatedProxy
  | ROLE_AutonomousProxy
  | ROLE_Authority
  deriving DecidableEq, Repr

/-- Vote entry `FScenarioVoteEntry`; a `FPrimaryAssetId` is a number. -/
structure FScenarioVoteEntry where
  ScenarioId : Nat
  VoteCount : Int
  deriving DecidableEq, Repr

/-- Voting state `FScenarioVotingState`. -/
structure FScenarioVotingState where
  VoteOptions : List FScenarioVoteEntry
  VoteTimeRemaining : ℚ
  bVotingActive : Bool

/-- Members of `UScenarioTransitionComponent`; `PlayerVotes` maps the address of a
player state to the identifier it voted for. -/
structure UScenarioTransitionComponent where
  OwnerRole : ENetRole
  VotingDuration : ℚ
  NumScenarioOptions : Int
  VotingState : FScenarioVotingState
  PlayerVotes : List (Nat × Nat)

/-- The `while` loop of `GenerateVotingOptions` (lines 144-154). Every iteration removes
one element of `ValidScenarios`; `fuel` bounds the number of iterations. The index
`FMath::RandRange(0, Num - 1)` is the head of the stream of draws reduced modulo `Num`. -/
def generateLoop (NumScenarioOptions : Int) :
    Nat → (Nat → Nat) → List FScenarioVoteEntry → List Nat → List FScenarioVoteEntry
  | 0, _, VoteOptions, _ => VoteOptions
  | fuel + 1, rng, VoteOptions, ValidScenarios =>
    if h : (VoteOptions.length : Int) < min NumScenarioOptions (ValidScenarios.length : Int) then
      have hpos : 0 < ValidScenarios.length := by
        have h1 := lt_of_lt_of_le h (min_le_right _ _)
        have h2 : (0 : Int) ≤ (VoteOptions.length : Int) := Int.natCast_nonneg _
        omega
      let RandomIndex := rng 0 % ValidScenarios.length
      let NewEntry : FScenarioVoteEntry :=
        { ScenarioId := ValidScenarios.get ⟨RandomIndex, Nat.mod_lt _ hpos⟩, VoteCount := 0 }
      generateLoop NumScenarioOptions fuel (fun i => rng (i + 1)) (VoteOptions ++ [NewEntry])
        (ValidScenarios.eraseIdx RandomIndex)
    else VoteOptions

/-- Model of `UScenarioTransitionComponent::GenerateVotingOptions`; `ValidScenarios` is
what `GetValidScenarios()` returned. -/
def GenerateVotingOptions (c : UScenarioTransitionComponent) (ValidScenarios : List Nat)
    (rng : Nat → Nat) : UScenarioTransitionComponent :=
  { c with
    VotingState := { c.VotingState with
      VoteOptions :=
        generateLoop c.NumScenarioOptions (ValidScenarios.length + 1) rng [] ValidScenarios } }

/-- Model of `UScenarioTransitionComponent::StartVoting`. -/
def StartVoting (c : UScenarioTransitionComponent) (ValidScenarios : List Nat)
    (rng : Nat → Nat) : UScenarioTransitionComponent :=
  if c.OwnerRole ≠ ENetRole.ROLE_Authority then c
  else
    GenerateVotingOptions
      { c with
        VotingState := { c.VotingState with
          bVotingActive := true
          VoteTimeRemaining := c.VotingDuration }
        PlayerVotes := [] }
      ValidScenarios rng

/-- The two loops of `ServerCastVote_Implementation`: add `delta` to the `VoteCount` of the
first entry whose identifier is `ScenarioId`, then `break`. -/
def changeFirstMatch (delta : Int) : List FScenarioVoteEntry → Nat → List FScenarioVoteEntry
  | [], _ => []
  | Entry :: rest, ScenarioId =>
    if Entry.ScenarioId = ScenarioId then
      { Entry with VoteCount := Entry.VoteCount + delta } :: rest
    else Entry :: changeFirstMatch delta rest ScenarioId

/-- Model of `UScenarioTransitionComponent::ServerCastVote_Implementation`. `PlayerState`
is the player state reached through the owning controller, `none` when the cast or the
pointer is null. -/
def ServerCastVote (c : UScenarioTransitionComponent) (PlayerState : Option Nat)
    (ScenarioId : Nat) : UScenarioTransitionComponent :=
  if c.VotingState.bVotingActive = false then c
  else
    match PlayerState with
    | none => c
    | some Player =>
      let opts1 := match TMapFind c.PlayerVotes Player with
        | some ExistingVote => changeFirstMatch (-1) c.VotingState.VoteOptions ExistingVote
        | none => c.VotingState.VoteOptions
      { c with
        PlayerVotes := TMapAdd c.PlayerVotes Player ScenarioId
        VotingState := { c.VotingState with
          VoteOptions := changeFirstMatch 1 opts1 ScenarioId } }

/-- Sum of `VoteCount` over a list of options. -/
def totalVotes : List FScenarioVoteEntry → Int
  | [] => 0
  | Entry :: rest => Entry.VoteCount + totalVotes rest

/-- Whether an identifier is one of the options. -/
def isListed (opts : List FScenarioVoteEntry) (ScenarioId : Nat) : Bool :=
  opts.any (fun Entry => Entry.ScenarioId = ScenarioId)

/-- States of a voting round: begun by `StartVoting` on an authority, continued by
`ServerCastVote` calls of known participants. -/
inductive VotingRound : UScenarioTransitionComponent → Prop where
  | start (c : UScenarioTransitionComponent) (ValidScenarios : List Nat) (rng : Nat → Nat) :
      c.OwnerRole = ENetRole.ROLE_Authority → VotingRound (StartVoting c ValidScenarios rng)
  | cast (c : UScenarioTransitionComponent) (Player ScenarioId : Nat) :
      VotingRound c → VotingRound (ServerCastVote c (some Player) ScenarioId)


/-! ## UScenarioTransitionComponent::ProcessVotingResults -/

/-- The default-constructed `FPrimaryAssetId`, the identifier for which `IsValid()` is
false; it is the number 0 of the embedding. -/
def DefaultAssetId : Nat := 0

/-- Model of `FPrimaryAssetId::IsValid`. -/
def IsValidAssetId (AssetId : Nat) : Bool :=
  decide (AssetId ≠ DefaultAssetId)

/-- The loop of the base `ProcessVotingResults` (lines 168-175) on the pair
`(WinningScenario, HighestVotes)`. -/
def highestVotesLoop : List FScenarioVoteEntry → Nat × Int → Nat × Int
  | [], acc => acc
  | Entry :: rest, (WinningScenario, HighestVotes) =>
    if Entry.VoteCount > HighestVotes then
      highestVotesLoop rest (Entry.ScenarioId, Entry.VoteCount)
    else highestVotesLoop rest (WinningScenario, HighestVotes)

/-- Model of `UScenarioTransitionComponent::ProcessVotingResults`: the component afterwards
and the identifier broadcast on `OnNextScenarioSelected` (`none` when the call returns
before the broadcast). The hand-over to the scenario subsystem is outside the embedding. -/
def ProcessVotingResults (c : UScenarioTransitionComponent) (rng : Nat → Nat) :
    UScenarioTransitionComponent × Option Nat :=
  if c.VotingState.bVotingActive = false then (c, none)
  else
    let r := highestVotesLoop c.VotingState.VoteOptions (DefaultAssetId, -1)
    let WinningScenario :=
      if h : r.2 = 0 ∧ c.VotingState.VoteOptions.length > 0 then
        (c.VotingState.VoteOptions.get
          ⟨rng 0 % c.VotingState.VoteOptions.length, Nat.mod_lt _ h.2⟩).ScenarioId
      else r.1
    ({ c with VotingState := { c.VotingState with bVotingActive := false } },
      some WinningScenario)

/-! ## UScenarioPersistenceManager -/

/-- Record `FScenarioStats`; `LastPlayed` is the tick count of the `FDateTime`. -/
structure FScenarioStats where
  ScenarioId : Nat
  TimesPlayed : Int
  TotalVotes : Int
  AveragePlayerCount : ℚ
  LastPlayed : Int
  deriving DecidableEq, Repr

/-- The default-constructed `FScenarioStats`. -/
def FScenarioStats.Default : FScenarioStats :=
  { ScenarioId := DefaultAssetId, TimesPlayed := 0, TotalVotes := 0, AveragePlayerCount := 0,
    LastPlayed := 0 }

/-- Record `FScenarioRotationEntry`. -/
structure FScenarioRotationEntry where
  ScenarioId : Nat
  Weight : ℚ
  MinimumGapBetweenPlays : Int
  deriving DecidableEq, Repr

/-- Persistent data of `UScenarioPersistenceManager`. -/
structure UScenarioPersistenceManager where
  ScenarioStatistics : List (Nat × FScenarioStats)
  RotationEntries : List FScenarioRotationEntry
  deriving DecidableEq, Repr

/-- Engine constant `ETimespan::TicksPerDay` (a tick is 100 nanoseconds). -/
def TicksPerDay : Int := 864000000000

/-- Model of `FTimespan::GetDays`: the ticks divided by `TicksPerDay`, truncated. -/
def GetDays (Ticks : Int) : Int :=
  Int.tdiv Ticks TicksPerDay

/-- The power `2 ^ e` for an integer exponent. -/
def pow2 (e : Int) : ℚ :=
  if e ≥ 0 then ((2 ^ e.toNat : Nat) : ℚ) else 1 / ((2 ^ (-e).toNat : Nat) : ℚ)

/-- Number of halvings that bring `n` below 2 (the position of the leading bit of `n`);
the first argument bounds the number of steps. -/
def log2Loop : Nat → Nat → Nat
  | 0, _ => 0
  | fuel + 1, n => if n ≥ 2 then log2Loop fuel (n / 2) + 1 else 0

/-- The exponent `e` with `2 ^ e ≤ |x| < 2 ^ (e + 1)` of a rational `x ≠ 0`: the difference
of the leading-bit positions of numerator and denominator, or one less. -/
def floorLog2 (x : ℚ) : Int :=
  let e0 : Int := (log2Loop x.num.natAbs x.num.natAbs : Int) - (log2Loop x.den x.den : Int)
  if pow2 e0 ≤ |x| then e0 else e0 - 1

/-- Rounding to the nearest integer, a tie going to the even neighbour. -/
def roundHalfEven (x : ℚ) : Int :=
  let f := ⌊x⌋
  if x - f < 1 / 2 then f
  else if x - f > 1 / 2 then f + 1
  else if f % 2 = 0 then f else f + 1

/-- The value of type `float` (IEEE 754 binary32: 24 significant bits, least exponent -126,
round to nearest, ties to even) that a `float` operation or conversion delivers for the
exact result `x`. Results beyond the largest finite `float` are outside the embedding. -/
def ToFloat (x : ℚ) : ℚ :=
  if x = 0 then 0
  else
    let ulp := pow2 (max (floorLog2 x) (-126) - 23)
    roundHalfEven (x / ulp) * ulp

/-- Model of `FMath::RoundToInt`, a function of the engine whose code is not part of the
repository, by its documented result: the nearest integer, a fraction of one half rounded
up, which is the floor of the value plus one half. -/
def RoundToInt (F : ℚ) : Int :=
  ⌊F + 1 / 2⌋

/-- Model of `UScenarioPersistenceManager::UpdatePlayCount`. `UtcNow` is the tick count of
`FDateTime::UtcNow()`, `PlayerArrayNum` the size of the player array of the game state
(`none` without a world or a game state). Writing the save file is outside the embedding. -/
def UpdatePlayCount (pm : UScenarioPersistenceManager) (ScenarioId : Nat) (UtcNow : Int)
    (PlayerArrayNum : Option Nat) : UScenarioPersistenceManager :=
  let m := TMapFindOrAdd pm.ScenarioStatistics ScenarioId FScenarioStats.Default
  let Stats0 := (TMapFind m ScenarioId).getD FScenarioStats.Default
  let Stats1 := { Stats0 with
    ScenarioId := ScenarioId
    TimesPlayed := Stats0.TimesPlayed + 1
    LastPlayed := UtcNow }
  let Stats2 := match PlayerArrayNum with
    | some CurrentPlayerCount =>
      { Stats1 with
        AveragePlayerCount :=
          ((Stats1.AveragePlayerCount * (Stats1.TimesPlayed - 1)) + CurrentPlayerCount)
            / Stats1.TimesPlayed }
    | none => Stats1
  { pm with ScenarioStatistics := TMapAdd m ScenarioId Stats2 }

/-- The loop of `IsScenarioAllowedInRotation` over `RotationEntries` (lines 104-117). -/
def allowedLoop (Statistics : List (Nat × FScenarioStats)) (CurrentTime : Int)
    (ScenarioId : Nat) : List FScenarioRotationEntry → Bool
  | [] => false
  | Entry :: rest =>
    if Entry.ScenarioId = ScenarioId then
      match TMapFind Statistics ScenarioId with
      | some Stats =>
        decide (GetDays (CurrentTime - Stats.LastPlayed) ≥ Entry.MinimumGapBetweenPlays)
      | none => true
    else allowedLoop Statistics CurrentTime ScenarioId rest

/-- Model of `UScenarioPersistenceManager::IsScenarioAllowedInRotation`; `CurrentTime` is the
tick count of `FDateTime::UtcNow()`. -/
def IsScenarioAllowedInRotation (pm : UScenarioPersistenceManager) (CurrentTime : Int)
    (ScenarioId : Nat) : Bool :=
  allowedLoop pm.ScenarioStatistics CurrentTime ScenarioId pm.RotationEntries

/-- The count `int32 WeightedCount = FMath::RoundToInt(Entry.Weight * 10.0f)` of
`GetNextRotationOptions` (line 82); the product is a `float` multiplication. A count beyond
the int32 range is outside the embedding. -/
def WeightedCount (Entry : FScenarioRotationEntry) : Int :=
  RoundToInt (ToFloat (Entry.Weight * 10))

/-- What one rotation entry adds to `ValidOptions` in `GetNextRotationOptions`
(lines 75-93). -/
def rotationContribution (Statistics : List (Nat × FScenarioStats)) (CurrentTime : Int)
    (Entry : FScenarioRotationEntry) : List Nat :=
  match TMapFind Statistics Entry.ScenarioId with
  | some Stats =>
    if GetDays (CurrentTime - Stats.LastPlayed) ≥ Entry.MinimumGapBetweenPlays then
      List.replicate (WeightedCount Entry).toNat Entry.ScenarioId
    else []
  | none => [Entry.ScenarioId]

/-- The loop of `GetNextRotationOptions` over `RotationEntries`. -/
def rotationLoop (Statistics : List (Nat × FScenarioStats)) (CurrentTime : Int) :
    List FScenarioRotationEntry → List Nat
  | [] => []
  | Entry :: rest =>
    rotationContribution Statistics CurrentTime Entry
      ++ rotationLoop Statistics CurrentTime rest

/-- Model of `UScenarioPersistenceManager::GetNextRotationOptions`. -/
def GetNextRotationOptions (pm : UScenarioPersistenceManager) (CurrentTime : Int) : List Nat :=
  rotationLoop pm.ScenarioStatistics CurrentTime pm.RotationEntries

/-! ## UEnhancedScenarioTransitionComponent: the weighted voting state behind the cast

The member functions of `UEnhancedScenarioTransitionComponent` reach `EnhancedVoteOptions`,
`bAllowVetos` and `VetoThreshold` through `static_cast<FEnhancedVotingState*>(&VotingState)`.
This section holds what their statements do once the pointer is used, on a component
together with an `FEnhancedVotingState` object; the cast itself, on the member as it is
declared, follows in the section on the component as declared. -/

/-- Record `FPlayerVoteWeight`. -/
structure FPlayerVoteWeight where
  BaseWeight : ℚ
  PerformanceMultiplier : ℚ
  bHasVetoed : Bool
  deriving DecidableEq, Repr

/-- The default-constructed `FPlayerVoteWeight`. -/
def FPlayerVoteWeight.Default : FPlayerVoteWeight :=
  { BaseWeight := 1, PerformanceMultiplier := 1, bHasVetoed := false }

/-- Vote entry `FEnhancedVoteEntry`, derived from `FScenarioVoteEntry`. -/
structure FEnhancedVoteEntry extends FScenarioVoteEntry where
  WeightedVotes : ℚ
  VetoCount : Int
  deriving DecidableEq, Repr

/-- The entry `ApplyRotationRules` and `GenerateVotingOptions` create for an identifier:
every counter at its constructor value 0. -/
def FEnhancedVoteEntry.New (ScenarioId : Nat) : FEnhancedVoteEntry :=
  { ScenarioId := ScenarioId, VoteCount := 0, WeightedVotes := 0, VetoCount := 0 }

/-- What the member functions of `UEnhancedScenarioTransitionComponent` address after the
cast: the members of the component (`Super` is the base-class part, including the private
`PlayerVotes` that `ServerCastVote_Implementation` writes; `PlayerVotes` is the map of the
same name that the derived class declares and `UpdateVoteWeights` reads) together with the
members `EnhancedVoteOptions`, `bAllowVetos` and `VetoThreshold` of an
`FEnhancedVotingState` object. -/
structure EnhancedStateView where
  Super : UScenarioTransitionComponent
  EnhancedVoteOptions : List FEnhancedVoteEntry
  bAllowVetos : Bool
  VetoThreshold : Int
  MinimumVoteWeight : ℚ
  MaximumVoteWeight : ℚ
  PerformanceWeightMultiplier : ℚ
  PlayerWeights : List (Nat × FPlayerVoteWeight)
  PlayerVotes : List (Nat × Nat)

/-- The inherited `ServerCastVote_Implementation`, which acts on the base-class part. -/
def EnhancedStateView.ServerCastVote
    (c : EnhancedStateView) (PlayerState : Option Nat) (ScenarioId : Nat) :
    EnhancedStateView :=
  { c with Super := SharedGamemode.ServerCastVote c.Super PlayerState ScenarioId }

/-- The loop of `ServerVetoScenario_Implementation` (lines 42-50): the options afterwards and
whether an entry matched (the veto flag is set inside the match). -/
def vetoLoop : List FEnhancedVoteEntry → Nat → List FEnhancedVoteEntry × Bool
  | [], _ => ([], false)
  | Entry :: rest, ScenarioId =>
    if Entry.ScenarioId = ScenarioId then
      ({ Entry with VetoCount := Entry.VetoCount + 1 } :: rest, true)
    else
      let r := vetoLoop rest ScenarioId
      (Entry :: r.1, r.2)

/-- The statements of `ServerVetoScenario_Implementation` on the view; `PlayerState` as in
`ServerCastVote`. -/
def ServerVetoScenario (c : EnhancedStateView) (PlayerState : Option Nat)
    (ScenarioId : Nat) : EnhancedStateView :=
  if c.Super.VotingState.bVotingActive = false then c
  else
    match PlayerState with
    | none => c
    | some Player =>
      match TMapFind c.PlayerWeights Player with
      | none => c
      | some PlayerWeight =>
        if PlayerWeight.bHasVetoed = true then c
        else
          let r := vetoLoop c.EnhancedVoteOptions ScenarioId
          if r.2 = true then
            { c with
              EnhancedVoteOptions := r.1
              PlayerWeights :=
                TMapAdd c.PlayerWeights Player { PlayerWeight with bHasVetoed := true } }
          else c

/-- Model of `CalculatePlayerVoteWeight`. -/
def CalculatePlayerVoteWeight (c : EnhancedStateView) (PlayerState : Nat) :
    ℚ :=
  match TMapFind c.PlayerWeights PlayerState with
  | some Weight => Weight.BaseWeight * Weight.PerformanceMultiplier
  | none => 1

/-- The inner loop of `UpdateVoteWeights` (lines 209-216): add the weight to the first entry
that carries the voted identifier. -/
def addWeightFirstMatch (Weight : ℚ) : List FEnhancedVoteEntry → Nat → List FEnhancedVoteEntry
  | [], _ => []
  | Entry :: rest, VotedScenario =>
    if Entry.ScenarioId = VotedScenario then
      { Entry with WeightedVotes := Entry.WeightedVotes + Weight } :: rest
    else Entry :: addWeightFirstMatch Weight rest VotedScenario

/-- The outer loop of `UpdateVoteWeights` over the pairs of `PlayerVotes` (lines 200-217). -/
def weightLoop (c : EnhancedStateView) :
    List (Nat × Nat) → List FEnhancedVoteEntry → List FEnhancedVoteEntry
  | [], opts => opts
  | PlayerVotePair :: rest, opts =>
    weightLoop c rest
      (addWeightFirstMatch (CalculatePlayerVoteWeight c PlayerVotePair.1) opts PlayerVotePair.2)

/-- The statements of `UpdateVoteWeights` on the view. -/
def UpdateVoteWeights (c : EnhancedStateView) :
    EnhancedStateView :=
  { c with
    EnhancedVoteOptions :=
      weightLoop c c.PlayerVotes
        (c.EnhancedVoteOptions.map (fun Entry => { Entry with WeightedVotes := 0 })) }

/-- Model of `FMath::Clamp`. -/
def Clamp (X Min Max : ℚ) : ℚ :=
  if X < Min then Min else if X < Max then X else Max

/-- The statements of `ServerUpdatePlayerPerformance_Implementation` on the view;
`PlayerState` is `none` for a null pointer. -/
def ServerUpdatePlayerPerformance (c : EnhancedStateView)
    (PlayerState : Option Nat) (PerformanceScore : ℚ) : EnhancedStateView :=
  match PlayerState with
  | none => c
  | some Player =>
    let m := TMapFindOrAdd c.PlayerWeights Player FPlayerVoteWeight.Default
    let Weight := (TMapFind m Player).getD FPlayerVoteWeight.Default
    let NewMultiplier :=
      Clamp (PerformanceScore * c.PerformanceWeightMultiplier) c.MinimumVoteWeight
        c.MaximumVoteWeight
    let c1 := { c with
      PlayerWeights := TMapAdd m Player { Weight with PerformanceMultiplier := NewMultiplier } }
    if c1.Super.VotingState.bVotingActive = true then UpdateVoteWeights c1 else c1

/-- The first loop of the weighted `ProcessVotingResults` (lines 121-134) on the pair
`(WinningScenario, HighestWeightedVotes)`. -/
def weightedWinnerLoop (VetoThreshold : Int) :
    List FEnhancedVoteEntry → Nat × ℚ → Nat × ℚ
  | [], acc => acc
  | Entry :: rest, (WinningScenario, HighestWeightedVotes) =>
    if Entry.VetoCount ≥ VetoThreshold then
      weightedWinnerLoop VetoThreshold rest (WinningScenario, HighestWeightedVotes)
    else if Entry.WeightedVotes > HighestWeightedVotes then
      weightedWinnerLoop VetoThreshold rest (Entry.ScenarioId, Entry.WeightedVotes)
    else weightedWinnerLoop VetoThreshold rest (WinningScenario, HighestWeightedVotes)

/-- The identifier the weighted `ProcessVotingResults` settles on (lines 117-153). -/
def weightedWinner (c : EnhancedStateView) (rng : Nat → Nat) : Nat :=
  let WinningScenario :=
    (weightedWinnerLoop c.VetoThreshold c.EnhancedVoteOptions (DefaultAssetId, -1)).1
  if IsValidAssetId WinningScenario = false then
    let ValidOptions :=
      c.EnhancedVoteOptions.filter (fun Entry => decide (Entry.VetoCount < c.VetoThreshold))
    if h : ValidOptions.length > 0 then
      (ValidOptions.get ⟨rng 0 % ValidOptions.length, Nat.mod_lt _ h⟩).ScenarioId
    else WinningScenario
  else WinningScenario

/-- The statements of the weighted `ProcessVotingResults` on the view: the view and
the persistence manager afterwards (`none` when the subsystem is absent) and the identifier
broadcast on `OnNextScenarioSelected` (`none` when the call returns before the broadcast).
`UtcNow` and `PlayerArrayNum` are what `UpdatePlayCount` reads from the environment. -/
def EnhancedStateView.ProcessVotingResults
    (c : EnhancedStateView)
    (PersistenceManager : Option UScenarioPersistenceManager) (rng : Nat → Nat)
    (UtcNow : Int) (PlayerArrayNum : Option Nat) :
    EnhancedStateView × Option UScenarioPersistenceManager × Option Nat :=
  if c.Super.VotingState.bVotingActive = false then (c, PersistenceManager, none)
  else
    let WinningScenario := weightedWinner c rng
    let pm := match PersistenceManager with
      | some pm => some (UpdatePlayCount pm WinningScenario UtcNow PlayerArrayNum)
      | none => none
    ({ c with
        Super := { c.Super with
          VotingState := { c.Super.VotingState with bVotingActive := false } } },
      pm, some WinningScenario)

/-- The backfill loop of `ApplyRotationRules` over `RotationOptions` (lines 275-299). -/
def backfillLoop (NumScenarioOptions : Int) :
    List Nat → List FEnhancedVoteEntry → List FEnhancedVoteEntry
  | [], FilteredOptions => FilteredOptions
  | ScenarioId :: rest, FilteredOptions =>
    if (FilteredOptions.length : Int) ≥ NumScenarioOptions then FilteredOptions
    else if FilteredOptions.any (fun Entry => decide (Entry.ScenarioId = ScenarioId)) then
      backfillLoop NumScenarioOptions rest FilteredOptions
    else
      backfillLoop NumScenarioOptions rest
        (FilteredOptions ++ [FEnhancedVoteEntry.New ScenarioId])

/-- The first loop of `ApplyRotationRules` (lines 262-268): the options that
`IsScenarioAllowedInRotation` accepts, in order. -/
def rotationSurvivors (c : EnhancedStateView)
    (pm : UScenarioPersistenceManager) (CurrentTime : Int) : List FEnhancedVoteEntry :=
  c.EnhancedVoteOptions.filter
    (fun Entry => IsScenarioAllowedInRotation pm CurrentTime Entry.ScenarioId)

/-- The statements of `ApplyRotationRules` on the view; `CurrentTime` is the
clock read by the persistence manager during the call. -/
def ApplyRotationRules (c : EnhancedStateView)
    (PersistenceManager : Option UScenarioPersistenceManager) (CurrentTime : Int) :
    EnhancedStateView :=
  match PersistenceManager with
  | none => c
  | some pm =>
    let FilteredOptions := rotationSurvivors c pm CurrentTime
    let FilteredOptions2 :=
      if (FilteredOptions.length : Int) < Int.tdiv c.Super.NumScenarioOptions 2 then
        backfillLoop c.Super.NumScenarioOptions (GetNextRotationOptions pm CurrentTime)
          FilteredOptions
      else FilteredOptions
    { c with EnhancedVoteOptions := FilteredOptions2 }


/-! ## UScenarioPersistenceManager: statistics table and popularity ranking -/

/-- Model of `UScenarioPersistenceManager::SaveScenarioStats`: the record is stored under
its own `ScenarioId`. -/
def SaveScenarioStats (pm : UScenarioPersistenceManager) (Stats : FScenarioStats) :
    UScenarioPersistenceManager :=
  { pm with ScenarioStatistics := TMapAdd pm.ScenarioStatistics Stats.ScenarioId Stats }

/-- Model of `UScenarioPersistenceManager::GetScenarioStats`. -/
def GetScenarioStats (pm : UScenarioPersistenceManager) (ScenarioId : Nat) : FScenarioStats :=
  match TMapFind pm.ScenarioStatistics ScenarioId with
  | some Stats => Stats
  | none => FScenarioStats.Default

/-- Model of `UScenarioPersistenceManager::SetRotationEntry`. -/
def SetRotationEntry (pm : UScenarioPersistenceManager) (Entry : FScenarioRotationEntry) :
    UScenarioPersistenceManager :=
  { pm with
    RotationEntries :=
      pm.RotationEntries.filter
          (fun ExistingEntry => !decide (ExistingEntry.ScenarioId = Entry.ScenarioId))
        ++ [Entry] }

/-- Model of `UScenarioPersistenceManager::LoadPersistedData`. `File` is what the save file
yields: `none` when it cannot be read or parsed, else the records and rotation entries that
convert, in file order. -/
def LoadPersistedData (pm : UScenarioPersistenceManager)
    (File : Option (List FScenarioStats × List FScenarioRotationEntry)) :
    UScenarioPersistenceManager :=
  match File with
  | none => pm
  | some (StatsArray, RotationArray) =>
    { ScenarioStatistics :=
        StatsArray.foldl (fun m Stats => TMapAdd m Stats.ScenarioId Stats)
          pm.ScenarioStatistics
      RotationEntries := pm.RotationEntries ++ RotationArray }

/-- Model of `UScenarioPersistenceManager::Initialize`: the subsystem starts with empty
containers and loads the save file. -/
def Initialize (File : Option (List FScenarioStats × List FScenarioRotationEntry)) :
    UScenarioPersistenceManager :=
  LoadPersistedData { ScenarioStatistics := [], RotationEntries := [] } File

/-- The score that `GetWeightedScenarioOptions` computes for a record (lines 129-137), in
`float` arithmetic: both integers are converted to `float`, `0.7f` and `0.3f` are the
`float` values nearest to 7/10 and 3/10, and each of the division, the two products and
the sum is rounded to `float`. -/
def PopularityScore (Stats : FScenarioStats) : ℚ :=
  if Stats.TimesPlayed > 0 then
    let VotesPerPlay : ℚ :=
      ToFloat (ToFloat (Stats.TotalVotes : ℚ) / ToFloat (Stats.TimesPlayed : ℚ))
    ToFloat
      (ToFloat (VotesPerPlay * ToFloat (7 / 10))
        + ToFloat (Stats.AveragePlayerCount * ToFloat (3 / 10)))
  else 0

/-- Model of `UScenarioPersistenceManager::GetWeightedScenarioOptions`. `TArraySort` is the
engine's `TArray::Sort` called with the predicate `A.Value > B.Value`. -/
def GetWeightedScenarioOptions (TArraySort : List (Nat × ℚ) → List (Nat × ℚ))
    (pm : UScenarioPersistenceManager) (Count : Int) : List Nat :=
  let ScoredScenarios :=
    pm.ScenarioStatistics.map
      (fun StatPair => (StatPair.2.ScenarioId, PopularityScore StatPair.2))
  let Sorted := TArraySort ScoredScenarios
  (Sorted.take (min Count (Sorted.length : Int)).toNat).map Prod.fst

/-- States of the persistence manager: after `Initialize`, then any sequence of
`SaveScenarioStats`, `UpdatePlayCount` and `SetRotationEntry` calls (the members
`ScenarioStatistics` and `RotationEntries` are private). -/
inductive PersistenceReachable : UScenarioPersistenceManager → Prop
  | init (File : Option (List FScenarioStats × List FScenarioRotationEntry)) :
      PersistenceReachable (Initialize File)
  | save (pm : UScenarioPersistenceManager) (Stats : FScenarioStats) :
      PersistenceReachable pm → PersistenceReachable (SaveScenarioStats pm Stats)
  | play (pm : UScenarioPersistenceManager) (ScenarioId : Nat) (UtcNow : Int)
      (PlayerArrayNum : Option Nat) :
      PersistenceReachable pm →
      PersistenceReachable (UpdatePlayCount pm ScenarioId UtcNow PlayerArrayNum)
  | rotation (pm : UScenarioPersistenceManager) (Entry : FScenarioRotationEntry) :
      PersistenceReachable pm → PersistenceReachable (SetRotationEntry pm Entry)

/-- What the engine guarantees of `TArray::Sort` with the predicate `A.Value > B.Value`:
the array afterwards is a rearrangement of the array before in which no later element
satisfies the predicate against an earlier one. -/
def SortsByScore (TArraySort : List (Nat × ℚ) → List (Nat × ℚ)) : Prop :=
  ∀ l, (TArraySort l).Perm l ∧ (TArraySort l).Pairwise (fun A B => ¬ (B.2 > A.2))

/-! ## UEnhancedScenarioTransitionComponent: starting a round, behind the cast -/

/-- The statements of the override `GenerateVotingOptions` on the view.
`PersistenceManager` is the subsystem pointer (`none` when null), `ValidScenarios` and `rng`
are what the base-class method reads, `CurrentTime` is the clock read by
`ApplyRotationRules`. -/
def EnhancedStateView.GenerateVotingOptions
    (c : EnhancedStateView)
    (PersistenceManager : Option UScenarioPersistenceManager)
    (TArraySort : List (Nat × ℚ) → List (Nat × ℚ)) (ValidScenarios : List Nat)
    (rng : Nat → Nat) (CurrentTime : Int) : EnhancedStateView :=
  match PersistenceManager with
  | none => { c with Super := SharedGamemode.GenerateVotingOptions c.Super ValidScenarios rng }
  | some pm =>
    let WeightedOptions := GetWeightedScenarioOptions TArraySort pm c.Super.NumScenarioOptions
    ApplyRotationRules
      { c with EnhancedVoteOptions := WeightedOptions.map FEnhancedVoteEntry.New }
      PersistenceManager CurrentTime

/-- The inherited `StartVoting`, whose call of the virtual `GenerateVotingOptions` reaches
the override of the derived class. -/
def EnhancedStateView.StartVoting
    (c : EnhancedStateView)
    (PersistenceManager : Option UScenarioPersistenceManager)
    (TArraySort : List (Nat × ℚ) → List (Nat × ℚ)) (ValidScenarios : List Nat)
    (rng : Nat → Nat) (CurrentTime : Int) : EnhancedStateView :=
  if c.Super.OwnerRole ≠ ENetRole.ROLE_Authority then c
  else
    EnhancedStateView.GenerateVotingOptions
      { c with
        Super := { c.Super with
          VotingState := { c.Super.VotingState with
            bVotingActive := true
            VoteTimeRemaining := c.Super.VotingDuration }
          PlayerVotes := [] } }
      PersistenceManager TArraySort ValidScenarios rng CurrentTime

/-- The statements of `InitializePlayerWeight` on the view. -/
def InitializePlayerWeight (c : EnhancedStateView) (PlayerState : Nat) :
    EnhancedStateView :=
  if (TMapFind c.PlayerWeights PlayerState).isSome = false then
    { c with
      PlayerWeights :=
        TMapAdd c.PlayerWeights PlayerState
          { BaseWeight := 1, PerformanceMultiplier := 1, bHasVetoed := false } }
  else c

/-! ## UEnhancedScenarioTransitionComponent as declared

The member `VotingState` is declared `FScenarioVotingState VotingState;` in the base class
(`ScenarioTransitionComponent.h`, line 117) and nothing constructs an
`FEnhancedVotingState`. The behaviour of
`static_cast<FEnhancedVotingState*>(&VotingState)` is defined only when the object at
`&VotingState` is an `FEnhancedVotingState`; the result of a member function is `none`
when it evaluates the cast on another object. -/

/-- The members that `FEnhancedVotingState` adds to `FScenarioVotingState`. -/
structure FEnhancedVotingState where
  EnhancedVoteOptions : List FEnhancedVoteEntry
  bAllowVetos : Bool
  VetoThreshold : Int
  deriving DecidableEq, Repr

/-- Members of `UEnhancedScenarioTransitionComponent`. `Super` is the base-class part with
the member `VotingState` and the private `PlayerVotes`; `PlayerVotes` is the map of the same
name that the derived class declares. `VotingStateAsEnhanced` is the derived part of the
object at `&VotingState` when that object is an `FEnhancedVotingState`, and `none` when it
is the `FScenarioVotingState` that the member is declared as: `none` in every component
that the program constructs. -/
structure UEnhancedScenarioTransitionComponent where
  Super : UScenarioTransitionComponent
  VotingStateAsEnhanced : Option FEnhancedVotingState
  MinimumVoteWeight : ℚ
  MaximumVoteWeight : ℚ
  PerformanceWeightMultiplier : ℚ
  PlayerWeights : List (Nat × FPlayerVoteWeight)
  PlayerVotes : List (Nat × Nat)

/-- The component that a view stands for. -/
def EnhancedStateView.Component (v : EnhancedStateView) :
    UEnhancedScenarioTransitionComponent :=
  { Super := v.Super
    VotingStateAsEnhanced :=
      some
        { EnhancedVoteOptions := v.EnhancedVoteOptions
          bAllowVetos := v.bAllowVetos
          VetoThreshold := v.VetoThreshold }
    MinimumVoteWeight := v.MinimumVoteWeight
    MaximumVoteWeight := v.MaximumVoteWeight
    PerformanceWeightMultiplier := v.PerformanceWeightMultiplier
    PlayerWeights := v.PlayerWeights
    PlayerVotes := v.PlayerVotes }

/-- Model of `static_cast<FEnhancedVotingState*>(&VotingState)`: the view on which the
statements after the cast act, `none` when the object is not an `FEnhancedVotingState`. -/
def UEnhancedScenarioTransitionComponent.CastVotingState
    (c : UEnhancedScenarioTransitionComponent) : Option EnhancedStateView :=
  match c.VotingStateAsEnhanced with
  | none => none
  | some EnhancedState =>
    some
      { Super := c.Super
        EnhancedVoteOptions := EnhancedState.EnhancedVoteOptions
        bAllowVetos := EnhancedState.bAllowVetos
        VetoThreshold := EnhancedState.VetoThreshold
        MinimumVoteWeight := c.MinimumVoteWeight
        MaximumVoteWeight := c.MaximumVoteWeight
        PerformanceWeightMultiplier := c.PerformanceWeightMultiplier
        PlayerWeights := c.PlayerWeights
        PlayerVotes := c.PlayerVotes }

/-- The inherited `ServerCastVote_Implementation`, which acts on the base-class part. -/
def UEnhancedScenarioTransitionComponent.ServerCastVote
    (c : UEnhancedScenarioTransitionComponent) (PlayerState : Option Nat) (ScenarioId : Nat) :
    UEnhancedScenarioTransitionComponent :=
  { c with Super := SharedGamemode.ServerCastVote c.Super PlayerState ScenarioId }

/-- Model of `UEnhancedScenarioTransitionComponent::ServerVetoScenario_Implementation`
(lines 21-51): the three early returns, then the loop over the array behind the cast. -/
def UEnhancedScenarioTransitionComponent.ServerVetoScenario_Implementation
    (c : UEnhancedScenarioTransitionComponent) (PlayerState : Option Nat) (ScenarioId : Nat) :
    Option UEnhancedScenarioTransitionComponent :=
  if c.Super.VotingState.bVotingActive = false then some c
  else
    match PlayerState with
    | none => some c
    | some Player =>
      match TMapFind c.PlayerWeights Player with
      | none => some c
      | some PlayerWeight =>
        if PlayerWeight.bHasVetoed = true then some c
        else
          c.CastVotingState.map
            (fun v => (ServerVetoScenario v PlayerState ScenarioId).Component)

/-- Model of `UEnhancedScenarioTransitionComponent::UpdateVoteWeights`, whose first
statement is the cast. -/
def UEnhancedScenarioTransitionComponent.UpdateVoteWeights
    (c : UEnhancedScenarioTransitionComponent) : Option UEnhancedScenarioTransitionComponent :=
  c.CastVotingState.map (fun v => (SharedGamemode.UpdateVoteWeights v).Component)

/-- Model of
`UEnhancedScenarioTransitionComponent::ServerUpdatePlayerPerformance_Implementation`
(lines 53-74); `PlayerState` is `none` for a null pointer; the product is a `float`
multiplication. -/
def UEnhancedScenarioTransitionComponent.ServerUpdatePlayerPerformance_Implementation
    (c : UEnhancedScenarioTransitionComponent) (PlayerState : Option Nat)
    (PerformanceScore : ℚ) : Option UEnhancedScenarioTransitionComponent :=
  match PlayerState with
  | none => some c
  | some Player =>
    let m := TMapFindOrAdd c.PlayerWeights Player FPlayerVoteWeight.Default
    let Weight := (TMapFind m Player).getD FPlayerVoteWeight.Default
    let NewMultiplier :=
      Clamp (ToFloat (PerformanceScore * c.PerformanceWeightMultiplier)) c.MinimumVoteWeight
        c.MaximumVoteWeight
    let c1 := { c with
      PlayerWeights := TMapAdd m Player { Weight with PerformanceMultiplier := NewMultiplier } }
    if c1.Super.VotingState.bVotingActive = true then c1.UpdateVoteWeights else some c1

/-- Model of `UEnhancedScenarioTransitionComponent::ApplyRotationRules` (lines 250-304):
the return without a persistence manager, then the cast. -/
def UEnhancedScenarioTransitionComponent.ApplyRotationRules
    (c : UEnhancedScenarioTransitionComponent)
    (PersistenceManager : Option UScenarioPersistenceManager) (CurrentTime : Int) :
    Option UEnhancedScenarioTransitionComponent :=
  match PersistenceManager with
  | none => some c
  | some pm =>
    c.CastVotingState.map
      (fun v => (SharedGamemode.ApplyRotationRules v (some pm) CurrentTime).Component)

/-- Model of `UEnhancedScenarioTransitionComponent::GenerateVotingOptions` (lines 76-106):
without a persistence manager the base-class method runs; with one, the weighted options
are fetched and written through the cast. -/
def UEnhancedScenarioTransitionComponent.GenerateVotingOptions
    (c : UEnhancedScenarioTransitionComponent)
    (PersistenceManager : Option UScenarioPersistenceManager)
    (TArraySort : List (Nat × ℚ) → List (Nat × ℚ)) (ValidScenarios : List Nat)
    (rng : Nat → Nat) (CurrentTime : Int) : Option UEnhancedScenarioTransitionComponent :=
  match PersistenceManager with
  | none =>
    some { c with Super := SharedGamemode.GenerateVotingOptions c.Super ValidScenarios rng }
  | some pm =>
    c.CastVotingState.map
      (fun v =>
        (v.GenerateVotingOptions (some pm) TArraySort ValidScenarios rng
          CurrentTime).Component)

/-- The inherited `StartVoting`, whose call of the virtual `GenerateVotingOptions` reaches
the override. -/
def UEnhancedScenarioTransitionComponent.StartVoting
    (c : UEnhancedScenarioTransitionComponent)
    (PersistenceManager : Option UScenarioPersistenceManager)
    (TArraySort : List (Nat × ℚ) → List (Nat × ℚ)) (ValidScenarios : List Nat)
    (rng : Nat → Nat) (CurrentTime : Int) : Option UEnhancedScenarioTransitionComponent :=
  if c.Super.OwnerRole ≠ ENetRole.ROLE_Authority then some c
  else
    UEnhancedScenarioTransitionComponent.GenerateVotingOptions
      { c with
        Super := { c.Super with
          VotingState := { c.Super.VotingState with
            bVotingActive := true
            VoteTimeRemaining := c.Super.VotingDuration }
          PlayerVotes := [] } }
      PersistenceManager TArraySort ValidScenarios rng CurrentTime

/-- Model of the weighted `UEnhancedScenarioTransitionComponent::ProcessVotingResults`
(lines 108-178): the return outside a round, then the cast; the component and the
persistence manager afterwards and the identifier broadcast, as on the view. -/
def UEnhancedScenarioTransitionComponent.ProcessVotingResults
    (c : UEnhancedScenarioTransitionComponent)
    (PersistenceManager : Option UScenarioPersistenceManager) (rng : Nat → Nat)
    (UtcNow : Int) (PlayerArrayNum : Option Nat) :
    Option
      (UEnhancedScenarioTransitionComponent × Option UScenarioPersistenceManager
        × Option Nat) :=
  if c.Super.VotingState.bVotingActive = false then some (c, PersistenceManager, none)
  else
    c.CastVotingState.map
      (fun v =>
        ((v.ProcessVotingResults PersistenceManager rng UtcNow PlayerArrayNum).1.Component,
          (v.ProcessVotingResults PersistenceManager rng UtcNow PlayerArrayNum).2.1,
          (v.ProcessVotingResults PersistenceManager rng UtcNow PlayerArrayNum).2.2))

/-- Model of `UEnhancedScenarioTransitionComponent::UEnhancedScenarioTransitionComponent`
(lines 14-19): the constructor sets `0.5f`, `2.0f` and `0.1f`; the maps are empty, the
base-class part is given, and the member `VotingState` is the `FScenarioVotingState` of the
base class. -/
def UEnhancedScenarioTransitionComponent.Construct (Super : UScenarioTransitionComponent) :
    UEnhancedScenarioTransitionComponent :=
  { Super := Super
    VotingStateAsEnhanced := none
    MinimumVoteWeight := 1 / 2
    MaximumVoteWeight := 2
    PerformanceWeightMultiplier := ToFloat (1 / 10)
    PlayerWeights := []
    PlayerVotes := [] }

/-! ## FTagStackContainer -/

/-- Result of `TMap::Remove`: the map without the key. -/
def TMapRemove {κ ν : Type} [DecidableEq κ] (m : List (κ × ν)) (k : κ) : List (κ × ν) :=
  m.filter (fun p => !decide (p.1 = k))

/-- Assignment through `TMap::operator[]`, which requires the key to be present (`none` is
the failed check). -/
def TMapSet {κ ν : Type} [DecidableEq κ] (m : List (κ × ν)) (k : κ) (v : ν) :
    Option (List (κ × ν)) :=
  match TMapFind m k with
  | some _ => some (TMapAdd m k v)
  | none => none

/-- Item `FTagStack`; a gameplay tag is a number, 0 being the empty tag. -/
structure FTagStack where
  Tag : Nat
  StackCount : Int
  deriving DecidableEq, Repr

/-- Model of `FGameplayTag::IsValid`. -/
def IsValidTag (Tag : Nat) : Bool :=
  decide (Tag ≠ 0)

/-- Engine constant `MAX_int32`. -/
def MAX_int32 : Int := 2147483647

/-- Members of `FTagStackContainer`; `Broadcasts` records the calls of
`OnTagCountChanged.Broadcast(Tag, NewCount, OldCount)` in order. -/
structure FTagStackContainer where
  Stacks : List FTagStack
  TagToCountMap : List (Nat × Int)
  Broadcasts : List (Nat × Int × Int)
  deriving DecidableEq, Repr

/-- The stack at which the loops over `Stacks` stop: the first one that carries the tag. -/
def findStack (Tag : Nat) : List FTagStack → Option FTagStack
  | [] => none
  | Stack :: rest => if Stack.Tag = Tag then some Stack else findStack Tag rest

/-- The array after `Stack.StackCount = NewCount` on the first stack that carries the
tag. -/
def assignFirst (Tag : Nat) (NewCount : Int) : List FTagStack → List FTagStack
  | [] => []
  | Stack :: rest =>
    if Stack.Tag = Tag then { Stack with StackCount := NewCount } :: rest
    else Stack :: assignFirst Tag NewCount rest

/-- The array after `It.RemoveCurrent()` on the first stack that carries the tag. -/
def removeFirst (Tag : Nat) : List FTagStack → List FTagStack
  | [] => []
  | Stack :: rest => if Stack.Tag = Tag then rest else Stack :: removeFirst Tag rest

/-- Model of `FTagStackContainer::AddStack`. The result is `none` when the int32 addition
`OldCount + StackCount` overflows or when `TagToCountMap[Tag]` does not find the key. -/
def AddStack (c : FTagStackContainer) (Tag : Nat) (StackCount : Int) :
    Option FTagStackContainer :=
  if IsValidTag Tag = false then some c
  else if StackCount > 0 then
    match findStack Tag c.Stacks with
    | some Stack =>
      let OldCount := Stack.StackCount
      let NewCount := OldCount + StackCount
      if NewCount > MAX_int32 then none
      else
        match TMapSet c.TagToCountMap Tag NewCount with
        | some m =>
          some
            { Stacks := assignFirst Tag NewCount c.Stacks
              TagToCountMap := m
              Broadcasts := c.Broadcasts ++ [(Tag, NewCount, OldCount)] }
        | none => none
    | none =>
      some
        { Stacks := c.Stacks ++ [{ Tag := Tag, StackCount := StackCount }]
          TagToCountMap := TMapAdd c.TagToCountMap Tag StackCount
          Broadcasts := c.Broadcasts ++ [(Tag, StackCount, 0)] }
  else some c

/-- Model of `FTagStackContainer::RemoveStack`; `none` as in `AddStack`. -/
def RemoveStack (c : FTagStackContainer) (Tag : Nat) (StackCount : Int) :
    Option FTagStackContainer :=
  if IsValidTag Tag = false then some c
  else if StackCount > 0 then
    match findStack Tag c.Stacks with
    | some Stack =>
      let OldCount := Stack.StackCount
      if Stack.StackCount ≤ StackCount then
        some
          { Stacks := removeFirst Tag c.Stacks
            TagToCountMap := TMapRemove c.TagToCountMap Tag
            Broadcasts := c.Broadcasts ++ [(Tag, 0, OldCount)] }
      else
        let NewCount := Stack.StackCount - StackCount
        match TMapSet c.TagToCountMap Tag NewCount with
        | some m =>
          some
            { Stacks := assignFirst Tag NewCount c.Stacks
              TagToCountMap := m
              Broadcasts := c.Broadcasts ++ [(Tag, NewCount, OldCount)] }
        | none => none
    | none => some c
  else some c

/-- Model of `FTagStackContainer::SetStack`; `none` as in `AddStack`. -/
def SetStack (c : FTagStackContainer) (Tag : Nat) (StackCount : Int) :
    Option FTagStackContainer :=
  if IsValidTag Tag = false then some c
  else if StackCount > 0 then
    match findStack Tag c.Stacks with
    | some Stack =>
      let OldCount := Stack.StackCount
      match TMapSet c.TagToCountMap Tag StackCount with
      | some m =>
        some
          { Stacks := assignFirst Tag StackCount c.Stacks
            TagToCountMap := m
            Broadcasts := c.Broadcasts ++ [(Tag, StackCount, OldCount)] }
      | none => none
    | none =>
      some
        { Stacks := c.Stacks ++ [{ Tag := Tag, StackCount := StackCount }]
          TagToCountMap := TMapAdd c.TagToCountMap Tag StackCount
          Broadcasts := c.Broadcasts ++ [(Tag, StackCount, 0)] }
  else some c

/-- Model of `FTagStackContainer::ClearStack`. -/
def ClearStack (c : FTagStackContainer) (Tag : Nat) : FTagStackContainer :=
  if IsValidTag Tag = false then c
  else
    match findStack Tag c.Stacks with
    | some Stack =>
      { Stacks := removeFirst Tag c.Stacks
        TagToCountMap := TMapRemove c.TagToCountMap Tag
        Broadcasts := c.Broadcasts ++ [(Tag, 0, Stack.StackCount)] }
    | none => c

/-- Model of `FTagStackContainer::GetStackCount`: `FindRef` yields 0 for a missing key. -/
def GetStackCount (c : FTagStackContainer) (Tag : Nat) : Int :=
  (TMapFind c.TagToCountMap Tag).getD 0

/-- Model of `FTagStackContainer::ContainsTag`. -/
def ContainsTag (c : FTagStackContainer) (Tag : Nat) : Bool :=
  (TMapFind c.TagToCountMap Tag).isSome

/-- The default-constructed container. -/
def FTagStackContainer.Empty : FTagStackContainer :=
  { Stacks := [], TagToCountMap := [], Broadcasts := [] }

/-- States of a container on which only `AddStack`, `RemoveStack`, `SetStack` and
`ClearStack` have been called, each call having returned. -/
inductive TagStackReachable : FTagStackContainer → Prop
  | empty : TagStackReachable FTagStackContainer.Empty
  | add (c c1 : FTagStackContainer) (Tag : Nat) (StackCount : Int) :
      TagStackReachable c → AddStack c Tag StackCount = some c1 → TagStackReachable c1
  | remove (c c1 : FTagStackContainer) (Tag : Nat) (StackCount : Int) :
      TagStackReachable c → RemoveStack c Tag StackCount = some c1 → TagStackReachable c1
  | set (c c1 : FTagStackContainer) (Tag : Nat) (StackCount : Int) :
      TagStackReachable c → SetStack c Tag StackCount = some c1 → TagStackReachable c1
  | clear (c : FTagStackContainer) (Tag : Nat) :
      TagStackReachable c → TagStackReachable (ClearStack c Tag)

/-! ## Sample data -/

/-- Templates in which every stage has the given mode, no delay, no successor, no objective
and no service of its own, and the objective at address `o` has mode `objMode o`. -/
def sampleTemplates (stageMode : EScenarioCompletionMode)
    (objMode : Nat → EScenarioCompletionMode) : Templates :=
  { Stage := fun _ =>
      { CompletionMode := stageMode, StageCompletionDelay := 0, NextStage_Success := none,
        NextStage_Failure := none, Objectives := [], StageServices := [] }
    Objective := fun o => { CompletionMode := objMode o, ObjectiveTrackers := [] } }

/-- An active instance on a server, in the stage at address 0, with the given trackers. -/
def sampleInstance (trackers : List (Option UScenarioTask_ObjectiveTracker)) :
    UScenarioInstance :=
  { World := some ENetMode.NM_DedicatedServer, ScenarioAsset := none,
    ScenarioState := EScenarioState.Active, CurrentStage := some 0,
    PreviousStageResult := EScenarioResult.None, RuntimeTags := [], GlobalServices := [],
    StageServices := [], ObjectiveTrackers := trackers, StageProgressionTimer := none,
    Trace := [] }

/-- A live tracker of the objective at address `o` reporting `r`. -/
def sampleTracker (r : EScenarioResult) (o : Nat) : Option UScenarioTask_ObjectiveTracker :=
  some { CurrentResult := r, Objective := some o }


/-- The tally credited to an identifier: `VoteCount` of the first option that carries it
(the entry both loops of `ServerCastVote_Implementation` stop at), 0 when it is not listed. -/
def tallyOf : List FScenarioVoteEntry → Nat → Int
  | [], _ => 0
  | Entry :: rest, ScenarioId =>
    if Entry.ScenarioId = ScenarioId then Entry.VoteCount else tallyOf rest ScenarioId

/-- Number of participants whose recorded vote satisfies `q`. -/
def ledgerCount (q : Nat → Bool) (PlayerVotes : List (Nat × Nat)) : Nat :=
  PlayerVotes.countP (fun pv => q pv.2)

/-- Two stages: stage 0 (`AllSuccess`, objective 5) leads on success to stage 1
(`AnySuccess`, objective 6, one service) and has no failure successor; stage 1 has no
successor. Every objective is `AllSuccess` with one tracker template. -/
def twoStageTemplates : Templates :=
  { Stage := fun i =>
      if i = 0 then
        { CompletionMode := EScenarioCompletionMode.AllSuccess, StageCompletionDelay := 0,
          NextStage_Success := some 1, NextStage_Failure := none, Objectives := [5],
          StageServices := [] }
      else
        { CompletionMode := EScenarioCompletionMode.AnySuccess, StageCompletionDelay := 0,
          NextStage_Success := none, NextStage_Failure := none, Objectives := [6],
          StageServices := [some { CurrentResult := EScenarioResult.InProgress,
                                   OwningStage := some 1 }] }
    Objective := fun o =>
      { CompletionMode := EScenarioCompletionMode.AllSuccess,
        ObjectiveTrackers := [sampleTracker EScenarioResult.InProgress o] } }

/-- A transition component on the authority with the default configuration of the
constructor (30 seconds, 3 options) and no round in progress. -/
def sampleComponent : UScenarioTransitionComponent :=
  { OwnerRole := ENetRole.ROLE_Authority, VotingDuration := 30, NumScenarioOptions := 3,
    VotingState := { VoteOptions := [], VoteTimeRemaining := 0, bVotingActive := false },
    PlayerVotes := [] }


/-- A round on options `[1, 2]` (candidates 1, 2, 3, every raw draw 0) in which participant
100 votes 1 and then 2, and participant 101 votes the unlisted identifier 9. -/
def sampleRound : UScenarioTransitionComponent :=
  ServerCastVote
    (ServerCastVote
      (ServerCastVote (StartVoting sampleComponent [1, 2, 3] (fun _ => 0)) (some 100) 1)
      (some 100) 2)
    (some 101) 9

/-- A round on options `[1, 2]` in which the only vote cast, by participant 100, names the
unlisted identifier 9. -/
def sampleRoundUnlisted : UScenarioTransitionComponent :=
  ServerCastVote (StartVoting sampleComponent [1, 2, 3] (fun _ => 0)) (some 100) 9


/-- A round on options `[1, 2, 3]` (candidates 1 to 5, every raw draw 0) with the votes
1, 1, 2 of the participants 100, 101, 102. -/
def sampleRoundVoted : UScenarioTransitionComponent :=
  ServerCastVote
    (ServerCastVote
      (ServerCastVote (StartVoting sampleComponent [1, 2, 3, 4, 5] (fun _ => 0)) (some 100) 1)
      (some 101) 1)
    (some 102) 2

/-- A view in an active round on the given options: the weight configuration of the
component constructor (0.5, 2.0, 0.1), `bAllowVetos` true and `VetoThreshold` 3 as the
constructor of `FEnhancedVotingState` sets them, no weight record and no vote. -/
def sampleEnhanced (opts : List FEnhancedVoteEntry) : EnhancedStateView :=
  { Super := { sampleComponent with
      VotingState := { VoteOptions := [], VoteTimeRemaining := 30, bVotingActive := true } }
    EnhancedVoteOptions := opts
    bAllowVetos := true
    VetoThreshold := 3
    MinimumVoteWeight := 1 / 2
    MaximumVoteWeight := 2
    PerformanceWeightMultiplier := 1 / 10
    PlayerWeights := []
    PlayerVotes := [] }

/-- The weighted round of the scenario "P1 weight 2.0 votes A, P2 weight 1.0 votes B" on the
options `[B, A]` with A = 1, B = 2, P1 = 100, P2 = 101: the performance scores 20 and 10
give the weights 2 and 1, then both votes are cast. -/
def sampleWeightedRound : EnhancedStateView :=
  ((ServerUpdatePlayerPerformance
      (ServerUpdatePlayerPerformance
        (sampleEnhanced [FEnhancedVoteEntry.New 2, FEnhancedVoteEntry.New 1]) (some 100) 20)
      (some 101) 10).ServerCastVote (some 100) 1).ServerCastVote (some 101) 2


/-- The weighted total credited to an identifier: `WeightedVotes` of the first option that
carries it (the entry the inner loop of `UpdateVoteWeights` stops at), 0 when it is not
listed. -/
def weightedTallyOf : List FEnhancedVoteEntry → Nat → ℚ
  | [], _ => 0
  | Entry :: rest, ScenarioId =>
    if Entry.ScenarioId = ScenarioId then Entry.WeightedVotes
    else weightedTallyOf rest ScenarioId

/-- Sum of the current weights of the participants that a ledger records as having chosen
the identifier. -/
def weightSum (c : EnhancedStateView) : List (Nat × Nat) → Nat → ℚ
  | [], _ => 0
  | PlayerVotePair :: rest, ScenarioId =>
    (if PlayerVotePair.2 = ScenarioId then CalculatePlayerVoteWeight c PlayerVotePair.1 else 0)
      + weightSum c rest ScenarioId

/-- A weighted round on the options `[1, 2]` in which participant 100 casts a vote for
option 1 and then receives the performance score 20 (weight 2). -/
def sampleVotedThenScored : EnhancedStateView :=
  ServerUpdatePlayerPerformance
    ((sampleEnhanced [FEnhancedVoteEntry.New 1, FEnhancedVoteEntry.New 2]).ServerCastVote
      (some 100) 1)
    (some 100) 20


/-- Sum of `VetoCount` over a list of options. -/
def totalVetoCount : List FEnhancedVoteEntry → Int
  | [] => 0
  | Entry :: rest => Entry.VetoCount + totalVetoCount rest

/-- A server call a participant or the game mode can issue during a weighted round. -/
inductive RoundCall where
  | Veto (PlayerState : Option Nat) (ScenarioId : Nat)
  | CastVote (PlayerState : Option Nat) (ScenarioId : Nat)
  | UpdatePerformance (PlayerState : Option Nat) (PerformanceScore : ℚ)

/-- The view after one call. -/
def applyCall (c : EnhancedStateView) :
    RoundCall → EnhancedStateView
  | RoundCall.Veto PlayerState ScenarioId => ServerVetoScenario c PlayerState ScenarioId
  | RoundCall.CastVote PlayerState ScenarioId => c.ServerCastVote PlayerState ScenarioId
  | RoundCall.UpdatePerformance PlayerState PerformanceScore =>
    ServerUpdatePlayerPerformance c PlayerState PerformanceScore

/-- The view after a sequence of calls. -/
def applyCalls (c : EnhancedStateView) (calls : List RoundCall) :
    EnhancedStateView :=
  calls.foldl applyCall c

/-- The view after a sequence of veto calls of one participant. -/
def vetoCalls (c : EnhancedStateView) (Player : Nat) (targets : List Nat) :
    EnhancedStateView :=
  targets.foldl (fun d target => ServerVetoScenario d (some Player) target) c

/-- A weighted round on the options 1 and 2 in which option 1 has reached the veto
threshold 3 and leads in weighted votes. -/
def sampleOneVetoed : EnhancedStateView :=
  sampleEnhanced
    [{ ScenarioId := 1, VoteCount := 0, WeightedVotes := 5, VetoCount := 3 },
     { ScenarioId := 2, VoteCount := 0, WeightedVotes := 1, VetoCount := 0 }]

/-- A weighted round on the options 1 and 2 in which both have reached the veto
threshold 3. -/
def sampleAllVetoed : EnhancedStateView :=
  sampleEnhanced
    [{ ScenarioId := 1, VoteCount := 0, WeightedVotes := 0, VetoCount := 3 },
     { ScenarioId := 2, VoteCount := 0, WeightedVotes := 0, VetoCount := 4 }]

/-- A weighted round on the options 1 and 2 in which participant 100 has a weight record
(after a performance update) and has not vetoed. -/
def sampleWithWeight : EnhancedStateView :=
  ServerUpdatePlayerPerformance
    (sampleEnhanced [FEnhancedVoteEntry.New 1, FEnhancedVoteEntry.New 2]) (some 100) 10


/-- A persistence manager whose rotation table holds the entry of scenario 7 (weight 1,
minimum gap 3 days) and whose statistics say that scenario 7 was last played at tick 0 and
scenario 8, which has no rotation entry, was never played. -/
def samplePersistence : UScenarioPersistenceManager :=
  { ScenarioStatistics :=
      [(7, { ScenarioId := 7, TimesPlayed := 1, TotalVotes := 0, AveragePlayerCount := 4,
             LastPlayed := 0 })]
    RotationEntries := [{ ScenarioId := 7, Weight := 1, MinimumGapBetweenPlays := 3 }] }

/-- A persistence manager without statistics whose rotation table holds the entries of the
scenarios 1, 4 and 5, each with the constructor values weight 1 and minimum gap 1. -/
def sampleRotation : UScenarioPersistenceManager :=
  { ScenarioStatistics := []
    RotationEntries :=
      [{ ScenarioId := 1, Weight := 1, MinimumGapBetweenPlays := 1 },
       { ScenarioId := 4, Weight := 1, MinimumGapBetweenPlays := 1 },
       { ScenarioId := 5, Weight := 1, MinimumGapBetweenPlays := 1 }] }


/-- A weighted round on the options 2, 3 (neither allowed by `sampleRotation`) with
`NumScenarioOptions = 3`. -/
def sampleNoSurvivor : EnhancedStateView :=
  sampleEnhanced [FEnhancedVoteEntry.New 2, FEnhancedVoteEntry.New 3]


/-- A server-side instance on which no scenario has been started. -/
def freshInstance : UScenarioInstance :=
  { World := some ENetMode.NM_DedicatedServer, ScenarioAsset := none,
    ScenarioState := EScenarioState.None, CurrentStage := none,
    PreviousStageResult := EScenarioResult.None, RuntimeTags := [], GlobalServices := [],
    StageServices := [], ObjectiveTrackers := [], StageProgressionTimer := none,
    Trace := [] }

/-- The scenario asset whose initial stage is stage 1 of `twoStageTemplates`, without base
delay. -/
def sampleScenario : UGameplayScenario :=
  { InitialStage := some 1, BaseStageProgressionTimer := 0 }

/-- `freshInstance` after `InitScenario` with `sampleScenario` on `twoStageTemplates`. -/
def startedInstance : UScenarioInstance :=
  (InitScenario twoStageTemplates freshInstance (some sampleScenario) [9]).2

/-- Templates in which the stage at address 0 is `AllSuccess` with completion delay 5,
success successor 1 and failure successor 2, and every objective is `AllSuccess`. -/
def delayedTemplates : Templates :=
  { Stage := fun i =>
      if i = 0 then
        { CompletionMode := EScenarioCompletionMode.AllSuccess, StageCompletionDelay := 5,
          NextStage_Success := some 1, NextStage_Failure := some 2, Objectives := [],
          StageServices := [] }
      else
        { CompletionMode := EScenarioCompletionMode.AllSuccess, StageCompletionDelay := 0,
          NextStage_Success := none, NextStage_Failure := none, Objectives := [],
          StageServices := [] }
    Objective := fun _ =>
      { CompletionMode := EScenarioCompletionMode.AllSuccess, ObjectiveTrackers := [] } }

/-- The instance of stage 0 of `delayedTemplates` whose only tracker reports `Success`,
with the timer that `TryProgressStage` scheduled for that verdict (delay 5) after 3
seconds have passed. -/
def sampleWaiting : UScenarioInstance :=
  { sampleInstance [sampleTracker EScenarioResult.Success 1] with
    StageProgressionTimer := some (2, EScenarioResult.Success) }


/-- The persistence manager after successive `UpdatePlayCount` calls for one scenario; a
call is the pair of the current time and the size of the player array. -/
def playCalls (pm : UScenarioPersistenceManager) (ScenarioId : Nat)
    (calls : List (Int × Nat)) : UScenarioPersistenceManager :=
  calls.foldl (fun acc call => UpdatePlayCount acc ScenarioId call.1 (some call.2)) pm

/-- The record `UpdatePlayCount` works on: the one stored for the identifier, or the
default-constructed one that `FindOrAdd` creates. -/
def statsOrDefault (pm : UScenarioPersistenceManager) (ScenarioId : Nat) : FScenarioStats :=
  (TMapFind pm.ScenarioStatistics ScenarioId).getD FScenarioStats.Default


/-- The keys of a statistics table are pairwise distinct and every record carries its key
as `ScenarioId`. -/
def WellKeyed (m : List (Nat × FScenarioStats)) : Prop :=
  (m.map Prod.fst).Nodup ∧ ∀ p ∈ m, p.2.ScenarioId = p.1

/-- A sorting function with the guarantee `SortsByScore`: insertion sort by descending
score. -/
def sampleSort (l : List (Nat × ℚ)) : List (Nat × ℚ) :=
  List.insertionSort (fun A B => B.2 ≤ A.2) l

/-- The score as the specification words it, in exact arithmetic:
`(TotalVotes / TimesPlayed) × 0.7 + AveragePlayerCount × 0.3` when `TimesPlayed > 0`, else
0. -/
def PopularityScore_spec (Stats : FScenarioStats) : ℚ :=
  if Stats.TimesPlayed > 0 then
    ((Stats.TotalVotes : ℚ) / (Stats.TimesPlayed : ℚ)) * (7 / 10)
      + Stats.AveragePlayerCount * (3 / 10)
  else 0

/-- A statistics table of two scenarios saved with their records: scenario 1 played once
with 3 votes and an average of 2 players, scenario 2 played 3 times with 3 votes and the
average 13981013 / 2097152, the `float` nearest to 20 / 3. -/
def sampleCloseScores : UScenarioPersistenceManager :=
  SaveScenarioStats
    (SaveScenarioStats (Initialize none)
      { ScenarioId := 1, TimesPlayed := 1, TotalVotes := 3, AveragePlayerCount := 2,
        LastPlayed := 0 })
    { ScenarioId := 2, TimesPlayed := 3, TotalVotes := 3,
      AveragePlayerCount := 13981013 / 2097152, LastPlayed := 0 }

/-- A persistence manager whose rotation table holds the entry of scenario 7 with the
weight 7549747 / 16777216, the `float` nearest to 0.45, and minimum gap 3 days; scenario 7
was last played at tick 0. -/
def sampleFloatWeight : UScenarioPersistenceManager :=
  { ScenarioStatistics :=
      [(7, { ScenarioId := 7, TimesPlayed := 1, TotalVotes := 0, AveragePlayerCount := 4,
             LastPlayed := 0 })]
    RotationEntries :=
      [{ ScenarioId := 7, Weight := 7549747 / 16777216, MinimumGapBetweenPlays := 3 }] }

/-- A statistics table of three scenarios: 1 and 2 saved with their records, 3 played
once. -/
def sampleStatistics : UScenarioPersistenceManager :=
  UpdatePlayCount
    (SaveScenarioStats
      (SaveScenarioStats (Initialize none)
        { ScenarioId := 1, TimesPlayed := 2, TotalVotes := 4, AveragePlayerCount := 3,
          LastPlayed := 0 })
      { ScenarioId := 2, TimesPlayed := 1, TotalVotes := 10, AveragePlayerCount := 4,
        LastPlayed := 0 })
    3 100 (some 2)

/-- The veto-used flag of a participant: `bHasVetoed` of the weight record, `false` for a
participant without a record. -/
def vetoFlag (c : EnhancedStateView) (Player : Nat) : Bool :=
  match TMapFind c.PlayerWeights Player with
  | some PlayerWeight => PlayerWeight.bHasVetoed
  | none => false

/-- A call on the weighted voting component, with what the call reads from outside the
component; `applyComponentCall` gives its statements on a view. -/
inductive ComponentCall where
  | StartVoting (PersistenceManager : Option UScenarioPersistenceManager)
      (TArraySort : List (Nat × ℚ) → List (Nat × ℚ)) (ValidScenarios : List Nat)
      (rng : Nat → Nat) (CurrentTime : Int)
  | GenerateVotingOptions (PersistenceManager : Option UScenarioPersistenceManager)
      (TArraySort : List (Nat × ℚ) → List (Nat × ℚ)) (ValidScenarios : List Nat)
      (rng : Nat → Nat) (CurrentTime : Int)
  | ProcessVotingResults (PersistenceManager : Option UScenarioPersistenceManager)
      (rng : Nat → Nat) (UtcNow : Int) (PlayerArrayNum : Option Nat)
  | InitializePlayerWeight (PlayerState : Nat)
  | Server (call : RoundCall)

/-- The view after the statements of one call. -/
def applyComponentCall (c : EnhancedStateView) :
    ComponentCall → EnhancedStateView
  | ComponentCall.StartVoting PersistenceManager TArraySort ValidScenarios rng CurrentTime =>
    c.StartVoting PersistenceManager TArraySort ValidScenarios rng CurrentTime
  | ComponentCall.GenerateVotingOptions PersistenceManager TArraySort ValidScenarios rng
      CurrentTime =>
    c.GenerateVotingOptions PersistenceManager TArraySort ValidScenarios rng CurrentTime
  | ComponentCall.ProcessVotingResults PersistenceManager rng UtcNow PlayerArrayNum =>
    (c.ProcessVotingResults PersistenceManager rng UtcNow PlayerArrayNum).1
  | ComponentCall.InitializePlayerWeight PlayerState => InitializePlayerWeight c PlayerState
  | ComponentCall.Server call => applyCall c call

/-- The view after the statements of a sequence of calls. -/
def applyComponentCalls (c : EnhancedStateView)
    (calls : List ComponentCall) : EnhancedStateView :=
  calls.foldl applyComponentCall c

/-- The pair that the lookup map holds for a stack. -/
def stackPair (Stack : FTagStack) : Nat × Int :=
  (Stack.Tag, Stack.StackCount)

/-- The lookup map mirrors the array, the tags of the array are pairwise distinct and
every stack count is positive. -/
def TagStackInvariant (c : FTagStackContainer) : Prop :=
  c.TagToCountMap = c.Stacks.map stackPair ∧
  (c.Stacks.map (fun Stack => Stack.Tag)).Nodup ∧
  ∀ Stack ∈ c.Stacks, 0 < Stack.StackCount

/-- The container after `AddStack(1, 3)`, `AddStack(2, 5)`, `RemoveStack(1, 1)`. -/
def sampleStacks : FTagStackContainer :=
  { Stacks := [{ Tag := 1, StackCount := 2 }, { Tag := 2, StackCount := 5 }]
    TagToCountMap := [(1, 2), (2, 5)]
    Broadcasts := [(1, 3, 0), (2, 5, 0), (1, 2, 3)] }

/-- In a stage of mode `AllSuccess`, a live tracker of an `AllSuccess` objective that reports
`Failure` makes the tracker loop return `Failure`, from every accumulated map. -/
theorem trackerLoop_allSuccess_failure (T : Templates)
    (trackers : List (Option UScenarioTask_ObjectiveTracker))
    (hobj : ∀ t, some t ∈ trackers → t.Objective ≠ none)
    (t : UScenarioTask_ObjectiveTracker) (o : Nat) (ht : some t ∈ trackers)
    (ho : t.Objective = some o)
    (hm : (T.Objective o).CompletionMode = EScenarioCompletionMode.AllSuccess)
    (hf : t.CurrentResult = EScenarioResult.Failure) (m : List (Nat × EScenarioResult)) :
    trackerLoop T EScenarioCompletionMode.AllSuccess trackers m
      = TrackerLoopOutcome.returned EScenarioResult.Failure := by
  induction trackers generalizing m with
  | nil => simp at ht
  | cons x rest ih =>
    have hrest : ∀ u, some u ∈ rest → u.Objective ≠ none :=
      fun u hu => hobj u (List.mem_cons_of_mem _ hu)
    cases x with
    | none =>
      have ht2 : some t ∈ rest := by simpa using ht
      simpa [trackerLoop] using ih hrest ht2 m
    | some u =>
      cases huo : u.Objective with
      | none => exact absurd huo (hobj u (List.mem_cons_self _ _))
      | some ou =>
        by_cases hq : (T.Objective ou).CompletionMode = EScenarioCompletionMode.AllSuccess ∧
            u.CurrentResult = EScenarioResult.Failure
        · simp [trackerLoop, huo, hq.1, hq.2]
        · have hne : u ≠ t := by
            intro h
            subst h
            rw [ho] at huo
            cases huo
            exact hq ⟨hm, hf⟩
          have ht2 : some t ∈ rest := by
            rcases List.mem_cons.1 ht with h | h
            · exact absurd (Option.some.inj h).symm hne
            · exact h
          have key := ih hrest ht2
          simp only [trackerLoop, huo]
          rw [if_neg (by tauto), if_neg (by simp)]
          exact key _

/-- In a stage of mode `AnySuccess`, a live tracker of an `AnySuccess` objective that reports
`Success` makes the tracker loop return `Success`, from every accumulated map. -/
theorem trackerLoop_anySuccess_success (T : Templates)
    (trackers : List (Option UScenarioTask_ObjectiveTracker))
    (hobj : ∀ t, some t ∈ trackers → t.Objective ≠ none)
    (t : UScenarioTask_ObjectiveTracker) (o : Nat) (ht : some t ∈ trackers)
    (ho : t.Objective = some o)
    (hm : (T.Objective o).CompletionMode = EScenarioCompletionMode.AnySuccess)
    (hf : t.CurrentResult = EScenarioResult.Success) (m : List (Nat × EScenarioResult)) :
    trackerLoop T EScenarioCompletionMode.AnySuccess trackers m
      = TrackerLoopOutcome.returned EScenarioResult.Success := by
  induction trackers generalizing m with
  | nil => simp at ht
  | cons x rest ih =>
    have hrest : ∀ u, some u ∈ rest → u.Objective ≠ none :=
      fun u hu => hobj u (List.mem_cons_of_mem _ hu)
    cases x with
    | none =>
      have ht2 : some t ∈ rest := by simpa using ht
      simpa [trackerLoop] using ih hrest ht2 m
    | some u =>
      cases huo : u.Objective with
      | none => exact absurd huo (hobj u (List.mem_cons_self _ _))
      | some ou =>
        by_cases hq : (T.Objective ou).CompletionMode = EScenarioCompletionMode.AnySuccess ∧
            u.CurrentResult = EScenarioResult.Success
        · simp [trackerLoop, huo, hq.1, hq.2]
        · have hne : u ≠ t := by
            intro h
            subst h
            rw [ho] at huo
            cases huo
            exact hq ⟨hm, hf⟩
          have ht2 : some t ∈ rest := by
            rcases List.mem_cons.1 ht with h | h
            · exact absurd (Option.some.inj h).symm hne
            · exact h
          have key := ih hrest ht2
          simp only [trackerLoop, huo]
          rw [if_neg (by simp), if_neg (by tauto)]
          exact key _

/-- C1: in a scenario instance whose current stage has completion mode `AllSuccess` and
whose live trackers all have an owning objective, a live tracker of an `AllSuccess`
objective that reports `Failure` makes `EvaluateObjectives` return `Failure`, whatever the
other trackers report and wherever they stand in the list. -/
theorem C1_allSuccess_stage_fails_fast (T : Templates) (s : UScenarioInstance) (stage : Nat)
    (hs : s.CurrentStage = some stage)
    (hmode : (T.Stage stage).CompletionMode = EScenarioCompletionMode.AllSuccess)
    (hobj : ∀ t, some t ∈ s.ObjectiveTrackers → t.Objective ≠ none)
    (t : UScenarioTask_ObjectiveTracker) (o : Nat) (ht : some t ∈ s.ObjectiveTrackers)
    (ho : t.Objective = some o)
    (hm : (T.Objective o).CompletionMode = EScenarioCompletionMode.AllSuccess)
    (hf : t.CurrentResult = EScenarioResult.Failure) :
    EvaluateObjectives T s = some EScenarioResult.Failure := by
  simp only [EvaluateObjectives, hs, hmode]
  rw [trackerLoop_allSuccess_failure T s.ObjectiveTrackers hobj t o ht ho hm hf []]

/-- C2: in a scenario instance whose current stage has completion mode `AnySuccess` and
whose live trackers all have an owning objective, a live tracker of an `AnySuccess`
objective that reports `Success` makes `EvaluateObjectives` return `Success`, whatever the
other trackers report and wherever they stand in the list. -/
theorem C2_anySuccess_stage_succeeds_fast (T : Templates) (s : UScenarioInstance)
    (stage : Nat) (hs : s.CurrentStage = some stage)
    (hmode : (T.Stage stage).CompletionMode = EScenarioCompletionMode.AnySuccess)
    (hobj : ∀ t, some t ∈ s.ObjectiveTrackers → t.Objective ≠ none)
    (t : UScenarioTask_ObjectiveTracker) (o : Nat) (ht : some t ∈ s.ObjectiveTrackers)
    (ho : t.Objective = some o)
    (hm : (T.Objective o).CompletionMode = EScenarioCompletionMode.AnySuccess)
    (hf : t.CurrentResult = EScenarioResult.Success) :
    EvaluateObjectives T s = some EScenarioResult.Success := by
  simp only [EvaluateObjectives, hs, hmode]
  rw [trackerLoop_anySuccess_success T s.ObjectiveTrackers hobj t o ht ho hm hf []]


/-- Witness of C1: two `AllSuccess` objectives with one tracker each, the first `Failure`,
the second `InProgress`, in an `AllSuccess` stage. -/
theorem C1_allSuccess_stage_fails_fast_witness :
    EvaluateObjectives
      (sampleTemplates EScenarioCompletionMode.AllSuccess
        (fun _ => EScenarioCompletionMode.AllSuccess))
      (sampleInstance [sampleTracker EScenarioResult.Failure 1,
        sampleTracker EScenarioResult.InProgress 2])
      = some EScenarioResult.Failure :=
  C1_allSuccess_stage_fails_fast _ _ 0 rfl rfl
    (by intro t ht; simp [sampleInstance, sampleTracker] at ht; rcases ht with h | h <;> simp [h])
    { CurrentResult := EScenarioResult.Failure, Objective := some 1 } 1
    (by simp [sampleInstance, sampleTracker]) rfl rfl rfl

/-- Witness of C2: two `AnySuccess` objectives with one tracker each, the first
`InProgress`, the second `Success`, in an `AnySuccess` stage. -/
theorem C2_anySuccess_stage_succeeds_fast_witness :
    EvaluateObjectives
      (sampleTemplates EScenarioCompletionMode.AnySuccess
        (fun _ => EScenarioCompletionMode.AnySuccess))
      (sampleInstance [sampleTracker EScenarioResult.InProgress 1,
        sampleTracker EScenarioResult.Success 2])
      = some EScenarioResult.Success :=
  C2_anySuccess_stage_succeeds_fast _ _ 0 rfl rfl
    (by intro t ht; simp [sampleInstance, sampleTracker] at ht; rcases ht with h | h <;> simp [h])
    { CurrentResult := EScenarioResult.Success, Objective := some 2 } 2
    (by simp [sampleInstance, sampleTracker]) rfl rfl rfl

/-! ## Running result of one objective -/

/-- C3: evaluation of the code on an `AllSuccess` objective (address 1) with two trackers
inside an `AnySuccess` stage. With the trackers in the order `Failure, InProgress` the
running result of the objective is `InProgress` and the stage is `InProgress`; with the
same trackers in the order `InProgress, Failure` the running result is `Failure` and the
stage is `Failure`. The tracker visited last decides. -/
theorem C3_allSuccess_objective_last_tracker_decides :
    trackerLoop
        (sampleTemplates EScenarioCompletionMode.AnySuccess
          (fun _ => EScenarioCompletionMode.AllSuccess))
        EScenarioCompletionMode.AnySuccess
        [sampleTracker EScenarioResult.Failure 1, sampleTracker EScenarioResult.InProgress 1] []
      = TrackerLoopOutcome.completed [(1, EScenarioResult.InProgress)]
    ∧ EvaluateObjectives
        (sampleTemplates EScenarioCompletionMode.AnySuccess
          (fun _ => EScenarioCompletionMode.AllSuccess))
        (sampleInstance
          [sampleTracker EScenarioResult.Failure 1, sampleTracker EScenarioResult.InProgress 1])
      = some EScenarioResult.InProgress
    ∧ trackerLoop
        (sampleTemplates EScenarioCompletionMode.AnySuccess
          (fun _ => EScenarioCompletionMode.AllSuccess))
        EScenarioCompletionMode.AnySuccess
        [sampleTracker EScenarioResult.InProgress 1, sampleTracker EScenarioResult.Failure 1] []
      = TrackerLoopOutcome.completed [(1, EScenarioResult.Failure)]
    ∧ EvaluateObjectives
        (sampleTemplates EScenarioCompletionMode.AnySuccess
          (fun _ => EScenarioCompletionMode.AllSuccess))
        (sampleInstance
          [sampleTracker EScenarioResult.InProgress 1, sampleTracker EScenarioResult.Failure 1])
      = some EScenarioResult.Failure := by
  refine ⟨?_, ?_, ?_, ?_⟩ <;> decide

/-- C4: evaluation of the code on an `AnySuccess` objective (address 1) with two trackers
inside an `AllSuccess` stage. With the trackers in the order `Success, InProgress` the
running result of the objective is `InProgress` and the stage is `InProgress`; with the
same trackers in the order `InProgress, Success` the running result is `Success` and the
stage is `Success`. A later `InProgress` tracker overwrites an earlier `Success`. -/
theorem C4_anySuccess_objective_success_overwritten :
    trackerLoop
        (sampleTemplates EScenarioCompletionMode.AllSuccess
          (fun _ => EScenarioCompletionMode.AnySuccess))
        EScenarioCompletionMode.AllSuccess
        [sampleTracker EScenarioResult.Success 1, sampleTracker EScenarioResult.InProgress 1] []
      = TrackerLoopOutcome.completed [(1, EScenarioResult.InProgress)]
    ∧ EvaluateObjectives
        (sampleTemplates EScenarioCompletionMode.AllSuccess
          (fun _ => EScenarioCompletionMode.AnySuccess))
        (sampleInstance
          [sampleTracker EScenarioResult.Success 1, sampleTracker EScenarioResult.InProgress 1])
      = some EScenarioResult.InProgress
    ∧ trackerLoop
        (sampleTemplates EScenarioCompletionMode.AllSuccess
          (fun _ => EScenarioCompletionMode.AnySuccess))
        EScenarioCompletionMode.AllSuccess
        [sampleTracker EScenarioResult.InProgress 1, sampleTracker EScenarioResult.Success 1] []
      = TrackerLoopOutcome.completed [(1, EScenarioResult.Success)]
    ∧ EvaluateObjectives
        (sampleTemplates EScenarioCompletionMode.AllSuccess
          (fun _ => EScenarioCompletionMode.AnySuccess))
        (sampleInstance
          [sampleTracker EScenarioResult.InProgress 1, sampleTracker EScenarioResult.Success 1])
      = some EScenarioResult.Success := by
  refine ⟨?_, ?_, ?_, ?_⟩ <;> decide


/-! ## Final evaluation of the stage -/

/-- Keys of a map after `TMapAdd`. -/
theorem TMapAdd_keys {ν : Type} (m : List (Nat × ν)) (k : Nat) (v : ν) :
    (TMapAdd m k v).map Prod.fst
      = if k ∈ m.map Prod.fst then m.map Prod.fst else m.map Prod.fst ++ [k] := by
  induction m with
  | nil => simp [TMapAdd]
  | cons kv rest ih =>
    obtain ⟨k', v'⟩ := kv
    by_cases h : k' = k
    · subst h
      simp [TMapAdd]
    · have h2 : ¬ k = k' := fun e => h e.symm
      by_cases hk : k ∈ rest.map Prod.fst
      · simp only [TMapAdd, if_neg h, List.map_cons, ih, if_pos hk, List.mem_cons, hk, or_true,
          if_true]
      · simp only [TMapAdd, if_neg h, List.map_cons, ih, if_neg hk, List.mem_cons, h2, hk,
          or_self, if_false, List.cons_append]

/-- Keys of a map after `TMapFindOrAdd`. -/
theorem TMapFindOrAdd_keys {ν : Type} (m : List (Nat × ν)) (k : Nat) (d : ν) :
    (TMapFindOrAdd m k d).map Prod.fst
      = if k ∈ m.map Prod.fst then m.map Prod.fst else m.map Prod.fst ++ [k] := by
  have hfind : ∀ m : List (Nat × ν), TMapFind m k = none ↔ k ∉ m.map Prod.fst := by
    intro m
    induction m with
    | nil => simp [TMapFind]
    | cons kv rest ih =>
      obtain ⟨k', v'⟩ := kv
      by_cases h : k' = k
      · simp [TMapFind, h]
      · have h2 : ¬ k = k' := fun e => h e.symm
        simp [TMapFind, h, h2, ih]
  unfold TMapFindOrAdd
  cases hf : TMapFind m k with
  | none =>
    have := (hfind m).1 hf
    simp only [TMapAdd_keys, if_neg this]
  | some v =>
    have : k ∈ m.map Prod.fst := by
      by_contra hc
      rw [(hfind m).2 hc] at hf
      cases hf
    simp only [if_pos this]

/-- Keys of the map after one iteration of the tracker loop. -/
theorem updateObjectiveState_keys (m : List (Nat × EScenarioResult)) (o : Nat)
    (mode : EScenarioCompletionMode) (r : EScenarioResult) :
    (updateObjectiveState m o mode r).map Prod.fst
      = if o ∈ m.map Prod.fst then m.map Prod.fst else m.map Prod.fst ++ [o] := by
  obtain ⟨K, hK⟩ : ∃ K, K = (if o ∈ m.map Prod.fst then m.map Prod.fst
      else m.map Prod.fst ++ [o]) := ⟨_, rfl⟩
  rw [← hK]
  have hfo : ∀ d, (TMapFindOrAdd m o d).map Prod.fst = K := by
    intro d
    rw [TMapFindOrAdd_keys, hK]
  have hadd : ∀ d v, (TMapAdd (TMapFindOrAdd m o d) o v).map Prod.fst = K := by
    intro d v
    rw [TMapAdd_keys, hfo d, hK]
    by_cases h : o ∈ m.map Prod.fst
    · simp only [if_pos h]
    · simp only [if_neg h, List.mem_append, List.mem_singleton, or_true, if_true]
  unfold updateObjectiveState
  simp only
  split_ifs <;> first | exact hadd _ _ | exact hfo _

/-- The objectives recorded by a completed tracker loop are those already recorded plus the
owning objectives of the live trackers, each once. -/
theorem trackerLoop_completed_keys (T : Templates) (mode : EScenarioCompletionMode)
    (trackers : List (Option UScenarioTask_ObjectiveTracker))
    (m m' : List (Nat × EScenarioResult))
    (h : trackerLoop T mode trackers m = TrackerLoopOutcome.completed m')
    (hnd : (m.map Prod.fst).Nodup) :
    (m'.map Prod.fst).Nodup ∧
    ∀ o, o ∈ m'.map Prod.fst ↔
      (o ∈ m.map Prod.fst ∨ ∃ t, some t ∈ trackers ∧ t.Objective = some o) := by
  induction trackers generalizing m with
  | nil =>
    simp only [trackerLoop, TrackerLoopOutcome.completed.injEq] at h
    subst h
    simp [hnd]
  | cons x rest ih =>
    cases x with
    | none =>
      simp only [trackerLoop] at h
      obtain ⟨h1, h2⟩ := ih m h hnd
      refine ⟨h1, fun o => ?_⟩
      rw [h2 o]
      simp
    | some u =>
      cases huo : u.Objective with
      | none => simp [trackerLoop, huo] at h
      | some ou =>
        simp only [trackerLoop, huo] at h
        split_ifs at h
        have hk := updateObjectiveState_keys m ou (T.Objective ou).CompletionMode u.CurrentResult
        have hnd2 : ((updateObjectiveState m ou (T.Objective ou).CompletionMode
            u.CurrentResult).map Prod.fst).Nodup := by
          rw [hk]
          by_cases hin : ou ∈ m.map Prod.fst
          · simpa only [if_pos hin] using hnd
          · simp only [if_neg hin]
            exact List.Nodup.append hnd (List.nodup_singleton _) (by simpa using hin)
        obtain ⟨h1, h2⟩ := ih _ h hnd2
        refine ⟨h1, fun o => ?_⟩
        rw [h2 o, hk]
        constructor
        · rintro (hmem | ⟨t, ht, hto⟩)
          · by_cases hin : ou ∈ m.map Prod.fst
            · rw [if_pos hin] at hmem
              exact Or.inl hmem
            · rw [if_neg hin] at hmem
              rcases List.mem_append.1 hmem with hm | hm
              · exact Or.inl hm
              · have : o = ou := by simpa using hm
                subst this
                exact Or.inr ⟨u, List.mem_cons_self _ _, huo⟩
          · exact Or.inr ⟨t, List.mem_cons_of_mem _ ht, hto⟩
        · rintro (hmem | ⟨t, ht, hto⟩)
          · left
            by_cases hin : ou ∈ m.map Prod.fst
            · rw [if_pos hin]; exact hmem
            · rw [if_neg hin]; exact List.mem_append_left _ hmem
          · rcases List.mem_cons.1 ht with hh | hh
            · have htu : t = u := Option.some.inj hh
              subst htu
              rw [huo] at hto
              cases hto
              left
              by_cases hin : ou ∈ m.map Prod.fst
              · rw [if_pos hin]; exact hin
              · rw [if_neg hin]; simp
            · exact Or.inr ⟨t, hh, hto⟩

/-- The counting loop adds the number of `Success` entries and the number of entries that
are not `InProgress`. -/
theorem countObjectiveStates_eq (m : List (Nat × EScenarioResult)) (a b : Nat) :
    countObjectiveStates m (a, b)
      = (a + m.countP (fun kv => decide (kv.2 = EScenarioResult.Success)),
         b + m.countP (fun kv => decide (kv.2 ≠ EScenarioResult.InProgress))) := by
  induction m generalizing a b with
  | nil => simp [countObjectiveStates]
  | cons kv rest ih =>
    obtain ⟨k, v⟩ := kv
    cases v <;> simp [countObjectiveStates, ih, List.countP_cons] <;> omega

/-- The final evaluation, in terms of the entries of the map. -/
theorem finalStageState_spec (mode : EScenarioCompletionMode)
    (m : List (Nat × EScenarioResult)) :
    (finalStageState mode m = EScenarioResult.InProgress
      ↔ ∃ kv ∈ m, kv.2 = EScenarioResult.InProgress) ∧
    ((∀ kv ∈ m, kv.2 ≠ EScenarioResult.InProgress) →
      (mode = EScenarioCompletionMode.AllSuccess →
        ((finalStageState mode m = EScenarioResult.Success
            ↔ ∀ kv ∈ m, kv.2 = EScenarioResult.Success) ∧
         (finalStageState mode m = EScenarioResult.Success
            ∨ finalStageState mode m = EScenarioResult.Failure))) ∧
      (mode = EScenarioCompletionMode.AnySuccess →
        ((finalStageState mode m = EScenarioResult.Success
            ↔ ∃ kv ∈ m, kv.2 = EScenarioResult.Success) ∧
         (finalStageState mode m = EScenarioResult.Success
            ∨ finalStageState mode m = EScenarioResult.Failure)))) := by
  have hc : (m.countP (fun kv => decide (kv.2 ≠ EScenarioResult.InProgress)) = m.length)
      ↔ ∀ kv ∈ m, kv.2 ≠ EScenarioResult.InProgress := by
    rw [List.countP_eq_length]
    simp
  have hs : (m.countP (fun kv => decide (kv.2 = EScenarioResult.Success)) = m.length)
      ↔ ∀ kv ∈ m, kv.2 = EScenarioResult.Success := by
    rw [List.countP_eq_length]
    simp
  have hp : (0 < m.countP (fun kv => decide (kv.2 = EScenarioResult.Success)))
      ↔ ∃ kv ∈ m, kv.2 = EScenarioResult.Success := by
    rw [List.countP_pos_iff]
    simp
  have hfin : finalStageState mode m
      = if m.countP (fun kv => decide (kv.2 ≠ EScenarioResult.InProgress)) = m.length then
          if mode = EScenarioCompletionMode.AllSuccess then
            if m.countP (fun kv => decide (kv.2 = EScenarioResult.Success))
                = m.countP (fun kv => decide (kv.2 ≠ EScenarioResult.InProgress))
            then EScenarioResult.Success else EScenarioResult.Failure
          else
            if m.countP (fun kv => decide (kv.2 = EScenarioResult.Success)) > 0
            then EScenarioResult.Success else EScenarioResult.Failure
        else EScenarioResult.InProgress := by
    simp only [finalStageState, countObjectiveStates_eq, Nat.zero_add]
  refine ⟨?_, ?_⟩
  · rw [hfin]
    by_cases hall : m.countP (fun kv => decide (kv.2 ≠ EScenarioResult.InProgress)) = m.length
    · rw [if_pos hall]
      have hno := hc.1 hall
      constructor
      · intro h
        split_ifs at h
      · rintro ⟨kv, hkv, hip⟩
        exact absurd hip (hno kv hkv)
    · rw [if_neg hall]
      have : ¬ ∀ kv ∈ m, kv.2 ≠ EScenarioResult.InProgress := fun h => hall (hc.2 h)
      push_neg at this
      simpa using this
  · intro hno
    have hall := hc.2 hno
    refine ⟨fun hm => ?_, fun hm => ?_⟩
    · rw [hfin, if_pos hall, if_pos hm, hall]
      by_cases hS : m.countP (fun kv => decide (kv.2 = EScenarioResult.Success)) = m.length
      · rw [if_pos hS]
        exact ⟨⟨fun _ => hs.1 hS, fun _ => rfl⟩, Or.inl rfl⟩
      · rw [if_neg hS]
        exact ⟨⟨fun h => (by cases h), fun h => absurd (hs.2 h) hS⟩, Or.inr rfl⟩
    · have hm2 : ¬ mode = EScenarioCompletionMode.AllSuccess := by rw [hm]; decide
      rw [hfin, if_pos hall, if_neg hm2]
      by_cases hS : m.countP (fun kv => decide (kv.2 = EScenarioResult.Success)) > 0
      · rw [if_pos hS]
        exact ⟨⟨fun _ => hp.1 hS, fun _ => rfl⟩, Or.inl rfl⟩
      · rw [if_neg hS]
        exact ⟨⟨fun h => (by cases h), fun h => absurd (hp.2 h) hS⟩, Or.inr rfl⟩

/-- C5: for a scenario instance with a current stage on which the tracker loop runs to its
end with the map `m` of running results (no short-circuit return), the objectives recorded
in `m` are exactly the owning objectives of the live trackers, each recorded once;
`EvaluateObjectives` returns `InProgress` iff some recorded result is `InProgress`; and
when no recorded result is `InProgress`, an `AllSuccess` stage returns `Success` iff every
recorded result is `Success` and `Failure` otherwise, an `AnySuccess` stage returns
`Success` iff some recorded result is `Success` and `Failure` otherwise. -/
theorem C5_stage_verdict_from_objective_results (T : Templates) (s : UScenarioInstance)
    (stage : Nat) (m : List (Nat × EScenarioResult)) (hs : s.CurrentStage = some stage)
    (hloop : trackerLoop T (T.Stage stage).CompletionMode s.ObjectiveTrackers []
      = TrackerLoopOutcome.completed m) :
    ((m.map Prod.fst).Nodup ∧
      ∀ o, o ∈ m.map Prod.fst ↔ ∃ t, some t ∈ s.ObjectiveTrackers ∧ t.Objective = some o) ∧
    (EvaluateObjectives T s = some EScenarioResult.InProgress
      ↔ ∃ kv ∈ m, kv.2 = EScenarioResult.InProgress) ∧
    ((∀ kv ∈ m, kv.2 ≠ EScenarioResult.InProgress) →
      ((T.Stage stage).CompletionMode = EScenarioCompletionMode.AllSuccess →
        ((EvaluateObjectives T s = some EScenarioResult.Success
            ↔ ∀ kv ∈ m, kv.2 = EScenarioResult.Success) ∧
         (EvaluateObjectives T s = some EScenarioResult.Success
            ∨ EvaluateObjectives T s = some EScenarioResult.Failure))) ∧
      ((T.Stage stage).CompletionMode = EScenarioCompletionMode.AnySuccess →
        ((EvaluateObjectives T s = some EScenarioResult.Success
            ↔ ∃ kv ∈ m, kv.2 = EScenarioResult.Success) ∧
         (EvaluateObjectives T s = some EScenarioResult.Success
            ∨ EvaluateObjectives T s = some EScenarioResult.Failure)))) := by
  have hev : EvaluateObjectives T s = some (finalStageState (T.Stage stage).CompletionMode m) := by
    simp only [EvaluateObjectives, hs, hloop]
  have hkeys := trackerLoop_completed_keys T _ _ [] m hloop (by simp)
  have hfin := finalStageState_spec (T.Stage stage).CompletionMode m
  refine ⟨⟨hkeys.1, fun o => by simpa using hkeys.2 o⟩, ?_, ?_⟩
  · rw [hev, Option.some.injEq]
    exact hfin.1
  · intro hno
    rw [hev]
    simp only [Option.some.injEq]
    exact hfin.2 hno


/-! ## TryProgressStage -/

/-- C6: on an authority, with a current stage `S`, total transition delay 0 and a settled
verdict `v` of `EvaluateObjectives` (`Success` with `N` the success successor of `S`, or
`Failure` with `N` the failure successor), `TryProgressStage` returns true and afterwards
`PreviousStageResult = v`; the end hook (not cancelled) was invoked on every live service
and tracker of `S`; when `N` is a stage it is the current stage, the tracker and service
lists hold exactly the copies of the templates of `N`, and `ScenarioState` is unchanged;
when `N` is null both lists are empty, `ScenarioState` is `Success` for `v = Success` and
`Failure` for `v = Failure`, the global services are ended and the last event is the
broadcast of the end of the scenario with the cancelled flag false. -/
theorem C6_settled_verdict_advances_stage (T : Templates) (s : UScenarioInstance)
    (S : Nat) (v : EScenarioResult) (N : Option Nat)
    (hauth : HasAuthority s = true) (hS : s.CurrentStage = some S)
    (hdelay : GetStageTransitionDelay T s = 0)
    (hv : EvaluateObjectives T s = some v)
    (hN : (v = EScenarioResult.Success ∧ N = (T.Stage S).NextStage_Success) ∨
          (v = EScenarioResult.Failure ∧ N = (T.Stage S).NextStage_Failure)) :
    ∃ s', TryProgressStage T s = some (true, s') ∧
      s'.PreviousStageResult = v ∧
      (s.Trace
        ++ (validObjects s.StageServices).map (fun svc => ScenarioEvent.ServiceEndPlay svc false)
        ++ (validObjects s.ObjectiveTrackers).map
            (fun trk => ScenarioEvent.TrackerEndPlay trk false)) <+: s'.Trace ∧
      (∀ n, N = some n →
        s'.CurrentStage = some n ∧
        s'.ObjectiveTrackers
          = (duplicateAll (stageTrackerTemplates T (T.Stage n).Objectives)).map some ∧
        s'.StageServices = (duplicateAll (T.Stage n).StageServices).map some ∧
        s'.ScenarioState = s.ScenarioState) ∧
      (N = none →
        s'.ObjectiveTrackers = [] ∧ s'.StageServices = [] ∧ s'.GlobalServices = [] ∧
        s'.ScenarioState
          = (if v = EScenarioResult.Success then EScenarioState.Success
             else EScenarioState.Failure) ∧
        s'.Trace.getLast? = some (ScenarioEvent.ScenarioEnded false)) := by
  have hne : v ≠ EScenarioResult.InProgress := by
    rcases hN with ⟨h, _⟩ | ⟨h, _⟩ <;> rw [h] <;> decide
  have hNeq : N = (if v = EScenarioResult.Success then (T.Stage S).NextStage_Success
      else (T.Stage S).NextStage_Failure) := by
    rcases hN with ⟨h, h2⟩ | ⟨h, h2⟩ <;> rw [h, h2] <;> simp
  obtain ⟨World, Asset, State, Cur, Prev, Tags, GS, SS, OT, Timer, Tr⟩ := s
  simp only at hS
  subst hS
  obtain ⟨w, rfl, hw⟩ : ∃ w, World = some w ∧ w ≠ ENetMode.NM_Client := by
    cases World with
    | none => simp [HasAuthority] at hauth
    | some w =>
      refine ⟨w, rfl, ?_⟩
      intro h
      subst h
      simp [HasAuthority] at hauth
  refine ⟨ProgressStage_Internal T
    ⟨some w, Asset, State, some S, Prev, Tags, GS, SS, OT, Timer, Tr⟩ v, ?_, ?_, ?_, ?_, ?_⟩
  · simp [TryProgressStage, hauth, hv, hne, hdelay]
  · simp only [ProgressStage_Internal, ← hNeq]
    cases N with
    | none => simp [EndScenario, ExitStage]
    | some n => simp [EnterStage, ExitStage, HasAuthority, hw]
  · simp only [ProgressStage_Internal, ← hNeq]
    cases N with
    | none => simp [EndScenario, ExitStage, validObjects]
    | some n => simp [EnterStage, ExitStage, HasAuthority, hw]
  · intro n hn
    subst hn
    simp only [ProgressStage_Internal, ← hNeq]
    simp [EnterStage, ExitStage, HasAuthority, hw]
  · intro hn
    subst hn
    simp only [ProgressStage_Internal, ← hNeq]
    simp [EndScenario, ExitStage]

/-- C7: `TryProgressStage` returns true iff the instance has authority, has a current
stage, and `EvaluateObjectives` yields a verdict other than `InProgress`; and whenever it
returns false the instance (current stage, scenario state, previous stage result, tracker
and service lists, pending timer, trace) is unchanged. -/
theorem C7_tryProgressStage_true_iff_and_false_is_noop (T : Templates)
    (s : UScenarioInstance) :
    ((∃ s', TryProgressStage T s = some (true, s')) ↔
      (HasAuthority s = true ∧ s.CurrentStage ≠ none ∧
        ∃ v, EvaluateObjectives T s = some v ∧ v ≠ EScenarioResult.InProgress)) ∧
    (∀ s', TryProgressStage T s = some (false, s') → s' = s) := by
  unfold TryProgressStage
  by_cases hg : ¬ (HasAuthority s = true) ∨ s.CurrentStage = none
  · rw [if_pos hg]
    refine ⟨⟨?_, ?_⟩, ?_⟩
    · rintro ⟨s', h⟩
      simp at h
    · rintro ⟨h1, h2, _⟩
      rcases hg with h | h
      · exact absurd h1 h
      · exact absurd h h2
    · intro s' h
      simp only [Option.some.injEq, Prod.mk.injEq, true_and] at h
      exact h.symm
  · rw [if_neg hg]
    push_neg at hg
    cases hev : EvaluateObjectives T s with
    | none =>
      refine ⟨⟨?_, ?_⟩, ?_⟩
      · rintro ⟨s', h⟩
        simp at h
      · rintro ⟨_, _, v, h, _⟩
        simp at h
      · intro s' h
        simp at h
    | some v =>
      by_cases hip : v = EScenarioResult.InProgress
      · simp only [hip, if_true]
        refine ⟨⟨?_, ?_⟩, ?_⟩
        · rintro ⟨s', h⟩
          simp at h
        · rintro ⟨_, _, w, h, hw⟩
          simp only [Option.some.injEq] at h
          exact absurd h.symm hw
        · intro s' h
          simp only [Option.some.injEq, Prod.mk.injEq, true_and] at h
          exact h.symm
      · simp only [hip, if_false]
        refine ⟨⟨fun _ => ⟨hg.1, hg.2, v, rfl, hip⟩, fun _ => ?_⟩, ?_⟩
        · split_ifs
          · exact ⟨_, rfl⟩
          · exact ⟨_, rfl⟩
        · intro s' h
          split_ifs at h <;> simp at h


/-- Witness of C5: objectives 1 (`Success`) and 2 (`Failure`), both `AllSuccess`, in an
`AnySuccess` stage. -/
theorem C5_stage_verdict_from_objective_results_witness :
    (EvaluateObjectives
        (sampleTemplates EScenarioCompletionMode.AnySuccess
          (fun _ => EScenarioCompletionMode.AllSuccess))
        (sampleInstance [sampleTracker EScenarioResult.Success 1,
          sampleTracker EScenarioResult.Failure 2])
        = some EScenarioResult.InProgress
      ↔ ∃ kv ∈ [(1, EScenarioResult.Success), (2, EScenarioResult.Failure)],
          kv.2 = EScenarioResult.InProgress) :=
  (C5_stage_verdict_from_objective_results
    (sampleTemplates EScenarioCompletionMode.AnySuccess
      (fun _ => EScenarioCompletionMode.AllSuccess))
    (sampleInstance [sampleTracker EScenarioResult.Success 1,
      sampleTracker EScenarioResult.Failure 2])
    0 [(1, EScenarioResult.Success), (2, EScenarioResult.Failure)] rfl (by decide)).2.1

/-- Witness of C6: stage 0 of `twoStageTemplates` with its tracker at `Success`; the
instance moves to stage 1. -/
theorem C6_settled_verdict_advances_stage_witness :
    ∃ s', TryProgressStage twoStageTemplates
        (sampleInstance [sampleTracker EScenarioResult.Success 5]) = some (true, s') ∧
      s'.PreviousStageResult = EScenarioResult.Success ∧ s'.CurrentStage = some 1 ∧
      s'.ObjectiveTrackers = [sampleTracker EScenarioResult.InProgress 6] := by
  obtain ⟨s', h1, h2, _, h4, _⟩ :=
    C6_settled_verdict_advances_stage twoStageTemplates
      (sampleInstance [sampleTracker EScenarioResult.Success 5]) 0 EScenarioResult.Success
      (some 1) rfl rfl
      (by simp [GetStageTransitionDelay, sampleInstance, twoStageTemplates])
      (by decide) (Or.inl ⟨rfl, rfl⟩)
  exact ⟨s', h1, h2, (h4 1 rfl).1, (h4 1 rfl).2.1⟩

/-! ## EndScenario -/

/-- C8, as stated, fails: a scenario completed with the result `Success` by
`TryProgressStage` (final stage, no successor) still has its current stage set, so
`CancelScenario` calls `EndScenario(true)`, which overwrites `Success` with `Cancelled`. -/
theorem C8_endScenario_overwrites_result :
    ∃ s', TryProgressStage
        (sampleTemplates EScenarioCompletionMode.AllSuccess
          (fun _ => EScenarioCompletionMode.AllSuccess))
        (sampleInstance [sampleTracker EScenarioResult.Success 1]) = some (true, s') ∧
      s'.ScenarioState = EScenarioState.Success ∧
      (EndScenario s' true).ScenarioState = EScenarioState.Cancelled ∧
      (EndScenario s' true).ScenarioState ≠ s'.ScenarioState ∧
      CancelScenario (some s') = some (EndScenario s' true) := by
  have hev : EvaluateObjectives
      (sampleTemplates EScenarioCompletionMode.AllSuccess
        (fun _ => EScenarioCompletionMode.AllSuccess))
      (sampleInstance [sampleTracker EScenarioResult.Success 1])
      = some EScenarioResult.Success := by decide
  refine ⟨ProgressStage_Internal
      (sampleTemplates EScenarioCompletionMode.AllSuccess
        (fun _ => EScenarioCompletionMode.AllSuccess))
      (sampleInstance [sampleTracker EScenarioResult.Success 1]) EScenarioResult.Success,
    ?_, ?_, ?_, ?_, ?_⟩
  · rw [TryProgressStage, hev]
    simp [HasAuthority, sampleInstance, GetStageTransitionDelay, sampleTemplates]
  · decide
  · decide
  · decide
  · rfl

/-- C8 (amended): `EndScenario(true)` sets `ScenarioState` to `Cancelled` whatever the
state was, `EndScenario(false)` leaves `ScenarioState` as it was. -/
theorem C8_endScenario_state (s : UScenarioInstance) (bCancelled : Bool) :
    (EndScenario s bCancelled).ScenarioState
      = if bCancelled = true then EScenarioState.Cancelled else s.ScenarioState := by
  unfold EndScenario
  cases h : s.CurrentStage <;> simp [h, ExitStage]


/-! ## GenerateVotingOptions -/

/-- Number of options the `while` loop leaves, when the fuel exceeds the number of
candidates: the loop stops as soon as the options are at least `NumScenarioOptions` or at
least as many as the candidates still in `ValidScenarios`. -/
theorem generateLoop_length (N : Int) (fuel : Nat) (rng : Nat → Nat)
    (opts : List FScenarioVoteEntry) (valid : List Nat) (hfuel : valid.length < fuel) :
    (generateLoop N fuel rng opts valid).length
      = if (opts.length : Int) < min N (valid.length : Int)
        then min N.toNat ((opts.length + valid.length + 1) / 2) else opts.length := by
  induction fuel generalizing rng opts valid with
  | zero => omega
  | succ fuel ih =>
    rw [generateLoop]
    by_cases h : (opts.length : Int) < min N (valid.length : Int)
    · rw [dif_pos h, if_pos h]
      have hlt : (opts.length : Int) < N ∧ (opts.length : Int) < (valid.length : Int) :=
        lt_min_iff.1 h
      have hpos : 0 < valid.length := by omega
      have hidx : rng 0 % valid.length < valid.length := Nat.mod_lt _ hpos
      have hlen : (valid.eraseIdx (rng 0 % valid.length)).length = valid.length - 1 :=
        List.length_eraseIdx_of_lt hidx
      simp only []
      rw [ih _ _ _ (by rw [hlen]; omega), hlen, List.length_append, List.length_singleton]
      split_ifs with h2
      · congr 2
        omega
      · have h3 := not_lt.1 h2
        rw [min_le_iff] at h3
        push_cast at h3
        omega
    · rw [dif_neg h, if_neg h]

/-- The loop never runs out of fuel: any two amounts of fuel above the number of candidates
give the same options. -/
theorem generateLoop_fuel_irrelevant (N : Int) (fuel1 fuel2 : Nat) (rng : Nat → Nat)
    (opts : List FScenarioVoteEntry) (valid : List Nat)
    (h1 : valid.length < fuel1) (h2 : valid.length < fuel2) :
    generateLoop N fuel1 rng opts valid = generateLoop N fuel2 rng opts valid := by
  induction fuel1 generalizing fuel2 rng opts valid with
  | zero => omega
  | succ fuel1 ih =>
    cases fuel2 with
    | zero => omega
    | succ fuel2 =>
      rw [generateLoop, generateLoop]
      by_cases h : (opts.length : Int) < min N (valid.length : Int)
      · rw [dif_pos h, dif_pos h]
        have hlt : (opts.length : Int) < N ∧ (opts.length : Int) < (valid.length : Int) :=
          lt_min_iff.1 h
        have hpos : 0 < valid.length := by omega
        have hlen : (valid.eraseIdx (rng 0 % valid.length)).length = valid.length - 1 :=
          List.length_eraseIdx_of_lt (Nat.mod_lt _ hpos)
        simp only []
        exact ih _ _ _ _ (by rw [hlen]; omega) (by rw [hlen]; omega)
      · rw [dif_neg h, dif_neg h]

/-- Number of options generated by `GenerateVotingOptions` for `k` candidates and a
configured count `N`: the smaller of `N` (0 when negative) and `k / 2` rounded up. -/
theorem GenerateVotingOptions_length (c : UScenarioTransitionComponent) (valid : List Nat)
    (rng : Nat → Nat) :
    (GenerateVotingOptions c valid rng).VotingState.VoteOptions.length
      = min c.NumScenarioOptions.toNat ((valid.length + 1) / 2) := by
  simp only [GenerateVotingOptions]
  rw [generateLoop_length _ _ _ _ _ (Nat.lt_succ_self _)]
  simp only [List.length_nil, Nat.cast_zero, Nat.zero_add]
  split_ifs with h
  · rfl
  · have h3 := not_lt.1 h
    rw [min_le_iff] at h3
    omega

/-- C9: evaluation of the code with `NumScenarioOptions = 3` and the three eligible
candidates 1, 2, 3: for every outcome of the random draws `GenerateVotingOptions` (hence
`StartVoting`) leaves two options, not `min 3 3 = 3`, because the loop bound is taken
against the shrinking candidate array. -/
theorem C9_three_candidates_give_two_options :
    ∀ rng : Nat → Nat,
      (GenerateVotingOptions sampleComponent [1, 2, 3] rng).VotingState.VoteOptions.length = 2
      ∧ (StartVoting sampleComponent [1, 2, 3] rng).VotingState.VoteOptions.length = 2 := by
  intro rng
  have h1 := GenerateVotingOptions_length sampleComponent [1, 2, 3] rng
  have h2 := GenerateVotingOptions_length
    { sampleComponent with
      VotingState := { sampleComponent.VotingState with
        bVotingActive := true
        VoteTimeRemaining := sampleComponent.VotingDuration }
      PlayerVotes := [] } [1, 2, 3] rng
  refine ⟨h1.trans (by decide), ?_⟩
  have hs : StartVoting sampleComponent [1, 2, 3] rng
      = GenerateVotingOptions
          { sampleComponent with
            VotingState := { sampleComponent.VotingState with
              bVotingActive := true
              VoteTimeRemaining := sampleComponent.VotingDuration }
            PlayerVotes := [] } [1, 2, 3] rng := by
    simp [StartVoting, sampleComponent]
  rw [hs]
  exact h2.trans (by decide)


/-! ## ServerCastVote: tallies against the ledger -/

/-- The two loops change no identifier. -/
theorem isListed_changeFirstMatch (d : Int) (opts : List FScenarioVoteEntry) (y x : Nat) :
    isListed (changeFirstMatch d opts y) x = isListed opts x := by
  induction opts with
  | nil => rfl
  | cons e rest ih =>
    simp only [isListed] at ih
    by_cases h : e.ScenarioId = y
    · simp [changeFirstMatch, isListed, h]
    · simp [changeFirstMatch, isListed, h, ih]

/-- Sum of the tallies after one of the two loops. -/
theorem totalVotes_changeFirstMatch (d : Int) (opts : List FScenarioVoteEntry) (y : Nat) :
    totalVotes (changeFirstMatch d opts y)
      = totalVotes opts + (if isListed opts y = true then d else 0) := by
  induction opts with
  | nil => simp [changeFirstMatch, totalVotes, isListed]
  | cons e rest ih =>
    by_cases h : e.ScenarioId = y
    · simp [changeFirstMatch, totalVotes, isListed, h]
      ring
    · simp only [isListed] at ih
      simp only [changeFirstMatch, if_neg h, totalVotes, ih, isListed, List.any_cons,
        decide_eq_false h, Bool.false_or]
      ring

/-- Tally credited to an identifier after one of the two loops. -/
theorem tallyOf_changeFirstMatch (d : Int) (opts : List FScenarioVoteEntry) (y x : Nat) :
    tallyOf (changeFirstMatch d opts y) x
      = tallyOf opts x + (if x = y ∧ isListed opts y = true then d else 0) := by
  induction opts with
  | nil => simp [changeFirstMatch, tallyOf, isListed]
  | cons e rest ih =>
    by_cases h : e.ScenarioId = y
    · by_cases hx : x = y
      · subst hx
        simp [changeFirstMatch, tallyOf, isListed, h]
      · have hx2 : ¬ y = x := fun e => hx e.symm
        simp [changeFirstMatch, tallyOf, h, hx, hx2]
    · simp only [isListed] at ih
      simp only [changeFirstMatch, if_neg h, tallyOf, ih, isListed, List.any_cons,
        decide_eq_false h, Bool.false_or]
      by_cases hx : e.ScenarioId = x
      · have : ¬ x = y := fun e2 => h (hx.trans e2)
        simp [hx, this]
      · simp [hx]

/-- Effect of `TMap::Add` on the number of recorded votes that satisfy `q`. -/
theorem ledgerCount_TMapAdd (q : Nat → Bool) (m : List (Nat × Nat)) (p y : Nat) :
    (ledgerCount q (TMapAdd m p y) : Int)
      = (ledgerCount q m : Int)
        - (match TMapFind m p with
           | some old => if q old = true then 1 else 0
           | none => 0)
        + (if q y = true then 1 else 0) := by
  induction m with
  | nil =>
    simp only [TMapAdd, TMapFind, ledgerCount, List.countP_cons, List.countP_nil]
    split_ifs <;> simp
  | cons kv rest ih =>
    obtain ⟨k, v⟩ := kv
    simp only [ledgerCount] at ih
    by_cases h : k = p
    · simp only [TMapAdd, TMapFind, if_pos h, ledgerCount, List.countP_cons]
      split_ifs <;> push_cast <;> ring
    · simp only [TMapAdd, TMapFind, if_neg h, ledgerCount, List.countP_cons]
      push_cast
      rw [ih]
      ring

/-- Entries produced by the generation loop carry no vote. -/
theorem generateLoop_voteCount_zero (N : Int) (fuel : Nat) (rng : Nat → Nat)
    (opts : List FScenarioVoteEntry) (valid : List Nat)
    (h0 : ∀ e ∈ opts, e.VoteCount = 0) :
    ∀ e ∈ generateLoop N fuel rng opts valid, e.VoteCount = 0 := by
  induction fuel generalizing rng opts valid with
  | zero => simpa [generateLoop] using h0
  | succ fuel ih =>
    rw [generateLoop]
    by_cases h : (opts.length : Int) < min N (valid.length : Int)
    · rw [dif_pos h]
      simp only []
      apply ih
      intro e he
      rcases List.mem_append.1 he with h1 | h1
      · exact h0 e h1
      · rw [List.mem_singleton.1 h1]
    · rw [dif_neg h]
      exact h0

/-- A list of options without votes has total 0 and credits 0 to every identifier. -/
theorem no_votes_totals (opts : List FScenarioVoteEntry) (h0 : ∀ e ∈ opts, e.VoteCount = 0) :
    totalVotes opts = 0 ∧ ∀ x, tallyOf opts x = 0 := by
  induction opts with
  | nil => simp [totalVotes, tallyOf]
  | cons e rest ih =>
    have he := h0 e (List.mem_cons_self _ _)
    obtain ⟨h1, h2⟩ := ih (fun e he => h0 e (List.mem_cons_of_mem _ he))
    refine ⟨by simp [totalVotes, he, h1], fun x => ?_⟩
    simp only [tallyOf]
    split_ifs
    · exact he
    · exact h2 x


/-- C10, as stated, fails: after `StartVoting` (options 1 and 2) participant 100 casts a
vote for the unlisted identifier 9; the ledger then holds one participant who has voted,
and the sum of `VoteCount` over the options is 0. -/
theorem C10_unlisted_vote_is_not_tallied :
    VotingRound sampleRoundUnlisted
    ∧ sampleRoundUnlisted.VotingState.VoteOptions
        = [{ ScenarioId := 1, VoteCount := 0 }, { ScenarioId := 2, VoteCount := 0 }]
    ∧ sampleRoundUnlisted.PlayerVotes = [(100, 9)]
    ∧ totalVotes sampleRoundUnlisted.VotingState.VoteOptions
        ≠ ((sampleRoundUnlisted.PlayerVotes.map Prod.fst).dedup.length : Int) := by
  refine ⟨VotingRound.cast _ 100 9 (VotingRound.start sampleComponent [1, 2, 3] _ rfl),
    ?_, ?_, ?_⟩
  · decide
  · decide
  · decide

/-- Invariant of a voting round begun by `StartVoting` and continued
by `ServerCastVote` calls of known participants with arbitrary identifiers: the sum of
`VoteCount` over the options equals the number of participants whose recorded vote names a
listed option; every participant has one entry in the ledger; and the tally credited to a
listed identifier equals the number of participants whose recorded vote is that identifier,
so a participant is counted in the tally of at most one identifier. -/
theorem votingRound_tallies (c : UScenarioTransitionComponent) (h : VotingRound c) :
    totalVotes c.VotingState.VoteOptions
      = (ledgerCount (isListed c.VotingState.VoteOptions) c.PlayerVotes : Int)
    ∧ (c.PlayerVotes.map Prod.fst).Nodup
    ∧ ∀ x, isListed c.VotingState.VoteOptions x = true →
        tallyOf c.VotingState.VoteOptions x
          = (ledgerCount (fun y => decide (y = x)) c.PlayerVotes : Int) := by
  induction h with
  | start c valid rng hauth =>
    have hz := no_votes_totals _
      (generateLoop_voteCount_zero c.NumScenarioOptions (valid.length + 1) rng [] valid
        (by simp))
    simp only [StartVoting, hauth, ne_eq, not_true_eq_false, if_false, GenerateVotingOptions]
    refine ⟨?_, ?_, ?_⟩
    · simp [hz.1, ledgerCount]
    · simp
    · intro x _
      simp [hz.2 x, ledgerCount]
  | cast c p y _ ih =>
    obtain ⟨hsum, hnd, htal⟩ := ih
    unfold ServerCastVote
    by_cases hact : c.VotingState.bVotingActive = false
    · rw [if_pos hact]
      exact ⟨hsum, hnd, htal⟩
    · rw [if_neg hact]
      simp only []
      have hlist : ∀ opts1, (∃ d z, opts1 = changeFirstMatch d c.VotingState.VoteOptions z) ∨
          opts1 = c.VotingState.VoteOptions →
          isListed (changeFirstMatch 1 opts1 y) = isListed c.VotingState.VoteOptions := by
        intro opts1 h1
        funext x
        rw [isListed_changeFirstMatch]
        rcases h1 with ⟨d, z, rfl⟩ | rfl
        · rw [isListed_changeFirstMatch]
        · rfl
      refine ⟨?_, ?_, ?_⟩
      · cases hfind : TMapFind c.PlayerVotes p with
        | none =>
          simp only []
          rw [hlist _ (Or.inr rfl), totalVotes_changeFirstMatch, ledgerCount_TMapAdd, hfind,
            hsum]
          simp
        | some old =>
          simp only []
          rw [hlist _ (Or.inl ⟨-1, old, rfl⟩), totalVotes_changeFirstMatch,
            isListed_changeFirstMatch, totalVotes_changeFirstMatch, ledgerCount_TMapAdd,
            hfind, hsum]
          simp only []
          split_ifs <;> ring
      · rw [TMapAdd_keys]
        split_ifs with hin
        · exact hnd
        · exact List.Nodup.append hnd (List.nodup_singleton _) (by simpa using hin)
      · intro x hx
        cases hfind : TMapFind c.PlayerVotes p with
        | none =>
          simp only [hfind] at hx ⊢
          rw [isListed_changeFirstMatch] at hx
          rw [tallyOf_changeFirstMatch, ledgerCount_TMapAdd, hfind, htal x hx]
          simp only []
          by_cases hxy : x = y
          · subst hxy
            simp [hx]
          · have : ¬ y = x := fun e => hxy e.symm
            simp [hxy, this]
        | some old =>
          simp only [hfind] at hx ⊢
          rw [isListed_changeFirstMatch, isListed_changeFirstMatch] at hx
          rw [tallyOf_changeFirstMatch, isListed_changeFirstMatch, tallyOf_changeFirstMatch,
            ledgerCount_TMapAdd, hfind, htal x hx]
          simp only []
          have e1 : (if x = y ∧ isListed c.VotingState.VoteOptions y = true then (1 : Int) else 0)
              = if decide (y = x) = true then 1 else 0 := by
            by_cases hxy : x = y
            · subst hxy
              simp [hx]
            · have : ¬ y = x := fun e => hxy e.symm
              simp [hxy, this]
          have e2 : (if x = old ∧ isListed c.VotingState.VoteOptions old = true then (-1 : Int)
              else 0) = - (if decide (old = x) = true then 1 else 0) := by
            by_cases hxo : x = old
            · subst hxo
              simp [hx]
            · have : ¬ old = x := fun e => hxo e.symm
              simp [hxo, this]
          rw [e1, e2]
          ring

/-- C10 (amended): in every state of a voting round begun by `StartVoting` and continued
by `ServerCastVote` calls of known participants with arbitrary identifiers, the sum of
`VoteCount` over the options equals the number of participants whose recorded vote names a
listed option; every participant has one entry in the ledger; and the tally credited to a
listed identifier equals the number of participants whose recorded vote is that identifier,
so a participant is counted in the tally of at most one identifier. -/
theorem C10_tallies_match_ledger (c : UScenarioTransitionComponent) (h : VotingRound c) :
    totalVotes c.VotingState.VoteOptions
      = (ledgerCount (isListed c.VotingState.VoteOptions) c.PlayerVotes : Int)
    ∧ (c.PlayerVotes.map Prod.fst).Nodup
    ∧ ∀ x, isListed c.VotingState.VoteOptions x = true →
        tallyOf c.VotingState.VoteOptions x
          = (ledgerCount (fun y => decide (y = x)) c.PlayerVotes : Int) :=
  votingRound_tallies c h

/-- Witness of C10: the round `sampleRound`. -/
theorem C10_tallies_match_ledger_witness :
    totalVotes sampleRound.VotingState.VoteOptions
      = (ledgerCount (isListed sampleRound.VotingState.VoteOptions) sampleRound.PlayerVotes : Int)
    ∧ (sampleRound.PlayerVotes.map Prod.fst).Nodup
    ∧ ∀ x, isListed sampleRound.VotingState.VoteOptions x = true →
        tallyOf sampleRound.VotingState.VoteOptions x
          = (ledgerCount (fun y => decide (y = x)) sampleRound.PlayerVotes : Int) :=
  C10_tallies_match_ledger sampleRound
    (VotingRound.cast _ 101 9
      (VotingRound.cast _ 100 2
        (VotingRound.cast _ 100 1 (VotingRound.start sampleComponent [1, 2, 3] _ rfl))))


/-! ## ProcessVotingResults (base) -/

/-- Voting is active in every state of a voting round. -/
theorem votingRound_active (c : UScenarioTransitionComponent) (h : VotingRound c) :
    c.VotingState.bVotingActive = true := by
  induction h with
  | start c valid rng hauth =>
    simp [StartVoting, hauth, GenerateVotingOptions]
  | cast c p y _ ih =>
    simp [ServerCastVote, ih]

/-- One of the two loops of `ServerCastVote` keeps every tally non-negative when the tally
it changes stays non-negative. -/
theorem changeFirstMatch_nonneg (d : Int) (opts : List FScenarioVoteEntry) (y : Nat)
    (h0 : ∀ e ∈ opts, 0 ≤ e.VoteCount)
    (hy : isListed opts y = true → 0 ≤ tallyOf opts y + d) :
    ∀ e ∈ changeFirstMatch d opts y, 0 ≤ e.VoteCount := by
  induction opts with
  | nil => simp [changeFirstMatch]
  | cons e rest ih =>
    by_cases h : e.ScenarioId = y
    · simp only [changeFirstMatch, if_pos h]
      simp only [tallyOf, if_pos h, isListed, List.any_cons, h, decide_True, Bool.true_or,
        true_implies] at hy
      intro x hx
      rcases List.mem_cons.1 hx with hx | hx
      · rw [hx]
        exact hy
      · exact h0 x (List.mem_cons_of_mem _ hx)
    · simp only [changeFirstMatch, if_neg h]
      simp only [tallyOf, if_neg h, isListed, List.any_cons, decide_eq_false h,
        Bool.false_or] at hy
      intro x hx
      rcases List.mem_cons.1 hx with hx | hx
      · rw [hx]
        exact h0 e (List.mem_cons_self _ _)
      · exact ih (fun z hz => h0 z (List.mem_cons_of_mem _ hz)) hy x hx

/-- The tally credited to an identifier that is not listed is 0. -/
theorem tallyOf_not_listed (opts : List FScenarioVoteEntry) (y : Nat)
    (h : isListed opts y = false) : tallyOf opts y = 0 := by
  induction opts with
  | nil => rfl
  | cons e rest ih =>
    simp only [isListed, List.any_cons, Bool.or_eq_false_iff, decide_eq_false_iff_not] at h
    simp only [tallyOf, if_neg h.1]
    exact ih (by simpa [isListed] using h.2)

/-- A vote found in the ledger is counted at least once. -/
theorem ledgerCount_pos_of_find (m : List (Nat × Nat)) (p old : Nat)
    (h : TMapFind m p = some old) : 1 ≤ ledgerCount (fun y => decide (y = old)) m := by
  induction m with
  | nil => simp [TMapFind] at h
  | cons kv rest ih =>
    obtain ⟨k, v⟩ := kv
    simp only [ledgerCount, List.countP_cons]
    by_cases hk : k = p
    · simp only [TMapFind, if_pos hk, Option.some.injEq] at h
      simp [h]
    · simp only [TMapFind, if_neg hk] at h
      have := ih h
      simp only [ledgerCount] at this
      omega

/-- No tally is negative in a voting round. -/
theorem votingRound_nonneg (c : UScenarioTransitionComponent) (h : VotingRound c) :
    ∀ e ∈ c.VotingState.VoteOptions, 0 ≤ e.VoteCount := by
  induction h with
  | start c valid rng hauth =>
    have hz := generateLoop_voteCount_zero c.NumScenarioOptions (valid.length + 1) rng []
      valid (by simp)
    simp only [StartVoting, hauth, ne_eq, not_true_eq_false, if_false, GenerateVotingOptions]
    intro e he
    rw [hz e he]
  | cast c p y hr ih =>
    obtain ⟨_, _, htal⟩ := votingRound_tallies c hr
    unfold ServerCastVote
    by_cases hact : c.VotingState.bVotingActive = false
    · rw [if_pos hact]
      exact ih
    · rw [if_neg hact]
      simp only []
      have hplus : ∀ opts1 : List FScenarioVoteEntry, (∀ e ∈ opts1, 0 ≤ e.VoteCount) →
          ∀ e ∈ changeFirstMatch 1 opts1 y, 0 ≤ e.VoteCount := by
        intro opts1 h1
        apply changeFirstMatch_nonneg 1 opts1 y h1
        intro _
        · have : ∀ l : List FScenarioVoteEntry, (∀ e ∈ l, 0 ≤ e.VoteCount) →
              0 ≤ tallyOf l y := by
            intro l hl0
            induction l with
            | nil => simp [tallyOf]
            | cons e rest ihl =>
              simp only [tallyOf]
              split_ifs
              · exact hl0 e (List.mem_cons_self _ _)
              · exact ihl (fun z hz => hl0 z (List.mem_cons_of_mem _ hz))
          have := this opts1 h1
          omega
      cases hfind : TMapFind c.PlayerVotes p with
      | none =>
        simp only []
        exact hplus _ ih
      | some old =>
        simp only []
        apply hplus
        apply changeFirstMatch_nonneg (-1) _ old ih
        intro hl
        rw [htal old hl]
        have := ledgerCount_pos_of_find c.PlayerVotes p old hfind
        omega

/-- What the loop of the base `ProcessVotingResults` computes: the highest tally seen, and
the identifier of the first entry that carries it when it exceeds the initial value. -/
theorem highestVotesLoop_spec (opts : List FScenarioVoteEntry) (W0 : Nat) (H0 : Int) :
    H0 ≤ (highestVotesLoop opts (W0, H0)).2 ∧
    (∀ e ∈ opts, e.VoteCount ≤ (highestVotesLoop opts (W0, H0)).2) ∧
    ((highestVotesLoop opts (W0, H0) = (W0, H0) ∧ ∀ e ∈ opts, e.VoteCount ≤ H0) ∨
     (H0 < (highestVotesLoop opts (W0, H0)).2 ∧
      ∃ pre e post, opts = pre ++ e :: post ∧
        e.ScenarioId = (highestVotesLoop opts (W0, H0)).1 ∧
        e.VoteCount = (highestVotesLoop opts (W0, H0)).2 ∧
        ∀ x ∈ pre, x.VoteCount < (highestVotesLoop opts (W0, H0)).2)) := by
  induction opts generalizing W0 H0 with
  | nil => simp [highestVotesLoop]
  | cons e rest ih =>
    by_cases hgt : e.VoteCount > H0
    · simp only [highestVotesLoop, if_pos hgt]
      obtain ⟨h1, h2, h3⟩ := ih e.ScenarioId e.VoteCount
      refine ⟨by omega, ?_, Or.inr ⟨by omega, ?_⟩⟩
      · intro x hx
        rcases List.mem_cons.1 hx with hx | hx
        · rw [hx]; exact h1
        · exact h2 x hx
      · rcases h3 with ⟨heq, _⟩ | ⟨hlt, pre, e', post, hsplit, hid, hvc, hpre⟩
        · refine ⟨[], e, rest, rfl, ?_, ?_, ?_⟩
          · rw [heq]
          · rw [heq]
          · simp
        · refine ⟨e :: pre, e', post, by rw [hsplit]; rfl, hid, hvc, ?_⟩
          intro x hx
          rcases List.mem_cons.1 hx with hx | hx
          · rw [hx]; exact hlt
          · exact hpre x hx
    · simp only [highestVotesLoop, if_neg hgt]
      obtain ⟨h1, h2, h3⟩ := ih W0 H0
      have hle : e.VoteCount ≤ H0 := not_lt.1 hgt
      refine ⟨h1, ?_, ?_⟩
      · intro x hx
        rcases List.mem_cons.1 hx with hx | hx
        · rw [hx]; omega
        · exact h2 x hx
      · rcases h3 with ⟨heq, hall⟩ | ⟨hlt, pre, e', post, hsplit, hid, hvc, hpre⟩
        · left
          refine ⟨heq, ?_⟩
          intro x hx
          rcases List.mem_cons.1 hx with hx | hx
          · rw [hx]; exact hle
          · exact hall x hx
        · right
          refine ⟨hlt, e :: pre, e', post, by rw [hsplit]; rfl, hid, hvc, ?_⟩
          intro x hx
          rcases List.mem_cons.1 hx with hx | hx
          · rw [hx]; omega
          · exact hpre x hx

/-- C11: in every state of a base voting round with a non-empty option list, for every
random draw, `ProcessVotingResults` broadcasts a winner and leaves voting inactive; the
winner is the identifier of an option whose tally is maximal among all options; and when
some tally is greater than 0 the winner is the identifier of the first option in list
order that attains the maximum. -/
theorem C11_base_winner_is_first_maximal_option (c : UScenarioTransitionComponent)
    (rng : Nat → Nat) (h : VotingRound c) (hne : c.VotingState.VoteOptions ≠ []) :
    ∃ w, (ProcessVotingResults c rng).2 = some w ∧
      (ProcessVotingResults c rng).1.VotingState.bVotingActive = false ∧
      (∃ e ∈ c.VotingState.VoteOptions, e.ScenarioId = w ∧
        ∀ x ∈ c.VotingState.VoteOptions, x.VoteCount ≤ e.VoteCount) ∧
      ((∃ x ∈ c.VotingState.VoteOptions, 0 < x.VoteCount) →
        ∃ pre e post, c.VotingState.VoteOptions = pre ++ e :: post ∧ e.ScenarioId = w ∧
          (∀ x ∈ c.VotingState.VoteOptions, x.VoteCount ≤ e.VoteCount) ∧
          ∀ x ∈ pre, x.VoteCount < e.VoteCount) := by
  have hact := votingRound_active c h
  have hnn := votingRound_nonneg c h
  obtain ⟨_, hmax, hcase⟩ := highestVotesLoop_spec c.VotingState.VoteOptions DefaultAssetId (-1)
  have hlen : c.VotingState.VoteOptions.length > 0 := List.length_pos.2 hne
  obtain ⟨hlt, pre, e, post, hsplit, hid, hvc, hpre⟩ :
      (-1 : Int) < (highestVotesLoop c.VotingState.VoteOptions (DefaultAssetId, -1)).2 ∧
      ∃ pre e post, c.VotingState.VoteOptions = pre ++ e :: post ∧
        e.ScenarioId = (highestVotesLoop c.VotingState.VoteOptions (DefaultAssetId, -1)).1 ∧
        e.VoteCount = (highestVotesLoop c.VotingState.VoteOptions (DefaultAssetId, -1)).2 ∧
        ∀ x ∈ pre, x.VoteCount
          < (highestVotesLoop c.VotingState.VoteOptions (DefaultAssetId, -1)).2 := by
    rcases hcase with ⟨_, hall⟩ | h2
    · obtain ⟨x, hx⟩ := List.exists_mem_of_ne_nil _ hne
      have := hall x hx
      have := hnn x hx
      omega
    · exact h2
  have he : e ∈ c.VotingState.VoteOptions := by rw [hsplit]; simp
  by_cases hz : (highestVotesLoop c.VotingState.VoteOptions (DefaultAssetId, -1)).2 = 0 ∧
      c.VotingState.VoteOptions.length > 0
  · have hP : ProcessVotingResults c rng
        = ({ c with VotingState := { c.VotingState with bVotingActive := false } },
            some (c.VotingState.VoteOptions.get
              ⟨rng 0 % c.VotingState.VoteOptions.length, Nat.mod_lt _ hz.2⟩).ScenarioId) := by
      unfold ProcessVotingResults
      rw [if_neg (by simp [hact])]
      simp only []
      rw [dif_pos hz]
    rw [hP]
    refine ⟨_, rfl, rfl, ⟨_, List.get_mem _ _ _, rfl, ?_⟩, ?_⟩
    · intro x hx
      have h1 := hmax x hx
      have h2 := hnn _ (List.get_mem c.VotingState.VoteOptions
        (rng 0 % c.VotingState.VoteOptions.length) (Nat.mod_lt _ hz.2))
      omega
    · rintro ⟨x, hx, hpos⟩
      have := hmax x hx
      omega
  · have hP : ProcessVotingResults c rng
        = ({ c with VotingState := { c.VotingState with bVotingActive := false } },
            some (highestVotesLoop c.VotingState.VoteOptions (DefaultAssetId, -1)).1) := by
      unfold ProcessVotingResults
      rw [if_neg (by simp [hact])]
      simp only []
      rw [dif_neg hz]
    rw [hP]
    refine ⟨_, rfl, rfl, ⟨e, he, hid, ?_⟩, fun _ => ⟨pre, e, post, hsplit, hid, ?_, ?_⟩⟩
    · intro x hx; rw [hvc]; exact hmax x hx
    · intro x hx; rw [hvc]; exact hmax x hx
    · intro x hx; rw [hvc]; exact hpre x hx


/-- Witness of C11: options `[1, 2, 3]` with the votes 1, 1, 2. -/
theorem C11_base_winner_is_first_maximal_option_witness :
    (ProcessVotingResults sampleRoundVoted (fun _ => 0)).2 = some 1 ∧
    ∃ w, (ProcessVotingResults sampleRoundVoted (fun _ => 0)).2 = some w ∧
      (ProcessVotingResults sampleRoundVoted (fun _ => 0)).1.VotingState.bVotingActive = false ∧
      (∃ e ∈ sampleRoundVoted.VotingState.VoteOptions, e.ScenarioId = w ∧
        ∀ x ∈ sampleRoundVoted.VotingState.VoteOptions, x.VoteCount ≤ e.VoteCount) ∧
      ((∃ x ∈ sampleRoundVoted.VotingState.VoteOptions, 0 < x.VoteCount) →
        ∃ pre e post, sampleRoundVoted.VotingState.VoteOptions = pre ++ e :: post ∧
          e.ScenarioId = w ∧
          (∀ x ∈ sampleRoundVoted.VotingState.VoteOptions, x.VoteCount ≤ e.VoteCount) ∧
          ∀ x ∈ pre, x.VoteCount < e.VoteCount) :=
  ⟨by decide,
    C11_base_winner_is_first_maximal_option sampleRoundVoted (fun _ => 0)
      (VotingRound.cast _ 102 2
        (VotingRound.cast _ 101 1
          (VotingRound.cast _ 100 1
            (VotingRound.start sampleComponent [1, 2, 3, 4, 5] _ rfl))))
      (by decide)⟩

/-! ## Weighted voting -/

/-- C12: evaluation of the code on the options `[B, A]` (A = 1, B = 2), none vetoed, where
participant 100 has weight 2 and votes A and participant 101 has weight 1 and votes B. The
votes are recorded in the ledger of the base class, every `WeightedVotes` is still 0, also
after a further performance update, and `ProcessVotingResults` broadcasts B, the first
option that is not vetoed, for every random draw. -/
theorem C12_weighted_winner_ignores_cast_votes :
    CalculatePlayerVoteWeight sampleWeightedRound 100 = 2 ∧
    CalculatePlayerVoteWeight sampleWeightedRound 101 = 1 ∧
    sampleWeightedRound.Super.PlayerVotes = [(100, 1), (101, 2)] ∧
    sampleWeightedRound.PlayerVotes = [] ∧
    sampleWeightedRound.EnhancedVoteOptions.map (fun e => e.WeightedVotes) = [0, 0] ∧
    (ServerUpdatePlayerPerformance sampleWeightedRound (some 100) 20).EnhancedVoteOptions.map
      (fun e => e.WeightedVotes) = [0, 0] ∧
    ∀ rng : Nat → Nat,
      (sampleWeightedRound.ProcessVotingResults none rng 0 none).2.2 = some 2 := by
  refine ⟨by decide!, by decide!, by decide, by decide, by decide!, by decide!, ?_⟩
  intro rng
  rfl


/-- The inner loop of `UpdateVoteWeights` changes no identifier. -/
theorem addWeightFirstMatch_ids (w : ℚ) (opts : List FEnhancedVoteEntry) (y : Nat) :
    (addWeightFirstMatch w opts y).map (fun e => e.ScenarioId)
      = opts.map (fun e => e.ScenarioId) := by
  induction opts with
  | nil => rfl
  | cons e rest ih =>
    by_cases h : e.ScenarioId = y
    · simp [addWeightFirstMatch, h]
    · simp [addWeightFirstMatch, h, ih]

/-- Weighted total credited to an identifier after the inner loop of `UpdateVoteWeights`. -/
theorem weightedTallyOf_addWeightFirstMatch (w : ℚ) (opts : List FEnhancedVoteEntry)
    (y x : Nat) (hx : x ∈ opts.map (fun e => e.ScenarioId)) :
    weightedTallyOf (addWeightFirstMatch w opts y) x
      = weightedTallyOf opts x + (if y = x then w else 0) := by
  induction opts with
  | nil => simp at hx
  | cons e rest ih =>
    by_cases h : e.ScenarioId = y
    · by_cases hxy : y = x
      · subst hxy
        simp [addWeightFirstMatch, weightedTallyOf, h]
      · have h2 : ¬ e.ScenarioId = x := fun e2 => hxy (h.symm.trans e2)
        simp [addWeightFirstMatch, weightedTallyOf, h, hxy, h2]
    · by_cases hex : e.ScenarioId = x
      · subst hex
        have hxy : ¬ y = e.ScenarioId := fun e2 => h e2.symm
        simp [addWeightFirstMatch, weightedTallyOf, h, hxy]
      · have hx2 : x ∈ rest.map (fun e => e.ScenarioId) := by
          simp only [List.map_cons, List.mem_cons] at hx
          rcases hx with hx | hx
          · exact absurd hx.symm hex
          · exact hx
        simp only [addWeightFirstMatch, if_neg h, weightedTallyOf, if_neg hex]
        exact ih hx2

/-- The outer loop of `UpdateVoteWeights` changes no identifier. -/
theorem weightLoop_ids (c : EnhancedStateView) (L : List (Nat × Nat))
    (opts : List FEnhancedVoteEntry) :
    (weightLoop c L opts).map (fun e => e.ScenarioId) = opts.map (fun e => e.ScenarioId) := by
  induction L generalizing opts with
  | nil => rfl
  | cons pv rest ih =>
    simp only [weightLoop]
    rw [ih, addWeightFirstMatch_ids]

/-- Weighted total credited to a listed identifier after the outer loop of
`UpdateVoteWeights`: the weights of the participants that the map passed to the loop
records for that identifier are added. -/
theorem weightedTallyOf_weightLoop (c : EnhancedStateView)
    (L : List (Nat × Nat)) (opts : List FEnhancedVoteEntry) (x : Nat)
    (hx : x ∈ opts.map (fun e => e.ScenarioId)) :
    weightedTallyOf (weightLoop c L opts) x = weightedTallyOf opts x + weightSum c L x := by
  induction L generalizing opts with
  | nil => simp [weightLoop, weightSum]
  | cons pv rest ih =>
    simp only [weightLoop, weightSum]
    rw [ih _ (by rw [addWeightFirstMatch_ids]; exact hx),
      weightedTallyOf_addWeightFirstMatch _ _ _ _ hx]
    ring

/-- With pairwise distinct identifiers the weighted total credited to the identifier of an
option is the `WeightedVotes` of that option. -/
theorem weightedTallyOf_of_mem (opts : List FEnhancedVoteEntry)
    (hnd : (opts.map (fun e => e.ScenarioId)).Nodup) (e : FEnhancedVoteEntry) (he : e ∈ opts) :
    weightedTallyOf opts e.ScenarioId = e.WeightedVotes := by
  induction opts with
  | nil => simp at he
  | cons a rest ih =>
    simp only [List.map_cons, List.nodup_cons] at hnd
    rcases List.mem_cons.1 he with h | h
    · subst h
      simp [weightedTallyOf]
    · have hne : ¬ a.ScenarioId = e.ScenarioId := by
        intro heq
        exact hnd.1 (by rw [heq]; exact List.mem_map_of_mem _ h)
      simp only [weightedTallyOf, if_neg hne]
      exact ih hnd.2 h

/-- What `UpdateVoteWeights` computes: with pairwise distinct option identifiers, the
`WeightedVotes` of every option is the sum of the current weights of the participants that
the map `PlayerVotes` of the derived class records for its identifier. -/
theorem UpdateVoteWeights_recomputes (c : EnhancedStateView)
    (hnd : (c.EnhancedVoteOptions.map (fun e => e.ScenarioId)).Nodup) :
    ∀ e ∈ (UpdateVoteWeights c).EnhancedVoteOptions,
      e.WeightedVotes = weightSum c c.PlayerVotes e.ScenarioId := by
  intro e he
  simp only [UpdateVoteWeights] at he
  have hids : (weightLoop c c.PlayerVotes
      (c.EnhancedVoteOptions.map (fun Entry => { Entry with WeightedVotes := 0 }))).map
        (fun e => e.ScenarioId) = c.EnhancedVoteOptions.map (fun e => e.ScenarioId) := by
    rw [weightLoop_ids, List.map_map]
    rfl
  have hmem : e.ScenarioId ∈ c.EnhancedVoteOptions.map (fun e => e.ScenarioId) := by
    rw [← hids]
    exact List.mem_map_of_mem _ he
  rw [← weightedTallyOf_of_mem _ (by rw [hids]; exact hnd) e he,
    weightedTallyOf_weightLoop _ _ _ _ (by rw [List.map_map]; exact hmem)]
  have hzero : ∀ l : List FEnhancedVoteEntry, ∀ x,
      weightedTallyOf (l.map (fun Entry => { Entry with WeightedVotes := 0 })) x = 0 := by
    intro l x
    induction l with
    | nil => rfl
    | cons a rest ih =>
      simp only [List.map_cons, weightedTallyOf]
      split_ifs
      · rfl
      · exact ih
  rw [hzero, zero_add]

/-- C13: evaluation of the code on a round with the options `[1, 2]` in which participant
100 casts a vote for option 1 and `ServerUpdatePlayerPerformance` then sets the multiplier
of participant 100 to 2. The vote is recorded in the ledger that `ServerCastVote` writes,
the current weight of the voter is 2, voting is active, and every `WeightedVotes` is 0: the
recomputation reads the map `PlayerVotes` of the derived class, which holds no vote. -/
theorem C13_weighted_totals_miss_recorded_votes :
    sampleVotedThenScored.Super.VotingState.bVotingActive = true ∧
    sampleVotedThenScored.Super.PlayerVotes = [(100, 1)] ∧
    CalculatePlayerVoteWeight sampleVotedThenScored 100 = 2 ∧
    sampleVotedThenScored.PlayerVotes = [] ∧
    sampleVotedThenScored.EnhancedVoteOptions
      = [FEnhancedVoteEntry.New 1, FEnhancedVoteEntry.New 2] ∧
    weightedTallyOf sampleVotedThenScored.EnhancedVoteOptions 1 = 0 := by
  refine ⟨by decide, by decide, by decide!, by decide, by decide!, by decide!⟩


/-! ## Weighted ProcessVotingResults and vetos -/

/-- The first loop of the weighted `ProcessVotingResults` keeps the initial identifier or
settles on the identifier of an option that is not vetoed. -/
theorem weightedWinnerLoop_mem (thr : Int) (opts : List FEnhancedVoteEntry) (W0 : Nat)
    (H0 : ℚ) :
    (weightedWinnerLoop thr opts (W0, H0)).1 = W0 ∨
    ∃ e ∈ opts, e.VetoCount < thr ∧ e.ScenarioId = (weightedWinnerLoop thr opts (W0, H0)).1 := by
  induction opts generalizing W0 H0 with
  | nil => left; rfl
  | cons e rest ih =>
    by_cases hv : e.VetoCount ≥ thr
    · simp only [weightedWinnerLoop, if_pos hv]
      rcases ih W0 H0 with h | ⟨x, hx, h1, h2⟩
      · exact Or.inl h
      · exact Or.inr ⟨x, List.mem_cons_of_mem _ hx, h1, h2⟩
    · by_cases hg : e.WeightedVotes > H0
      · simp only [weightedWinnerLoop, if_neg hv, if_pos hg]
        rcases ih e.ScenarioId e.WeightedVotes with h | ⟨x, hx, h1, h2⟩
        · exact Or.inr ⟨e, List.mem_cons_self _ _, not_le.1 hv, h.symm⟩
        · exact Or.inr ⟨x, List.mem_cons_of_mem _ hx, h1, h2⟩
      · simp only [weightedWinnerLoop, if_neg hv, if_neg hg]
        rcases ih W0 H0 with h | ⟨x, hx, h1, h2⟩
        · exact Or.inl h
        · exact Or.inr ⟨x, List.mem_cons_of_mem _ hx, h1, h2⟩

/-- When some option is not vetoed, the identifier the weighted `ProcessVotingResults`
settles on is the identifier of an option that is not vetoed. -/
theorem weightedWinner_not_vetoed (c : EnhancedStateView)
    (rng : Nat → Nat) (hex : ∃ e ∈ c.EnhancedVoteOptions, e.VetoCount < c.VetoThreshold) :
    ∃ e ∈ c.EnhancedVoteOptions, e.ScenarioId = weightedWinner c rng ∧
      e.VetoCount < c.VetoThreshold := by
  unfold weightedWinner
  simp only []
  by_cases hval : IsValidAssetId
      (weightedWinnerLoop c.VetoThreshold c.EnhancedVoteOptions (DefaultAssetId, -1)).1 = false
  · rw [if_pos hval]
    have hlen : (c.EnhancedVoteOptions.filter
        (fun Entry => decide (Entry.VetoCount < c.VetoThreshold))).length > 0 := by
      obtain ⟨e, he, hlt⟩ := hex
      exact List.length_pos_of_mem (List.mem_filter.2 ⟨he, by simpa using hlt⟩)
    rw [dif_pos hlen]
    have hmem := List.get_mem (c.EnhancedVoteOptions.filter
        (fun Entry => decide (Entry.VetoCount < c.VetoThreshold)))
      (rng 0 % (c.EnhancedVoteOptions.filter
        (fun Entry => decide (Entry.VetoCount < c.VetoThreshold))).length)
      (Nat.mod_lt _ hlen)
    obtain ⟨h1, h2⟩ := List.mem_filter.1 hmem
    exact ⟨_, h1, rfl, by simpa using h2⟩
  · rw [if_neg hval]
    rcases weightedWinnerLoop_mem c.VetoThreshold c.EnhancedVoteOptions DefaultAssetId (-1)
      with h | ⟨e, he, h1, h2⟩
    · exfalso
      apply hval
      rw [h]
      rfl
    · exact ⟨e, he, h2, h1⟩

/-- Behind the cast: on a view in an active round with pairwise distinct option identifiers
in which some option has `VetoCount < VetoThreshold`, the statements of
`ProcessVotingResults` broadcast, for every random draw and whatever the weighted totals,
the identifier of an option that is not vetoed, and no option with
`VetoCount ≥ VetoThreshold` carries that identifier. -/
theorem view_vetoed_option_never_wins (c : EnhancedStateView)
    (pm : Option UScenarioPersistenceManager) (rng : Nat → Nat) (UtcNow : Int)
    (PlayerArrayNum : Option Nat)
    (hact : c.Super.VotingState.bVotingActive = true)
    (hnd : (c.EnhancedVoteOptions.map (fun e => e.ScenarioId)).Nodup)
    (hex : ∃ e ∈ c.EnhancedVoteOptions, e.VetoCount < c.VetoThreshold) :
    ∃ w, (c.ProcessVotingResults pm rng UtcNow PlayerArrayNum).2.2 = some w ∧
      (∃ e ∈ c.EnhancedVoteOptions, e.ScenarioId = w ∧ e.VetoCount < c.VetoThreshold) ∧
      ∀ e ∈ c.EnhancedVoteOptions, e.VetoCount ≥ c.VetoThreshold → e.ScenarioId ≠ w := by
  obtain ⟨e, he, hid, hlt⟩ := weightedWinner_not_vetoed c rng hex
  refine ⟨weightedWinner c rng, ?_, ⟨e, he, hid, hlt⟩, ?_⟩
  · simp [EnhancedStateView.ProcessVotingResults, hact]
  · intro x hx hge hxid
    have hxe : x = e :=
      List.inj_on_of_nodup_map hnd hx he (by simpa using hxid.trans hid.symm)
    rw [hxe] at hge
    omega


/-! ## ServerVetoScenario -/

/-- Lookup after `TMap::Add`. -/
theorem TMapFind_TMapAdd {ν : Type} (m : List (Nat × ν)) (k k' : Nat) (v : ν) :
    TMapFind (TMapAdd m k v) k' = if k = k' then some v else TMapFind m k' := by
  induction m with
  | nil =>
    by_cases h : k = k' <;> simp [TMapAdd, TMapFind, h]
  | cons kv rest ih =>
    obtain ⟨a, b⟩ := kv
    by_cases ha : a = k
    · subst ha
      by_cases h : a = k' <;> simp [TMapAdd, TMapFind, h]
    · by_cases h : k = k'
      · subst h
        simp [TMapAdd, TMapFind, ha, ih]
      · by_cases hak : a = k'
        · subst hak
          simp [TMapAdd, TMapFind, ha, h]
        · simp [TMapAdd, TMapFind, ha, h, hak, ih]

/-- Lookup after `TMap::FindOrAdd`. -/
theorem TMapFind_TMapFindOrAdd {ν : Type} (m : List (Nat × ν)) (k k' : Nat) (d : ν) :
    TMapFind (TMapFindOrAdd m k d) k'
      = if k = k' then some ((TMapFind m k).getD d) else TMapFind m k' := by
  unfold TMapFindOrAdd
  cases hf : TMapFind m k with
  | none =>
    simp only [TMapFind_TMapAdd, Option.getD_none]
  | some v =>
    by_cases h : k = k'
    · subst h
      simp [hf]
    · simp [h]

/-- What the loop of `ServerVetoScenario` does when the identifier is listed: it matches,
and exactly the first option that carries the identifier gains one veto. -/
theorem vetoLoop_listed (opts : List FEnhancedVoteEntry) (y : Nat)
    (hy : y ∈ opts.map (fun e => e.ScenarioId)) :
    (vetoLoop opts y).2 = true ∧
    ∃ pre e post, opts = pre ++ e :: post ∧ (∀ x ∈ pre, x.ScenarioId ≠ y) ∧
      e.ScenarioId = y ∧
      (vetoLoop opts y).1 = pre ++ { e with VetoCount := e.VetoCount + 1 } :: post := by
  induction opts with
  | nil => simp at hy
  | cons a rest ih =>
    by_cases h : a.ScenarioId = y
    · simp only [vetoLoop, if_pos h, true_and]
      exact ⟨[], a, rest, rfl, by simp, h, rfl⟩
    · have hy2 : y ∈ rest.map (fun e => e.ScenarioId) := by
        simp only [List.map_cons, List.mem_cons] at hy
        rcases hy with hy | hy
        · exact absurd hy.symm h
        · exact hy
      obtain ⟨h1, pre, e, post, hsplit, hpre, hid, hres⟩ := ih hy2
      simp only [vetoLoop, if_neg h]
      refine ⟨h1, a :: pre, e, post, by rw [hsplit]; rfl, ?_, hid, by rw [hres]; rfl⟩
      intro x hx
      rcases List.mem_cons.1 hx with hx | hx
      · rw [hx]; exact h
      · exact hpre x hx

/-- The loop of `ServerVetoScenario` adds one veto in total when it matches, none
otherwise. -/
theorem totalVetoCount_vetoLoop (opts : List FEnhancedVoteEntry) (y : Nat) :
    totalVetoCount (vetoLoop opts y).1
      = totalVetoCount opts + (if (vetoLoop opts y).2 = true then 1 else 0) := by
  induction opts with
  | nil => simp [vetoLoop, totalVetoCount]
  | cons a rest ih =>
    by_cases h : a.ScenarioId = y
    · simp only [vetoLoop, if_pos h, totalVetoCount, if_true]
      ring
    · simp only [vetoLoop, if_neg h, totalVetoCount, ih]
      ring

/-- A participant whose veto flag is set: every veto call of that participant leaves the
component as it is. -/
theorem ServerVetoScenario_of_flag (d : EnhancedStateView)
    (Player target : Nat) (w : FPlayerVoteWeight)
    (hw : TMapFind d.PlayerWeights Player = some w) (hflag : w.bHasVetoed = true) :
    ServerVetoScenario d (some Player) target = d := by
  unfold ServerVetoScenario
  split_ifs
  · rfl
  · simp only [hw, hflag, if_true]

/-- The veto flag of a participant survives every call of a round. -/
theorem applyCall_keeps_flag (d : EnhancedStateView) (Player : Nat)
    (call : RoundCall)
    (h : ∃ w, TMapFind d.PlayerWeights Player = some w ∧ w.bHasVetoed = true) :
    ∃ w, TMapFind (applyCall d call).PlayerWeights Player = some w ∧ w.bHasVetoed = true := by
  obtain ⟨w, hw, hflag⟩ := h
  cases call with
  | Veto ps y =>
    simp only [applyCall]
    cases ps with
    | none =>
      have hnone : ServerVetoScenario d none y = d := by
        simp [ServerVetoScenario]
      rw [hnone]
      exact ⟨w, hw, hflag⟩
    | some q =>
      unfold ServerVetoScenario
      by_cases hact : d.Super.VotingState.bVotingActive = false
      · rw [if_pos hact]
        exact ⟨w, hw, hflag⟩
      · rw [if_neg hact]
        simp only []
        cases hq : TMapFind d.PlayerWeights q with
        | none => exact ⟨w, hw, hflag⟩
        | some pw =>
          simp only []
          by_cases hv : pw.bHasVetoed = true
          · rw [if_pos hv]
            exact ⟨w, hw, hflag⟩
          · rw [if_neg hv]
            by_cases hm : (vetoLoop d.EnhancedVoteOptions y).2 = true
            · rw [if_pos hm]
              simp only [TMapFind_TMapAdd]
              split_ifs
              · exact ⟨_, rfl, rfl⟩
              · exact ⟨w, hw, hflag⟩
            · rw [if_neg hm]
              exact ⟨w, hw, hflag⟩
  | CastVote ps y =>
    exact ⟨w, hw, hflag⟩
  | UpdatePerformance ps score =>
    cases ps with
    | none => exact ⟨w, hw, hflag⟩
    | some q =>
      have hkey : ∃ w', TMapFind (TMapAdd (TMapFindOrAdd d.PlayerWeights q
            FPlayerVoteWeight.Default) q
          { (TMapFind (TMapFindOrAdd d.PlayerWeights q FPlayerVoteWeight.Default) q).getD
              FPlayerVoteWeight.Default with
            PerformanceMultiplier :=
              Clamp (score * d.PerformanceWeightMultiplier) d.MinimumVoteWeight
                d.MaximumVoteWeight }) Player = some w' ∧ w'.bHasVetoed = true := by
        rw [TMapFind_TMapAdd]
        by_cases hqp : q = Player
        · subst hqp
          rw [if_pos rfl]
          refine ⟨_, rfl, ?_⟩
          simp only [TMapFind_TMapFindOrAdd, if_true, hw, Option.getD_some]
          exact hflag
        · rw [if_neg hqp, TMapFind_TMapFindOrAdd, if_neg hqp]
          exact ⟨w, hw, hflag⟩
      simp only [applyCall, ServerUpdatePlayerPerformance]
      split_ifs
      · exact hkey
      · exact hkey

/-- The veto flag of a participant survives every sequence of calls of a round. -/
theorem applyCalls_keeps_flag (calls : List RoundCall)
    (d : EnhancedStateView) (Player : Nat)
    (h : ∃ w, TMapFind d.PlayerWeights Player = some w ∧ w.bHasVetoed = true) :
    ∃ w, TMapFind (applyCalls d calls).PlayerWeights Player = some w ∧
      w.bHasVetoed = true := by
  induction calls generalizing d with
  | nil => exact h
  | cons call rest ih =>
    simp only [applyCalls, List.foldl_cons]
    exact ih _ (applyCall_keeps_flag d Player call h)

/-- Any number of veto calls of one participant adds at most one veto in total. -/
theorem vetoCalls_total (targets : List Nat) (c : EnhancedStateView)
    (Player : Nat) :
    totalVetoCount (vetoCalls c Player targets).EnhancedVoteOptions
      ≤ totalVetoCount c.EnhancedVoteOptions + 1 := by
  have hfix : ∀ (ts : List Nat) (d : EnhancedStateView),
      (∃ w, TMapFind d.PlayerWeights Player = some w ∧ w.bHasVetoed = true) →
      vetoCalls d Player ts = d := by
    intro ts
    induction ts with
    | nil => intro d _; rfl
    | cons t rest ih =>
      intro d hd
      obtain ⟨w, hw, hflag⟩ := hd
      simp only [vetoCalls, List.foldl_cons]
      rw [ServerVetoScenario_of_flag d Player t w hw hflag]
      exact ih d ⟨w, hw, hflag⟩
  induction targets generalizing c with
  | nil => simp [vetoCalls]
  | cons t rest ih =>
    simp only [vetoCalls, List.foldl_cons]
    by_cases hsame : ServerVetoScenario c (some Player) t = c
    · rw [hsame]
      exact ih c
    · have hstep : (∃ w, TMapFind (ServerVetoScenario c (some Player) t).PlayerWeights Player
            = some w ∧ w.bHasVetoed = true) ∧
          totalVetoCount (ServerVetoScenario c (some Player) t).EnhancedVoteOptions
            = totalVetoCount c.EnhancedVoteOptions + 1 := by
        unfold ServerVetoScenario at hsame ⊢
        split_ifs at hsame ⊢ with h1
        · exact absurd rfl hsame
        · simp only [] at hsame ⊢
          cases hq : TMapFind c.PlayerWeights Player with
          | none => simp [hq] at hsame
          | some pw =>
            simp only [hq] at hsame ⊢
            split_ifs at hsame ⊢ with h2 h3
            · exact absurd rfl hsame
            · refine ⟨⟨_, by rw [TMapFind_TMapAdd, if_pos rfl], rfl⟩, ?_⟩
              simp only []
              rw [totalVetoCount_vetoLoop, if_pos h3]
            · exact absurd rfl hsame
      have := hfix rest _ hstep.1
      simp only [vetoCalls] at this
      rw [this, hstep.2]

/-- Behind the cast: on a view in an active round, the first veto call of a participant
who has a weight record and has not vetoed, when it targets a listed option, adds exactly 1
to the `VetoCount` of the first option that carries the identifier and leaves every other
option unchanged; after it, whatever calls follow (vetos, votes, performance updates of any
participant), every veto call of that participant for any target leaves the view
unchanged; and any sequence of veto calls of one participant adds at most 1 to the sum of
the veto counters. -/
theorem view_veto_at_most_once_per_participant (c : EnhancedStateView)
    (Player ScenarioId : Nat) (w : FPlayerVoteWeight)
    (hact : c.Super.VotingState.bVotingActive = true)
    (hw : TMapFind c.PlayerWeights Player = some w) (hfresh : w.bHasVetoed = false)
    (hlisted : ScenarioId ∈ c.EnhancedVoteOptions.map (fun e => e.ScenarioId)) :
    (∃ pre e post, c.EnhancedVoteOptions = pre ++ e :: post ∧
      (∀ x ∈ pre, x.ScenarioId ≠ ScenarioId) ∧ e.ScenarioId = ScenarioId ∧
      (ServerVetoScenario c (some Player) ScenarioId).EnhancedVoteOptions
        = pre ++ { e with VetoCount := e.VetoCount + 1 } :: post) ∧
    (∀ (calls : List RoundCall) (target : Nat),
      ServerVetoScenario
          (applyCalls (ServerVetoScenario c (some Player) ScenarioId) calls) (some Player) target
        = applyCalls (ServerVetoScenario c (some Player) ScenarioId) calls) ∧
    (∀ targets : List Nat,
      totalVetoCount (vetoCalls c Player targets).EnhancedVoteOptions
        ≤ totalVetoCount c.EnhancedVoteOptions + 1) := by
  obtain ⟨hmatch, pre, e, post, hsplit, hpre, hid, hres⟩ :=
    vetoLoop_listed c.EnhancedVoteOptions ScenarioId hlisted
  have hstep : ServerVetoScenario c (some Player) ScenarioId
      = { c with
          EnhancedVoteOptions := (vetoLoop c.EnhancedVoteOptions ScenarioId).1
          PlayerWeights := TMapAdd c.PlayerWeights Player { w with bHasVetoed := true } } := by
    simp [ServerVetoScenario, hact, hw, hfresh, hmatch]
  refine ⟨⟨pre, e, post, hsplit, hpre, hid, by rw [hstep]; exact hres⟩, ?_,
    fun targets => vetoCalls_total targets c Player⟩
  intro calls target
  obtain ⟨w', hw', hflag'⟩ := applyCalls_keeps_flag calls
    (ServerVetoScenario c (some Player) ScenarioId) Player
    ⟨{ w with bHasVetoed := true }, by rw [hstep]; simp [TMapFind_TMapAdd], rfl⟩
  exact ServerVetoScenario_of_flag _ Player target w' hw' hflag'


/-! ## Statistics after the weighted ProcessVotingResults -/

/-- When every option is vetoed the first loop of the weighted `ProcessVotingResults`
changes nothing. -/
theorem weightedWinnerLoop_all_vetoed (thr : Int) (opts : List FEnhancedVoteEntry)
    (acc : Nat × ℚ) (h : ∀ e ∈ opts, e.VetoCount ≥ thr) :
    weightedWinnerLoop thr opts acc = acc := by
  induction opts with
  | nil => rfl
  | cons e rest ih =>
    obtain ⟨W, H⟩ := acc
    simp only [weightedWinnerLoop, if_pos (h e (List.mem_cons_self _ _))]
    exact ih (fun x hx => h x (List.mem_cons_of_mem _ hx))

/-- When every option is vetoed the weighted `ProcessVotingResults` settles on the
default-constructed identifier, for every random draw. -/
theorem weightedWinner_all_vetoed (c : EnhancedStateView)
    (rng : Nat → Nat) (h : ∀ e ∈ c.EnhancedVoteOptions, e.VetoCount ≥ c.VetoThreshold) :
    weightedWinner c rng = DefaultAssetId := by
  unfold weightedWinner
  simp only [weightedWinnerLoop_all_vetoed _ _ _ h]
  have hfilter : c.EnhancedVoteOptions.filter
      (fun Entry => decide (Entry.VetoCount < c.VetoThreshold)) = [] := by
    rw [List.filter_eq_nil_iff]
    intro e he
    have := h e he
    simp only [decide_eq_true_eq, not_lt]
    exact this
  rw [if_pos (by decide)]
  simp only [hfilter]
  rfl

/-- C16: evaluation of the code on an active weighted round in which both options are
vetoed, with a persistence manager whose tables are empty. For every random draw the
identifier broadcast is the default-constructed one (no winner), and the statistics table
afterwards holds a record for that identifier with `TimesPlayed = 1`, the current time as
`LastPlayed` and the current player count as `AveragePlayerCount`. -/
theorem C16_play_recorded_without_winner :
    (∀ e ∈ sampleAllVetoed.EnhancedVoteOptions, e.VetoCount ≥ sampleAllVetoed.VetoThreshold) ∧
    IsValidAssetId DefaultAssetId = false ∧
    ∀ rng : Nat → Nat,
      (sampleAllVetoed.ProcessVotingResults
          (some { ScenarioStatistics := [], RotationEntries := [] }) rng 1000 (some 4)).2.2
        = some DefaultAssetId ∧
      (sampleAllVetoed.ProcessVotingResults
          (some { ScenarioStatistics := [], RotationEntries := [] }) rng 1000 (some 4)).2.1
        = some
            { ScenarioStatistics :=
                [(DefaultAssetId,
                  { ScenarioId := DefaultAssetId, TimesPlayed := 1, TotalVotes := 0,
                    AveragePlayerCount := 4, LastPlayed := 1000 })]
              RotationEntries := [] } := by
  have hall : ∀ e ∈ sampleAllVetoed.EnhancedVoteOptions,
      e.VetoCount ≥ sampleAllVetoed.VetoThreshold := by decide
  refine ⟨hall, by decide, fun rng => ?_⟩
  have hP : sampleAllVetoed.ProcessVotingResults
      (some { ScenarioStatistics := [], RotationEntries := [] }) rng 1000 (some 4)
      = ({ sampleAllVetoed with
            Super := { sampleAllVetoed.Super with
              VotingState := { sampleAllVetoed.Super.VotingState with
                bVotingActive := false } } },
          some (UpdatePlayCount { ScenarioStatistics := [], RotationEntries := [] }
            DefaultAssetId 1000 (some 4)),
          some DefaultAssetId) := by
    unfold EnhancedStateView.ProcessVotingResults
    rw [if_neg (by decide)]
    simp only [weightedWinner_all_vetoed sampleAllVetoed rng hall]
  rw [hP]
  refine ⟨rfl, ?_⟩
  decide!

/-! ## IsScenarioAllowedInRotation -/

/-- C17, as stated, fails: scenario 8 has no rotation entry and
`IsScenarioAllowedInRotation` returns false for it. -/
theorem C17_scenario_outside_rotation_is_refused :
    (∀ e ∈ samplePersistence.RotationEntries, e.ScenarioId ≠ 8) ∧
    IsScenarioAllowedInRotation samplePersistence 0 8 = false := by
  decide

/-- C17 (amended): for every scenario identifier that has no rotation entry,
`IsScenarioAllowedInRotation` returns false, whatever the statistics and the time. -/
theorem C17_no_rotation_entry_not_allowed (pm : UScenarioPersistenceManager)
    (CurrentTime : Int) (ScenarioId : Nat)
    (h : ∀ e ∈ pm.RotationEntries, e.ScenarioId ≠ ScenarioId) :
    IsScenarioAllowedInRotation pm CurrentTime ScenarioId = false := by
  have key : ∀ entries : List FScenarioRotationEntry,
      (∀ e ∈ entries, e.ScenarioId ≠ ScenarioId) →
      allowedLoop pm.ScenarioStatistics CurrentTime ScenarioId entries = false := by
    intro entries
    induction entries with
    | nil => intro _; rfl
    | cons e rest ih =>
      intro he
      simp only [allowedLoop, if_neg (he e (List.mem_cons_self _ _))]
      exact ih (fun x hx => he x (List.mem_cons_of_mem _ hx))
  exact key _ h

/-- Witness of C17: scenario 8 in `samplePersistence`. -/
theorem C17_no_rotation_entry_not_allowed_witness :
    IsScenarioAllowedInRotation samplePersistence (5 * TicksPerDay) 8 = false :=
  C17_no_rotation_entry_not_allowed samplePersistence (5 * TicksPerDay) 8 (by decide)

/-- The loop of `IsScenarioAllowedInRotation` when exactly one entry carries the
identifier. -/
theorem allowedLoop_single (Statistics : List (Nat × FScenarioStats)) (CurrentTime : Int)
    (ScenarioId : Nat) (entries : List FScenarioRotationEntry) (Entry : FScenarioRotationEntry)
    (h : entries.filter (fun e => decide (e.ScenarioId = ScenarioId)) = [Entry]) :
    allowedLoop Statistics CurrentTime ScenarioId entries
      = match TMapFind Statistics ScenarioId with
        | some Stats =>
          decide (GetDays (CurrentTime - Stats.LastPlayed) ≥ Entry.MinimumGapBetweenPlays)
        | none => true := by
  induction entries with
  | nil => simp at h
  | cons a rest ih =>
    by_cases ha : a.ScenarioId = ScenarioId
    · simp only [List.filter_cons, ha, decide_True, if_true, List.cons.injEq] at h
      obtain ⟨rfl, _⟩ := h
      simp only [allowedLoop, if_pos ha]
    · simp only [List.filter_cons, ha, decide_False, Bool.false_eq_true, if_false] at h
      simp only [allowedLoop, if_neg ha]
      exact ih h

/-- C18: for a scenario identifier with exactly one rotation entry, of minimum gap `g`:
without a statistics record `IsScenarioAllowedInRotation` returns true; with a record it
returns true iff the whole days between `LastPlayed` and the current time are at least `g`,
which, when the current time is not before `LastPlayed`, means that at least `g` full days
of ticks have elapsed. -/
theorem C18_allowed_iff_gap_elapsed (pm : UScenarioPersistenceManager) (CurrentTime : Int)
    (ScenarioId : Nat) (Entry : FScenarioRotationEntry)
    (h : pm.RotationEntries.filter (fun e => decide (e.ScenarioId = ScenarioId)) = [Entry]) :
    (TMapFind pm.ScenarioStatistics ScenarioId = none →
      IsScenarioAllowedInRotation pm CurrentTime ScenarioId = true) ∧
    (∀ Stats, TMapFind pm.ScenarioStatistics ScenarioId = some Stats →
      (IsScenarioAllowedInRotation pm CurrentTime ScenarioId = true
        ↔ Entry.MinimumGapBetweenPlays ≤ GetDays (CurrentTime - Stats.LastPlayed))) ∧
    (∀ Stats, TMapFind pm.ScenarioStatistics ScenarioId = some Stats →
      0 ≤ CurrentTime - Stats.LastPlayed →
      (IsScenarioAllowedInRotation pm CurrentTime ScenarioId = true
        ↔ Entry.MinimumGapBetweenPlays * TicksPerDay ≤ CurrentTime - Stats.LastPlayed)) := by
  have hloop := allowedLoop_single pm.ScenarioStatistics CurrentTime ScenarioId
    pm.RotationEntries Entry h
  unfold IsScenarioAllowedInRotation
  rw [hloop]
  refine ⟨fun hn => by rw [hn], fun Stats hs => ?_, fun Stats hs hnn => ?_⟩
  · rw [hs]
    simp
  · rw [hs]
    simp only [ge_iff_le, decide_eq_true_eq, GetDays]
    rw [Int.tdiv_eq_ediv hnn (by decide), Int.le_ediv_iff_mul_le (by decide)]

/-- Witness of C18: scenario 7 of `samplePersistence` (minimum gap 3, last played at
tick 0) is excluded 2 days after the play and included 3 days after it. -/
theorem C18_allowed_iff_gap_elapsed_witness :
    (IsScenarioAllowedInRotation samplePersistence (2 * TicksPerDay) 7 = true
      ↔ (3 : Int) ≤ GetDays (2 * TicksPerDay - 0)) ∧
    IsScenarioAllowedInRotation samplePersistence (2 * TicksPerDay) 7 = false ∧
    IsScenarioAllowedInRotation samplePersistence (3 * TicksPerDay) 7 = true ∧
    IsScenarioAllowedInRotation samplePersistence (3 * TicksPerDay + 5) 7 = true :=
  ⟨(C18_allowed_iff_gap_elapsed samplePersistence (2 * TicksPerDay) 7
      { ScenarioId := 7, Weight := 1, MinimumGapBetweenPlays := 3 } (by decide!)).2.1
      { ScenarioId := 7, TimesPlayed := 1, TotalVotes := 0, AveragePlayerCount := 4,
        LastPlayed := 0 } (by decide!),
    by decide, by decide, by decide⟩


/-! ## GetNextRotationOptions -/

/-- Occurrences of an identifier in what one rotation entry adds to the pool. -/
theorem count_rotationContribution (Statistics : List (Nat × FScenarioStats))
    (CurrentTime : Int) (Entry : FScenarioRotationEntry) (x : Nat) :
    (rotationContribution Statistics CurrentTime Entry).count x
      = if Entry.ScenarioId = x then
          (match TMapFind Statistics Entry.ScenarioId with
           | none => 1
           | some Stats =>
             if Entry.MinimumGapBetweenPlays ≤ GetDays (CurrentTime - Stats.LastPlayed) then
               (WeightedCount Entry).toNat
             else 0)
        else 0 := by
  unfold rotationContribution
  cases TMapFind Statistics Entry.ScenarioId with
  | none =>
    simp only [List.count_singleton, beq_iff_eq]
  | some Stats =>
    simp only [ge_iff_le]
    by_cases hg : Entry.MinimumGapBetweenPlays ≤ GetDays (CurrentTime - Stats.LastPlayed)
    · simp only [if_pos hg, List.count_replicate, beq_iff_eq]
    · simp only [if_neg hg, List.count_nil, ite_self]

/-- Every identifier of the pool is the identifier of a rotation entry. -/
theorem mem_rotationLoop (Statistics : List (Nat × FScenarioStats)) (CurrentTime : Int)
    (entries : List FScenarioRotationEntry) (x : Nat)
    (hx : x ∈ rotationLoop Statistics CurrentTime entries) :
    ∃ e ∈ entries, e.ScenarioId = x := by
  induction entries with
  | nil => simp [rotationLoop] at hx
  | cons a rest ih =>
    simp only [rotationLoop, List.mem_append] at hx
    rcases hx with hx | hx
    · refine ⟨a, List.mem_cons_self _ _, ?_⟩
      have hc := count_rotationContribution Statistics CurrentTime a x
      by_contra hne
      rw [if_neg hne] at hc
      exact (List.count_pos_iff.2 hx).ne' hc
    · obtain ⟨e, he, hid⟩ := ih hx
      exact ⟨e, List.mem_cons_of_mem _ he, hid⟩

/-- C19, as stated, fails: the rotation entry of scenario 1 has weight 1 and scenario 1 was
never played, so the gap rule allows it and `round(Weight × 10)` is 10, in exact and in
`float` arithmetic; its identifier occurs once in the pool. -/
theorem C19_never_played_entry_occurs_once :
    IsScenarioAllowedInRotation sampleRotation 0 1 = true ∧
    RoundToInt ((1 : ℚ) * 10) = 10 ∧
    WeightedCount { ScenarioId := 1, Weight := 1, MinimumGapBetweenPlays := 1 } = 10 ∧
    GetNextRotationOptions sampleRotation 0 = [1, 4, 5] ∧
    (GetNextRotationOptions sampleRotation 0).count 1 = 1 := by
  refine ⟨by decide, by decide!, by decide!, by decide, by decide⟩

/-- C19 (amended): for a rotation table with one entry per identifier, the identifier of an
entry occurs in the list returned by `GetNextRotationOptions` exactly once when the
scenario has no statistics record, exactly `WeightedCount` times (no time when that is
negative) when it has a record and the whole days since the last play are at least the
minimum gap, and not at all when it has a record and the gap has not elapsed; and every
identifier of the list is the identifier of a rotation entry. `WeightedCount` is the
`float` product `Weight * 10.0f` rounded to the nearest integer, halves up, which can
differ from the rounding of the exact product. -/
theorem C19_rotation_pool_counts (pm : UScenarioPersistenceManager) (CurrentTime : Int)
    (hnd : (pm.RotationEntries.map (fun e => e.ScenarioId)).Nodup) :
    (∀ Entry : FScenarioRotationEntry,
      WeightedCount Entry = RoundToInt (ToFloat (Entry.Weight * 10))) ∧
    (∀ Entry ∈ pm.RotationEntries,
      (GetNextRotationOptions pm CurrentTime).count Entry.ScenarioId
        = match TMapFind pm.ScenarioStatistics Entry.ScenarioId with
          | none => 1
          | some Stats =>
            if Entry.MinimumGapBetweenPlays ≤ GetDays (CurrentTime - Stats.LastPlayed) then
              (WeightedCount Entry).toNat
            else 0) ∧
    (∀ x ∈ GetNextRotationOptions pm CurrentTime, ∃ e ∈ pm.RotationEntries, e.ScenarioId = x) := by
  refine ⟨fun _ => rfl, ?_, fun x hx => mem_rotationLoop _ _ _ x hx⟩
  unfold GetNextRotationOptions
  have key : ∀ entries : List FScenarioRotationEntry,
      (entries.map (fun e => e.ScenarioId)).Nodup →
      ∀ Entry ∈ entries,
        (rotationLoop pm.ScenarioStatistics CurrentTime entries).count Entry.ScenarioId
          = match TMapFind pm.ScenarioStatistics Entry.ScenarioId with
            | none => 1
            | some Stats =>
              if Entry.MinimumGapBetweenPlays ≤ GetDays (CurrentTime - Stats.LastPlayed) then
                (WeightedCount Entry).toNat
              else 0 := by
    intro entries
    induction entries with
    | nil => intro _ e he; simp at he
    | cons a rest ih =>
      intro hn e he
      simp only [List.map_cons, List.nodup_cons] at hn
      simp only [rotationLoop, List.count_append, count_rotationContribution]
      rcases List.mem_cons.1 he with h | h
      · subst h
        have hzero : (rotationLoop pm.ScenarioStatistics CurrentTime rest).count e.ScenarioId
            = 0 := by
          rw [List.count_eq_zero]
          intro hmem
          obtain ⟨x, hx, hid⟩ := mem_rotationLoop _ _ _ _ hmem
          exact hn.1 (by rw [← hid]; exact List.mem_map_of_mem _ hx)
        rw [if_pos rfl, hzero, Nat.add_zero]
      · have hne : ¬ a.ScenarioId = e.ScenarioId := by
          intro heq
          exact hn.1 (by rw [heq]; exact List.mem_map_of_mem _ h)
        rw [if_neg hne, Nat.zero_add]
        exact ih hn.2 e h
  exact key _ hnd

/-- Witness of C19: the rotation table of `sampleFloatWeight`, 3 days after the play of
scenario 7. The weight is the `float` 0.45f, whose exact product with 10 is below 4.5 and
rounds to 4; the `float` product is 4.5 and `WeightedCount` is 5, so the identifier occurs
5 times. -/
theorem C19_rotation_pool_counts_witness :
    RoundToInt ((7549747 / 16777216 : ℚ) * 10) = 4 ∧
    (GetNextRotationOptions sampleFloatWeight (3 * TicksPerDay)).count 7 = 5 ∧
    (∀ Entry ∈ sampleFloatWeight.RotationEntries,
      (GetNextRotationOptions sampleFloatWeight (3 * TicksPerDay)).count Entry.ScenarioId
        = match TMapFind sampleFloatWeight.ScenarioStatistics Entry.ScenarioId with
          | none => 1
          | some Stats =>
            if Entry.MinimumGapBetweenPlays ≤ GetDays (3 * TicksPerDay - Stats.LastPlayed) then
              (WeightedCount Entry).toNat
            else 0) :=
  ⟨by decide!, by decide!,
    (C19_rotation_pool_counts sampleFloatWeight (3 * TicksPerDay) (by decide)).2.1⟩


/-! ## ApplyRotationRules -/

/-- The backfill threshold `NumScenarioOptions / 2` of the code is an integer division:
the number `s` of survivors is below it iff `2 s + 2 ≤ NumScenarioOptions`. -/
theorem lt_tdiv_two_iff (s : Nat) (N : Int) :
    ((s : Int) < Int.tdiv N 2 ↔ 2 * (s : Int) + 2 ≤ N) := by
  rcases le_or_lt 0 N with h | h
  · rw [Int.tdiv_eq_ediv h (by decide)]
    omega
  · have h1 : Int.tdiv N 2 = -(Int.tdiv (-N) 2) := by
      rw [← Int.neg_tdiv, neg_neg]
    have hneg : (0 : Int) ≤ -N := by omega
    rw [Int.tdiv_eq_ediv hneg (by decide)] at h1
    omega

/-- What the backfill loop does: it walks a prefix `pre` of the pool, appends a fresh entry
for every identifier of `pre` that is not yet present (`added`, in pool order), and stops
at the end of the pool or when the list has reached `NumScenarioOptions` entries. -/
theorem backfillLoop_spec (N : Int) (pool : List Nat) (F : List FEnhancedVoteEntry) :
    ∃ added pre post : List Nat,
      backfillLoop N pool F = F ++ added.map FEnhancedVoteEntry.New ∧
      pool = pre ++ post ∧ added.Sublist pre ∧
      (∀ x ∈ pre, x ∈ (backfillLoop N pool F).map (fun e => e.ScenarioId)) ∧
      (∀ x ∈ added, x ∉ F.map (fun e => e.ScenarioId)) ∧ added.Nodup ∧
      (post = [] ∨ ((backfillLoop N pool F).length : Int) ≥ N) ∧
      ((F.length : Int) ≤ N → ((backfillLoop N pool F).length : Int) ≤ N) := by
  induction pool generalizing F with
  | nil =>
    exact ⟨[], [], [], by simp [backfillLoop], rfl, List.Sublist.slnil, by simp, by simp,
      List.nodup_nil, Or.inl rfl, by simp [backfillLoop]⟩
  | cons y rest ih =>
    by_cases hfull : (F.length : Int) ≥ N
    · refine ⟨[], [], y :: rest, ?_, rfl, List.Sublist.slnil, by simp, by simp,
        List.nodup_nil, Or.inr ?_, ?_⟩
      · simp [backfillLoop, hfull]
      · simp only [backfillLoop, if_pos hfull]
        exact hfull
      · intro h
        simp only [backfillLoop, if_pos hfull]
        exact h
    · by_cases hany : F.any (fun Entry => decide (Entry.ScenarioId = y)) = true
      · obtain ⟨added, pre, post, hres, hpool, hsub, hpre, hnew, hnd, hstop, hlen⟩ := ih F
        have hstep : backfillLoop N (y :: rest) F = backfillLoop N rest F := by
          simp only [backfillLoop, if_neg hfull, hany, if_true]
        refine ⟨added, y :: pre, post, by rw [hstep]; exact hres, by rw [hpool]; rfl,
          List.Sublist.cons _ hsub, ?_, hnew, hnd, by rw [hstep]; exact hstop,
          by rw [hstep]; exact hlen⟩
        intro x hx
        rw [hstep]
        rcases List.mem_cons.1 hx with hx | hx
        · rw [hres, List.map_append, List.mem_append]
          left
          rw [hx]
          obtain ⟨e, he, hid⟩ := List.any_eq_true.1 hany
          rw [← of_decide_eq_true hid]
          exact List.mem_map_of_mem _ he
        · exact hpre x hx
      · obtain ⟨added, pre, post, hres, hpool, hsub, hpre, hnew, hnd, hstop, hlen⟩ :=
          ih (F ++ [FEnhancedVoteEntry.New y])
        have hstep : backfillLoop N (y :: rest) F
            = backfillLoop N rest (F ++ [FEnhancedVoteEntry.New y]) := by
          simp only [backfillLoop, if_neg hfull, hany, Bool.false_eq_true, if_false]
        have hyF : y ∉ F.map (fun e => e.ScenarioId) := by
          intro hmem
          obtain ⟨e, he, hid⟩ := List.mem_map.1 hmem
          exact hany (List.any_eq_true.2 ⟨e, he, by simpa using hid⟩)
        have hyF2 : y ∈ (F ++ [FEnhancedVoteEntry.New y]).map (fun e => e.ScenarioId) := by
          simp [FEnhancedVoteEntry.New]
        refine ⟨y :: added, y :: pre, post, ?_, by rw [hpool]; rfl,
          List.Sublist.cons₂ _ hsub, ?_, ?_, ?_, by rw [hstep]; exact hstop, ?_⟩
        · rw [hstep, hres]
          simp
        · intro x hx
          rw [hstep]
          rcases List.mem_cons.1 hx with hx | hx
          · rw [hres, List.map_append, List.mem_append, hx]
            exact Or.inl hyF2
          · exact hpre x hx
        · intro x hx
          rcases List.mem_cons.1 hx with hx | hx
          · rw [hx]; exact hyF
          · intro hmem
            apply hnew x hx
            rw [List.map_append, List.mem_append]
            exact Or.inl hmem
        · rw [List.nodup_cons]
          exact ⟨fun hmem => hnew y hmem hyF2, hnd⟩
        · intro _
          rw [hstep]
          apply hlen
          rw [List.length_append, List.length_singleton]
          push_cast
          omega

/-- Behind the cast: on a view, with a persistence manager, the statements of
`ApplyRotationRules` keep exactly the
options allowed in rotation, in order, and backfill exactly when the number `s` of
survivors is below the integer quotient `NumScenarioOptions / 2`, that is when
`2 s + 2 ≤ NumScenarioOptions`. When it backfills, it walks the pool of
`GetNextRotationOptions` in order and appends a fresh entry for every identifier not yet
present, until the pool is exhausted or the list has `NumScenarioOptions` entries. When
the options had pairwise distinct identifiers, so has the result. -/
theorem view_rotation_filter_and_backfill (c : EnhancedStateView)
    (pm : UScenarioPersistenceManager) (CurrentTime : Int) :
    (((rotationSurvivors c pm CurrentTime).length : Int) < Int.tdiv c.Super.NumScenarioOptions 2
      ↔ 2 * ((rotationSurvivors c pm CurrentTime).length : Int) + 2
          ≤ c.Super.NumScenarioOptions) ∧
    (¬ (2 * ((rotationSurvivors c pm CurrentTime).length : Int) + 2
          ≤ c.Super.NumScenarioOptions) →
      (ApplyRotationRules c (some pm) CurrentTime).EnhancedVoteOptions
        = rotationSurvivors c pm CurrentTime) ∧
    (2 * ((rotationSurvivors c pm CurrentTime).length : Int) + 2
          ≤ c.Super.NumScenarioOptions →
      ∃ added pre post : List Nat,
        (ApplyRotationRules c (some pm) CurrentTime).EnhancedVoteOptions
          = rotationSurvivors c pm CurrentTime ++ added.map FEnhancedVoteEntry.New ∧
        GetNextRotationOptions pm CurrentTime = pre ++ post ∧ added.Sublist pre ∧
        (∀ x ∈ pre, x ∈ (ApplyRotationRules c (some pm) CurrentTime).EnhancedVoteOptions.map
          (fun e => e.ScenarioId)) ∧
        (∀ x ∈ added, x ∉ (rotationSurvivors c pm CurrentTime).map (fun e => e.ScenarioId)) ∧
        added.Nodup ∧
        (post = [] ∨
          ((ApplyRotationRules c (some pm) CurrentTime).EnhancedVoteOptions.length : Int)
            = c.Super.NumScenarioOptions)) ∧
    ((c.EnhancedVoteOptions.map (fun e => e.ScenarioId)).Nodup →
      ((ApplyRotationRules c (some pm) CurrentTime).EnhancedVoteOptions.map
        (fun e => e.ScenarioId)).Nodup) := by
  have hiff := lt_tdiv_two_iff (rotationSurvivors c pm CurrentTime).length
    c.Super.NumScenarioOptions
  obtain ⟨added, pre, post, hres, hpool, hsub, hpre, hnew, hnd, hstop, hlen⟩ :=
    backfillLoop_spec c.Super.NumScenarioOptions (GetNextRotationOptions pm CurrentTime)
      (rotationSurvivors c pm CurrentTime)
  have hno : ¬ (2 * ((rotationSurvivors c pm CurrentTime).length : Int) + 2
        ≤ c.Super.NumScenarioOptions) →
      (ApplyRotationRules c (some pm) CurrentTime).EnhancedVoteOptions
        = rotationSurvivors c pm CurrentTime := by
    intro h
    simp only [ApplyRotationRules, if_neg (fun h2 => h (hiff.1 h2))]
  have hyes : 2 * ((rotationSurvivors c pm CurrentTime).length : Int) + 2
        ≤ c.Super.NumScenarioOptions →
      (ApplyRotationRules c (some pm) CurrentTime).EnhancedVoteOptions
        = backfillLoop c.Super.NumScenarioOptions (GetNextRotationOptions pm CurrentTime)
            (rotationSurvivors c pm CurrentTime) := by
    intro h
    simp only [ApplyRotationRules, if_pos (hiff.2 h)]
  refine ⟨hiff, hno, ?_, ?_⟩
  · intro h
    refine ⟨added, pre, post, by rw [hyes h]; exact hres, hpool, hsub,
      by rw [hyes h]; exact hpre, hnew, hnd, ?_⟩
    rw [hyes h]
    rcases hstop with hs | hs
    · exact Or.inl hs
    · right
      have := hlen (by omega)
      omega
  · intro hnodup
    have hF : ((rotationSurvivors c pm CurrentTime).map (fun e => e.ScenarioId)).Nodup := by
      unfold rotationSurvivors
      exact (List.Nodup.sublist ((List.filter_sublist _).map _) hnodup)
    by_cases h : 2 * ((rotationSurvivors c pm CurrentTime).length : Int) + 2
        ≤ c.Super.NumScenarioOptions
    · rw [hyes h, hres, List.map_append, List.nodup_append]
      refine ⟨hF, ?_, ?_⟩
      · rw [List.map_map]
        have : (fun e : FEnhancedVoteEntry => e.ScenarioId) ∘ FEnhancedVoteEntry.New = id := by
          funext x
          rfl
        rw [this, List.map_id]
        exact hnd
      · intro x hx1 hx2
        rw [List.map_map] at hx2
        obtain ⟨y, hy, hyx⟩ := List.mem_map.1 hx2
        have : y = x := hyx
        subst this
        exact hnew y hy hx1
    · rw [hno h]
      exact hF


/-- Evaluation of `ApplyRotationRules` with `NumScenarioOptions = 3` when no option survives
the rotation filter: the code backfills the identifiers 1, 4, 5 of the pool. -/
theorem ApplyRotationRules_backfills_without_survivor :
    rotationSurvivors sampleNoSurvivor sampleRotation 0 = [] ∧
    (ApplyRotationRules sampleNoSurvivor (some sampleRotation) 0).EnhancedVoteOptions
      = [FEnhancedVoteEntry.New 1, FEnhancedVoteEntry.New 4, FEnhancedVoteEntry.New 5] := by
  refine ⟨by decide!, by decide!⟩


/-! ## EvaluateObjectives without live trackers and with a null objective -/

/-- The tracker loop skips invalid trackers. -/
theorem trackerLoop_no_live_tracker (T : Templates) (mode : EScenarioCompletionMode)
    (trackers : List (Option UScenarioTask_ObjectiveTracker))
    (m : List (Nat × EScenarioResult)) (h : ∀ x ∈ trackers, x = none) :
    trackerLoop T mode trackers m = TrackerLoopOutcome.completed m := by
  induction trackers with
  | nil => rfl
  | cons x rest ih =>
    have hx := h x (List.mem_cons_self _ _)
    subst hx
    simp only [trackerLoop]
    exact ih (fun y hy => h y (List.mem_cons_of_mem _ hy))

/-- C29: with a valid current stage and no live tracker, `EvaluateObjectives` returns
`Success` for a stage in `AllSuccess` mode and `Failure` for a stage in `AnySuccess` mode,
never `InProgress` or `None`. -/
theorem C29_no_live_tracker_verdict (T : Templates) (s : UScenarioInstance) (stage : Nat)
    (hs : s.CurrentStage = some stage) (hnone : ∀ x ∈ s.ObjectiveTrackers, x = none) :
    ((T.Stage stage).CompletionMode = EScenarioCompletionMode.AllSuccess →
      EvaluateObjectives T s = some EScenarioResult.Success) ∧
    ((T.Stage stage).CompletionMode = EScenarioCompletionMode.AnySuccess →
      EvaluateObjectives T s = some EScenarioResult.Failure) := by
  have hev : EvaluateObjectives T s
      = some (finalStageState (T.Stage stage).CompletionMode []) := by
    simp only [EvaluateObjectives, hs, trackerLoop_no_live_tracker T _ _ [] hnone]
  rw [hev]
  constructor
  · intro hm
    rw [hm]
    rfl
  · intro hm
    rw [hm]
    rfl

/-- Witness of C29: an `AnySuccess` stage whose tracker list holds one invalid pointer, and
an `AllSuccess` stage with an empty tracker list. -/
theorem C29_no_live_tracker_verdict_witness :
    EvaluateObjectives
        (sampleTemplates EScenarioCompletionMode.AnySuccess
          (fun _ => EScenarioCompletionMode.AllSuccess)) (sampleInstance [none])
      = some EScenarioResult.Failure ∧
    EvaluateObjectives
        (sampleTemplates EScenarioCompletionMode.AllSuccess
          (fun _ => EScenarioCompletionMode.AllSuccess)) (sampleInstance [])
      = some EScenarioResult.Success :=
  ⟨(C29_no_live_tracker_verdict _ (sampleInstance [none]) 0 rfl (by simp [sampleInstance])).2 rfl,
   (C29_no_live_tracker_verdict _ (sampleInstance []) 0 rfl (by simp [sampleInstance])).1 rfl⟩

/-- C25: evaluation of the code on a live tracker whose `Objective` is null. The tracker
loop reads `Objective->CompletionMode` at once, from every accumulated map and whatever
follows in the list; on the instance whose only tracker has no objective
`EvaluateObjectives` and `TryProgressStage` end in the null dereference instead of a
verdict. -/
theorem C25_null_objective_is_dereferenced :
    (∀ (T : Templates) (mode : EScenarioCompletionMode) (t : UScenarioTask_ObjectiveTracker)
        (rest : List (Option UScenarioTask_ObjectiveTracker)) (m : List (Nat × EScenarioResult)),
      t.Objective = none →
      trackerLoop T mode (some t :: rest) m = TrackerLoopOutcome.nullObjective) ∧
    EvaluateObjectives
        (sampleTemplates EScenarioCompletionMode.AllSuccess
          (fun _ => EScenarioCompletionMode.AllSuccess))
        (sampleInstance [some { CurrentResult := EScenarioResult.InProgress, Objective := none }])
      = none ∧
    TryProgressStage
        (sampleTemplates EScenarioCompletionMode.AllSuccess
          (fun _ => EScenarioCompletionMode.AllSuccess))
        (sampleInstance [some { CurrentResult := EScenarioResult.InProgress, Objective := none }])
      = none := by
  refine ⟨?_, by decide, ?_⟩
  · intro T mode t rest m ht
    simp only [trackerLoop, ht]
  · have hev : EvaluateObjectives
        (sampleTemplates EScenarioCompletionMode.AllSuccess
          (fun _ => EScenarioCompletionMode.AllSuccess))
        (sampleInstance
          [some { CurrentResult := EScenarioResult.InProgress, Objective := none }])
        = none := by decide
    rw [TryProgressStage, hev]
    simp [HasAuthority, sampleInstance]

/-! ## IsActive after the end of the scenario -/

/-- `EndScenario` does not assign `CurrentStage`. -/
theorem EndScenario_currentStage (s : UScenarioInstance) (bCancelled : Bool) :
    (EndScenario s bCancelled).CurrentStage = s.CurrentStage := by
  unfold EndScenario
  cases h : s.CurrentStage <;> simp [h, ExitStage]

/-- C27: evaluation of the code after the end of a scenario. `EndScenario` leaves
`CurrentStage` as it was for every instance and flag, so `IsActive` keeps its value: the
started instance is still active after `EndScenario(true)`, and the instance that
completed its final stage with `Success` (ended, not cancelled) is still active. -/
theorem C27_isActive_survives_the_end :
    (∀ (s : UScenarioInstance) (bCancelled : Bool),
      IsActive (EndScenario s bCancelled) = IsActive s) ∧
    IsActive startedInstance = true ∧
    IsActive (EndScenario startedInstance true) = true ∧
    (EndScenario startedInstance true).ScenarioState = EScenarioState.Cancelled ∧
    (ProgressStage_Internal
        (sampleTemplates EScenarioCompletionMode.AllSuccess
          (fun _ => EScenarioCompletionMode.AllSuccess))
        (sampleInstance [sampleTracker EScenarioResult.Success 1])
        EScenarioResult.Success).ScenarioState = EScenarioState.Success ∧
    IsActive (ProgressStage_Internal
        (sampleTemplates EScenarioCompletionMode.AllSuccess
          (fun _ => EScenarioCompletionMode.AllSuccess))
        (sampleInstance [sampleTracker EScenarioResult.Success 1])
        EScenarioResult.Success) = true := by
  refine ⟨?_, by decide, by decide, by decide, by decide, by decide⟩
  intro s b
  simp only [IsActive, EndScenario_currentStage]

/-! ## InitScenario on an active instance -/

/-- C24, as stated, fails: `startedInstance` is `Active` in stage 1 with one tracker and
one service; a further `InitScenario` with the same scenario is accepted and leaves two
trackers and two services, and a further `InitScenario` with a scenario whose initial stage
is stage 0 moves the current stage to stage 0. -/
theorem C24_second_init_is_not_ignored :
    startedInstance.ScenarioState = EScenarioState.Active ∧
    startedInstance.CurrentStage = some 1 ∧
    startedInstance.ObjectiveTrackers = [sampleTracker EScenarioResult.InProgress 6] ∧
    startedInstance.StageServices.length = 1 ∧
    (InitScenario twoStageTemplates startedInstance (some sampleScenario) []).1 = true ∧
    (InitScenario twoStageTemplates startedInstance (some sampleScenario) []).2.ObjectiveTrackers
      = [sampleTracker EScenarioResult.InProgress 6,
         sampleTracker EScenarioResult.InProgress 6] ∧
    (InitScenario twoStageTemplates startedInstance
      (some sampleScenario) []).2.StageServices.length = 2 ∧
    (InitScenario twoStageTemplates startedInstance
      (some { InitialStage := some 0, BaseStageProgressionTimer := 0 }) []).2.CurrentStage
      = some 0 := by
  refine ⟨by decide, by decide, by decide, by decide, by decide, by decide, by decide,
    by decide⟩

/-- C24 (amended): on every instance with authority, already active or not, `InitScenario`
with a valid scenario whose initial stage is valid returns true, sets `ScenarioState` to
`Active` and the current stage to the initial stage, and appends a copy of every service
and tracker template of that stage to the lists, keeping the entries already there; with
an invalid scenario, or a scenario whose initial stage is invalid, the call returns false
and leaves the instance unchanged. -/
theorem C24_initScenario_enters_initial_stage_again (T : Templates) (s : UScenarioInstance)
    (Asset : UGameplayScenario) (InitialStage : Nat) (InitTags : List Nat)
    (hauth : HasAuthority s = true) (hinit : Asset.InitialStage = some InitialStage) :
    (InitScenario T s (some Asset) InitTags).1 = true ∧
    (InitScenario T s (some Asset) InitTags).2.ScenarioState = EScenarioState.Active ∧
    (InitScenario T s (some Asset) InitTags).2.CurrentStage = some InitialStage ∧
    (InitScenario T s (some Asset) InitTags).2.ObjectiveTrackers
      = s.ObjectiveTrackers
        ++ (duplicateAll (stageTrackerTemplates T (T.Stage InitialStage).Objectives)).map some ∧
    (InitScenario T s (some Asset) InitTags).2.StageServices
      = s.StageServices ++ (duplicateAll (T.Stage InitialStage).StageServices).map some ∧
    InitScenario T s none InitTags = (false, s) ∧
    (∀ Invalid : UGameplayScenario, Invalid.InitialStage = none →
      InitScenario T s (some Invalid) InitTags = (false, s)) := by
  have hauth2 : HasAuthority
      { s with
        ScenarioAsset := some Asset
        RuntimeTags := AppendTags s.RuntimeTags InitTags
        ScenarioState := EScenarioState.Active
        CurrentStage := some InitialStage } = true := hauth
  refine ⟨?_, ?_, ?_, ?_, ?_, rfl, ?_⟩
  · simp only [InitScenario, hinit]
  · simp only [InitScenario, hinit, EnterStage, hauth2, if_true]
  · simp only [InitScenario, hinit, EnterStage, hauth2, if_true]
  · simp only [InitScenario, hinit, EnterStage, hauth2, if_true]
  · simp only [InitScenario, hinit, EnterStage, hauth2, if_true]
  · intro Invalid hinv
    simp only [InitScenario, hinv]

/-- Witness of C24: the second `InitScenario` on `startedInstance`. -/
theorem C24_initScenario_enters_initial_stage_again_witness :
    (InitScenario twoStageTemplates startedInstance (some sampleScenario) []).2.ObjectiveTrackers
      = startedInstance.ObjectiveTrackers
        ++ (duplicateAll (stageTrackerTemplates twoStageTemplates
              (twoStageTemplates.Stage 1).Objectives)).map some :=
  (C24_initScenario_enters_initial_stage_again twoStageTemplates startedInstance
    sampleScenario 1 [] (by decide) rfl).2.2.2.1


/-! ## The deferred stage advance -/

/-- C26, as stated, fails: on stage 0 of `delayedTemplates` (delay 5) `TryProgressStage`
schedules the advance for `Success`; 3 seconds later (2 seconds left) the tracker is marked
`Failure`, and the call of `TryProgressStage` this triggers restarts the timer with the
full delay 5 and binds `Failure`; at the originally scheduled time the stage has not
advanced, and when the timer fires the instance enters the failure successor 2. -/
theorem C26_later_verdict_restarts_timer :
    (TryProgressStage delayedTemplates
        (sampleInstance [sampleTracker EScenarioResult.Success 1])).map
      (fun r => (r.1, (AdvanceTime delayedTemplates r.2 3).StageProgressionTimer))
      = some (true, some (2, EScenarioResult.Success)) ∧
    sampleWaiting.StageProgressionTimer = some (2, EScenarioResult.Success) ∧
    (SetTaskResult delayedTemplates sampleWaiting 0 EScenarioResult.Failure).map
      (fun s => s.StageProgressionTimer) = some (some (5, EScenarioResult.Failure)) ∧
    (SetTaskResult delayedTemplates sampleWaiting 0 EScenarioResult.Failure).map
      (fun s => ((AdvanceTime delayedTemplates s 2).CurrentStage,
        (AdvanceTime delayedTemplates s 2).StageProgressionTimer))
      = some (some 0, some (3, EScenarioResult.Failure)) ∧
    (SetTaskResult delayedTemplates sampleWaiting 0 EScenarioResult.Failure).map
      (fun s => ((AdvanceTime delayedTemplates s 5).CurrentStage,
        (AdvanceTime delayedTemplates s 5).PreviousStageResult))
      = some (some 2, EScenarioResult.Failure) := by
  refine ⟨by decide!, by decide!, by decide!, by decide!, by decide!⟩

/-- C26 (amended): on an instance with authority, a current stage and a total transition
delay > 0, a call of `TryProgressStage` (made while a deferred advance is pending or not)
leaves the instance, timer included, untouched when `EvaluateObjectives` is `InProgress`,
and when `EvaluateObjectives` is settled it sets the timer to the full delay with the new
verdict bound, replacing what was scheduled; a pending timer fires
`ProgressStage_Internal` with the verdict bound to it once its remaining time has passed,
and only shrinks before. -/
theorem C26_last_settled_verdict_is_scheduled (T : Templates) (s : UScenarioInstance)
    (hauth : HasAuthority s = true) (hstage : s.CurrentStage ≠ none)
    (hdelay : GetStageTransitionDelay T s > 0) :
    (EvaluateObjectives T s = some EScenarioResult.InProgress →
      TryProgressStage T s = some (false, s)) ∧
    (∀ v, EvaluateObjectives T s = some v → v ≠ EScenarioResult.InProgress →
      TryProgressStage T s
        = some (true,
            { s with StageProgressionTimer := some (GetStageTransitionDelay T s, v) })) ∧
    (∀ (Remaining : ℚ) (w : EScenarioResult) (DeltaSeconds : ℚ),
      s.StageProgressionTimer = some (Remaining, w) → DeltaSeconds < Remaining →
      AdvanceTime T s DeltaSeconds
        = { s with StageProgressionTimer := some (Remaining - DeltaSeconds, w) }) ∧
    (∀ (Remaining : ℚ) (w : EScenarioResult) (DeltaSeconds : ℚ),
      s.StageProgressionTimer = some (Remaining, w) → Remaining ≤ DeltaSeconds →
      AdvanceTime T s DeltaSeconds
        = ProgressStage_Internal T { s with StageProgressionTimer := none } w) := by
  refine ⟨?_, ?_, ?_, ?_⟩
  · intro hev
    simp [TryProgressStage, hauth, hstage, hev]
  · intro v hev hv
    simp [TryProgressStage, hauth, hstage, hev, hv, hdelay]
  · intro r w dt ht hlt
    simp [AdvanceTime, ht, not_le.2 hlt]
  · intro r w dt ht hle
    simp [AdvanceTime, ht, hle]

/-- Witness of C26: `sampleWaiting` with its tracker already at `Failure`. -/
theorem C26_last_settled_verdict_is_scheduled_witness :
    TryProgressStage delayedTemplates
        { sampleWaiting with ObjectiveTrackers := [sampleTracker EScenarioResult.Failure 1] }
      = some (true,
          { sampleWaiting with
            ObjectiveTrackers := [sampleTracker EScenarioResult.Failure 1]
            StageProgressionTimer := some (5, EScenarioResult.Failure) }) := by
  have h := (C26_last_settled_verdict_is_scheduled delayedTemplates
    { sampleWaiting with ObjectiveTrackers := [sampleTracker EScenarioResult.Failure 1] }
    (by decide) (by decide) (by decide!)).2.1 EScenarioResult.Failure (by decide) (by decide)
  rw [h]
  have hd : GetStageTransitionDelay delayedTemplates
      { sampleWaiting with ObjectiveTrackers := [sampleTracker EScenarioResult.Failure 1] }
      = 5 := by decide!
  rw [hd]


/-! ## Vote counts against the ledger -/

/-- With pairwise distinct identifiers the tally credited to the identifier of an option is
the `VoteCount` of that option. -/
theorem tallyOf_of_mem (opts : List FScenarioVoteEntry)
    (hnd : (opts.map (fun e => e.ScenarioId)).Nodup) (e : FScenarioVoteEntry) (he : e ∈ opts) :
    tallyOf opts e.ScenarioId = e.VoteCount := by
  induction opts with
  | nil => simp at he
  | cons a rest ih =>
    simp only [List.map_cons, List.nodup_cons] at hnd
    rcases List.mem_cons.1 he with h | h
    · subst h
      simp [tallyOf]
    · have hne : ¬ a.ScenarioId = e.ScenarioId := by
        intro heq
        exact hnd.1 (by rw [heq]; exact List.mem_map_of_mem _ h)
      simp only [tallyOf, if_neg hne]
      exact ih hnd.2 h

/-- C28: in every state of a base voting round (begun by `StartVoting`, continued by
`ServerCastVote` calls) whose option identifiers are pairwise distinct, the `VoteCount` of
every option equals the number of participants whose recorded vote in `PlayerVotes` is the
identifier of that option, and no `VoteCount` is negative. -/
theorem C28_voteCount_recomputable_from_ledger (c : UScenarioTransitionComponent)
    (h : VotingRound c)
    (hnd : (c.VotingState.VoteOptions.map (fun e => e.ScenarioId)).Nodup) :
    ∀ e ∈ c.VotingState.VoteOptions,
      e.VoteCount = (ledgerCount (fun y => decide (y = e.ScenarioId)) c.PlayerVotes : Int) ∧
      0 ≤ e.VoteCount := by
  intro e he
  obtain ⟨_, _, htal⟩ := votingRound_tallies c h
  have hl : isListed c.VotingState.VoteOptions e.ScenarioId = true := by
    simp only [isListed, List.any_eq_true, decide_eq_true_eq]
    exact ⟨e, he, rfl⟩
  have := htal e.ScenarioId hl
  rw [tallyOf_of_mem _ hnd e he] at this
  exact ⟨this, votingRound_nonneg c h e he⟩

/-- Witness of C28: option 1 of the round `sampleRoundVoted` on the options 1, 2, 3, which
holds the two votes of the participants 100 and 101. -/
theorem C28_voteCount_recomputable_from_ledger_witness :
    ({ ScenarioId := 1, VoteCount := 2 } : FScenarioVoteEntry)
        ∈ sampleRoundVoted.VotingState.VoteOptions ∧
    (2 : Int) = (ledgerCount (fun y => decide (y = 1)) sampleRoundVoted.PlayerVotes : Int) ∧
    (0 : Int) ≤ 2 :=
  ⟨by decide,
    C28_voteCount_recomputable_from_ledger sampleRoundVoted
      (VotingRound.cast _ 102 2
        (VotingRound.cast _ 101 1
          (VotingRound.cast _ 100 1
            (VotingRound.start sampleComponent [1, 2, 3, 4, 5] _ rfl))))
      (by decide) { ScenarioId := 1, VoteCount := 2 } (by decide)⟩

/-! ## UpdatePlayCount -/

/-- One `UpdatePlayCount` call: the record of the scenario afterwards, and the records of
the other scenarios. -/
theorem UpdatePlayCount_record (pm : UScenarioPersistenceManager) (ScenarioId : Nat)
    (UtcNow : Int) (PlayerArrayNum : Option Nat) :
    TMapFind (UpdatePlayCount pm ScenarioId UtcNow PlayerArrayNum).ScenarioStatistics ScenarioId
      = some
          { ScenarioId := ScenarioId
            TimesPlayed := (statsOrDefault pm ScenarioId).TimesPlayed + 1
            TotalVotes := (statsOrDefault pm ScenarioId).TotalVotes
            AveragePlayerCount :=
              match PlayerArrayNum with
              | some CurrentPlayerCount =>
                ((statsOrDefault pm ScenarioId).AveragePlayerCount
                    * ((((statsOrDefault pm ScenarioId).TimesPlayed + 1 : Int) : ℚ) - 1)
                  + CurrentPlayerCount)
                  / (((statsOrDefault pm ScenarioId).TimesPlayed + 1 : Int) : ℚ)
              | none => (statsOrDefault pm ScenarioId).AveragePlayerCount
            LastPlayed := UtcNow } ∧
    ∀ other, other ≠ ScenarioId →
      TMapFind (UpdatePlayCount pm ScenarioId UtcNow PlayerArrayNum).ScenarioStatistics other
        = TMapFind pm.ScenarioStatistics other := by
  constructor
  · simp only [UpdatePlayCount, TMapFind_TMapAdd, if_true, TMapFind_TMapFindOrAdd,
      Option.getD_some, statsOrDefault]
    cases PlayerArrayNum <;> rfl
  · intro other hne
    have hne2 : ¬ ScenarioId = other := fun e => hne e.symm
    simp only [UpdatePlayCount, TMapFind_TMapAdd, if_neg hne2, TMapFind_TMapFindOrAdd]

/-- Successive `UpdatePlayCount` calls keep the product of the running average and the play
count equal to the sum of the player counts folded in. -/
theorem playCalls_invariant (ScenarioId : Nat) (calls : List (Int × Nat))
    (pm : UScenarioPersistenceManager) (j : Nat) (S : ℚ)
    (hj : (statsOrDefault pm ScenarioId).TimesPlayed = j)
    (hS : (statsOrDefault pm ScenarioId).AveragePlayerCount * j = S)
    (hv : (statsOrDefault pm ScenarioId).TotalVotes = 0) :
    (statsOrDefault (playCalls pm ScenarioId calls) ScenarioId).TimesPlayed
      = ((j + calls.length : Nat) : Int) ∧
    (statsOrDefault (playCalls pm ScenarioId calls) ScenarioId).AveragePlayerCount
        * ((j + calls.length : Nat) : ℚ)
      = S + (calls.map (fun call => (call.2 : ℚ))).sum ∧
    (statsOrDefault (playCalls pm ScenarioId calls) ScenarioId).TotalVotes = 0 ∧
    (calls ≠ [] → TMapFind (playCalls pm ScenarioId calls).ScenarioStatistics ScenarioId
      = some (statsOrDefault (playCalls pm ScenarioId calls) ScenarioId)) ∧
    ∀ other, other ≠ ScenarioId →
      TMapFind (playCalls pm ScenarioId calls).ScenarioStatistics other
        = TMapFind pm.ScenarioStatistics other := by
  induction calls generalizing pm j S with
  | nil =>
    refine ⟨?_, ?_, hv, fun h => absurd rfl h, fun _ _ => rfl⟩
    · simpa [playCalls] using hj
    · simpa [playCalls] using hS
  | cons call rest ih =>
    obtain ⟨hrec, hother⟩ := UpdatePlayCount_record pm ScenarioId call.1 (some call.2)
    have hfind : TMapFind (UpdatePlayCount pm ScenarioId call.1 (some call.2)).ScenarioStatistics
        ScenarioId
        = some (statsOrDefault (UpdatePlayCount pm ScenarioId call.1 (some call.2)) ScenarioId) := by
      rw [statsOrDefault, hrec, Option.getD_some]
    have hT : (statsOrDefault (UpdatePlayCount pm ScenarioId call.1 (some call.2))
        ScenarioId).TimesPlayed = ((j + 1 : Nat) : Int) := by
      rw [statsOrDefault, hrec, Option.getD_some]
      simp only [hj]
      push_cast
      ring
    have hV : (statsOrDefault (UpdatePlayCount pm ScenarioId call.1 (some call.2))
        ScenarioId).TotalVotes = 0 := by
      rw [statsOrDefault, hrec, Option.getD_some]
      exact hv
    have hpos : ((j + 1 : Nat) : ℚ) ≠ 0 := by
      have : (0 : ℚ) < ((j + 1 : Nat) : ℚ) := by exact_mod_cast Nat.succ_pos j
      exact this.ne'
    have hA : (statsOrDefault (UpdatePlayCount pm ScenarioId call.1 (some call.2))
        ScenarioId).AveragePlayerCount * ((j + 1 : Nat) : ℚ) = S + call.2 := by
      rw [statsOrDefault, hrec, Option.getD_some]
      simp only [hj]
      have e1 : (((j : Int) + 1 : Int) : ℚ) = ((j + 1 : Nat) : ℚ) := by push_cast; ring
      rw [e1, div_mul_cancel₀ _ hpos, ← hS]
      push_cast
      ring
    obtain ⟨h1, h2, h3, h4, h5⟩ := ih (UpdatePlayCount pm ScenarioId call.1 (some call.2))
      (j + 1) (S + call.2) hT hA hV
    have hlen : j + (call :: rest).length = j + 1 + rest.length := by
      simp only [List.length_cons]; omega
    have hfold : playCalls pm ScenarioId (call :: rest)
        = playCalls (UpdatePlayCount pm ScenarioId call.1 (some call.2)) ScenarioId rest := rfl
    rw [hfold, hlen]
    refine ⟨h1, ?_, h3, ?_, ?_⟩
    · rw [h2]
      simp only [List.map_cons, List.sum_cons]
      ring
    · intro _
      by_cases hr : rest = []
      · subst hr
        simp only [playCalls, List.foldl_nil]
        exact hfind
      · exact h4 hr
    · intro other hne
      rw [h5 other hne, hother other hne]

/-- C22: for a scenario without a statistics record, after `k ≥ 1` successive
`UpdatePlayCount` calls made with the player counts `c1 … ck`, its record has
`TimesPlayed = k`, `AveragePlayerCount = (c1 + … + ck) / k` in exact arithmetic and
`TotalVotes = 0`, and the records of the other scenarios are as before; and on every
table a single call with player count `c` adds 1 to `TimesPlayed`, sets the average to
`(avg × (n - 1) + c) / n` with `n` the new `TimesPlayed`, keeps `TotalVotes` and leaves the
records of the other scenarios unchanged. -/
theorem C22_running_average_of_player_counts (pm : UScenarioPersistenceManager)
    (ScenarioId : Nat) (calls : List (Int × Nat))
    (hnew : TMapFind pm.ScenarioStatistics ScenarioId = none) (hk : calls ≠ []) :
    (∃ Stats, TMapFind (playCalls pm ScenarioId calls).ScenarioStatistics ScenarioId
        = some Stats ∧
      Stats.TimesPlayed = calls.length ∧
      Stats.AveragePlayerCount
        = (calls.map (fun call => (call.2 : ℚ))).sum / (calls.length : ℚ) ∧
      Stats.TotalVotes = 0) ∧
    (∀ other, other ≠ ScenarioId →
      TMapFind (playCalls pm ScenarioId calls).ScenarioStatistics other
        = TMapFind pm.ScenarioStatistics other) ∧
    (∀ (pm1 : UScenarioPersistenceManager) (UtcNow : Int) (CurrentPlayerCount : Nat),
      (∃ Stats, TMapFind (UpdatePlayCount pm1 ScenarioId UtcNow
            (some CurrentPlayerCount)).ScenarioStatistics ScenarioId = some Stats ∧
        Stats.TimesPlayed = (statsOrDefault pm1 ScenarioId).TimesPlayed + 1 ∧
        Stats.AveragePlayerCount
          = ((statsOrDefault pm1 ScenarioId).AveragePlayerCount * ((Stats.TimesPlayed : ℚ) - 1)
              + CurrentPlayerCount) / (Stats.TimesPlayed : ℚ) ∧
        Stats.TotalVotes = (statsOrDefault pm1 ScenarioId).TotalVotes) ∧
      ∀ other, other ≠ ScenarioId →
        TMapFind (UpdatePlayCount pm1 ScenarioId UtcNow
            (some CurrentPlayerCount)).ScenarioStatistics other
          = TMapFind pm1.ScenarioStatistics other) := by
  have hdef : statsOrDefault pm ScenarioId = FScenarioStats.Default := by
    rw [statsOrDefault, hnew]
    rfl
  obtain ⟨h1, h2, h3, h4, h5⟩ := playCalls_invariant ScenarioId calls pm 0 0
    (by rw [hdef]; rfl) (by rw [hdef]; simp [FScenarioStats.Default]) (by rw [hdef]; rfl)
  have hlen : (calls.length : ℚ) ≠ 0 := by
    have : 0 < calls.length := List.length_pos.2 hk
    exact_mod_cast this.ne'
  refine ⟨⟨_, h4 hk, ?_, ?_, h3⟩, h5, ?_⟩
  · rw [h1]
    simp
  · rw [eq_div_iff hlen]
    simpa using h2
  · intro pm1 UtcNow c
    obtain ⟨hrec, hother⟩ := UpdatePlayCount_record pm1 ScenarioId UtcNow (some c)
    exact ⟨⟨_, hrec, rfl, rfl, rfl⟩, hother⟩

/-- Witness of C22: scenario 8 of `samplePersistence`, three plays with 2, 4 and 6
players. -/
theorem C22_running_average_of_player_counts_witness :
    ∃ Stats, TMapFind (playCalls samplePersistence 8
        [(10, 2), (20, 4), (30, 6)]).ScenarioStatistics 8 = some Stats ∧
      Stats.TimesPlayed = ([(10, 2), (20, 4), (30, 6)] : List (Int × Nat)).length ∧
      Stats.AveragePlayerCount
        = (([(10, 2), (20, 4), (30, 6)] : List (Int × Nat)).map
            (fun call => (call.2 : ℚ))).sum
          / ((([(10, 2), (20, 4), (30, 6)] : List (Int × Nat)).length : Nat) : ℚ) ∧
      Stats.TotalVotes = 0 :=
  (C22_running_average_of_player_counts samplePersistence 8 [(10, 2), (20, 4), (30, 6)]
    (by decide) (by decide)).1


/-! ## GetWeightedScenarioOptions -/

/-- The pairs of a map with pairwise distinct keys after `TMapAdd`. -/
theorem mem_TMapAdd {ν : Type} (m : List (Nat × ν)) (k : Nat) (v : ν) (p : Nat × ν)
    (hnd : (m.map Prod.fst).Nodup) (hp : p ∈ TMapAdd m k v) :
    p = (k, v) ∨ (p ∈ m ∧ p.1 ≠ k) := by
  induction m with
  | nil =>
    simp only [TMapAdd, List.mem_singleton] at hp
    exact Or.inl hp
  | cons kv rest ih =>
    obtain ⟨k', v'⟩ := kv
    simp only [List.map_cons, List.nodup_cons] at hnd
    by_cases h : k' = k
    · subst h
      simp only [TMapAdd, if_true, List.mem_cons] at hp
      rcases hp with hp | hp
      · exact Or.inl hp
      · refine Or.inr ⟨List.mem_cons_of_mem _ hp, ?_⟩
        intro heq
        exact hnd.1 (by rw [← heq]; exact List.mem_map_of_mem _ hp)
    · simp only [TMapAdd, if_neg h, List.mem_cons] at hp
      rcases hp with hp | hp
      · subst hp
        exact Or.inr ⟨List.mem_cons_self _ _, h⟩
      · rcases ih hnd.2 hp with h1 | h1
        · exact Or.inl h1
        · exact Or.inr ⟨List.mem_cons_of_mem _ h1.1, h1.2⟩

/-- The keys of a map stay pairwise distinct under `TMapAdd`. -/
theorem nodup_keys_TMapAdd {ν : Type} (m : List (Nat × ν)) (k : Nat) (v : ν)
    (hnd : (m.map Prod.fst).Nodup) : ((TMapAdd m k v).map Prod.fst).Nodup := by
  rw [TMapAdd_keys]
  by_cases hk : k ∈ m.map Prod.fst
  · rw [if_pos hk]
    exact hnd
  · rw [if_neg hk]
    refine List.nodup_append.2 ⟨hnd, List.nodup_singleton _, ?_⟩
    intro a ha hb
    rw [List.mem_singleton] at hb
    subst hb
    exact hk ha

/-- In a map with pairwise distinct keys every pair is the one `TMapFind` returns. -/
theorem TMapFind_of_mem {ν : Type} (m : List (Nat × ν)) (k : Nat) (v : ν)
    (hnd : (m.map Prod.fst).Nodup) (hp : (k, v) ∈ m) : TMapFind m k = some v := by
  induction m with
  | nil => simp at hp
  | cons kv rest ih =>
    obtain ⟨k', v'⟩ := kv
    simp only [List.map_cons, List.nodup_cons] at hnd
    rcases List.mem_cons.1 hp with h | h
    · injection h with h1 h2
      subst h1
      subst h2
      simp [TMapFind]
    · have hne : ¬ k' = k := by
        intro heq
        subst heq
        exact hnd.1 (List.mem_map_of_mem Prod.fst h)
      simp only [TMapFind, if_neg hne]
      exact ih hnd.2 h

/-- Storing a record under its own identifier keeps the table well keyed. -/
theorem wellKeyed_TMapAdd (m : List (Nat × FScenarioStats)) (Stats : FScenarioStats)
    (k : Nat) (hk : Stats.ScenarioId = k) (h : WellKeyed m) :
    WellKeyed (TMapAdd m k Stats) := by
  refine ⟨nodup_keys_TMapAdd m k Stats h.1, ?_⟩
  intro p hp
  rcases mem_TMapAdd m k Stats p h.1 hp with h1 | h1
  · subst h1
    exact hk
  · exact h.2 p h1.1

/-- `UpdatePlayCount` keeps the table well keyed. -/
theorem wellKeyed_UpdatePlayCount (pm : UScenarioPersistenceManager) (ScenarioId : Nat)
    (UtcNow : Int) (PlayerArrayNum : Option Nat) (h : WellKeyed pm.ScenarioStatistics) :
    WellKeyed (UpdatePlayCount pm ScenarioId UtcNow PlayerArrayNum).ScenarioStatistics := by
  have hnd1 : ((TMapFindOrAdd pm.ScenarioStatistics ScenarioId
      FScenarioStats.Default).map Prod.fst).Nodup := by
    rw [TMapFindOrAdd_keys, ← TMapAdd_keys pm.ScenarioStatistics ScenarioId
      FScenarioStats.Default]
    exact nodup_keys_TMapAdd _ _ _ h.1
  have hmem1 : ∀ p ∈ TMapFindOrAdd pm.ScenarioStatistics ScenarioId FScenarioStats.Default,
      p.1 ≠ ScenarioId → p ∈ pm.ScenarioStatistics := by
    intro p hp hne
    unfold TMapFindOrAdd at hp
    cases hfind : TMapFind pm.ScenarioStatistics ScenarioId with
    | some st =>
      rw [hfind] at hp
      exact hp
    | none =>
      rw [hfind] at hp
      rcases mem_TMapAdd _ _ _ p h.1 hp with h1 | h1
      · subst h1
        exact absurd rfl hne
      · exact h1.1
  unfold UpdatePlayCount
  refine ⟨nodup_keys_TMapAdd _ _ _ hnd1, ?_⟩
  intro p hp
  rcases mem_TMapAdd _ _ _ p hnd1 hp with h1 | h1
  · subst h1
    cases PlayerArrayNum <;> rfl
  · exact h.2 p (hmem1 p h1.1 h1.2)

/-- Every reachable statistics table is well keyed. -/
theorem wellKeyed_of_reachable (pm : UScenarioPersistenceManager)
    (h : PersistenceReachable pm) : WellKeyed pm.ScenarioStatistics := by
  induction h with
  | init File =>
    cases File with
    | none => exact ⟨List.nodup_nil, fun p hp => by simp [Initialize, LoadPersistedData] at hp⟩
    | some F =>
      obtain ⟨StatsArray, RotationArray⟩ := F
      have key : ∀ (l : List FScenarioStats) (m : List (Nat × FScenarioStats)),
          WellKeyed m →
          WellKeyed (l.foldl (fun m Stats => TMapAdd m Stats.ScenarioId Stats) m) := by
        intro l
        induction l with
        | nil => intro m hm; exact hm
        | cons a rest ih =>
          intro m hm
          exact ih _ (wellKeyed_TMapAdd m a a.ScenarioId rfl hm)
      exact key StatsArray [] ⟨List.nodup_nil, fun p hp => by simp at hp⟩
  | save pm Stats _ ih => exact wellKeyed_TMapAdd _ Stats Stats.ScenarioId rfl ih
  | play pm ScenarioId UtcNow PlayerArrayNum _ ih =>
    exact wellKeyed_UpdatePlayCount pm ScenarioId UtcNow PlayerArrayNum ih
  | rotation pm Entry _ ih => exact ih

/-- Insertion sort by descending score has the guarantee `SortsByScore`. -/
theorem sampleSort_sorts : SortsByScore sampleSort := by
  intro l
  haveI : IsTotal (Nat × ℚ) (fun A B => B.2 ≤ A.2) := ⟨fun a b => le_total b.2 a.2⟩
  haveI : IsTrans (Nat × ℚ) (fun A B => B.2 ≤ A.2) := ⟨fun a b c hab hbc => le_trans hbc hab⟩
  refine ⟨List.perm_insertionSort _ l, ?_⟩
  have hs := List.sorted_insertionSort (fun A B : Nat × ℚ => B.2 ≤ A.2) l
  exact List.Pairwise.imp (fun h => not_lt.2 h) hs

/-- C21, as stated, fails: in the reachable table `sampleCloseScores` the score of the
specification, in exact arithmetic, is 27/10 for scenario 1 and less for scenario 2, while
the `float` score that the code computes is greater for scenario 2; so for every
`TArray::Sort` that sorts by the predicate `GetWeightedScenarioOptions(2)` returns
`[2, 1]`, and `GetWeightedScenarioOptions(1)` returns `[2]`, the scenario with the lower
exact score. -/
theorem C21_float_scores_reverse_the_exact_order :
    PopularityScore_spec (GetScenarioStats sampleCloseScores 2)
      < PopularityScore_spec (GetScenarioStats sampleCloseScores 1) ∧
    PopularityScore (GetScenarioStats sampleCloseScores 1)
      < PopularityScore (GetScenarioStats sampleCloseScores 2) ∧
    (∀ TArraySort : List (Nat × ℚ) → List (Nat × ℚ), SortsByScore TArraySort →
      GetWeightedScenarioOptions TArraySort sampleCloseScores 2 = [2, 1] ∧
      GetWeightedScenarioOptions TArraySort sampleCloseScores 1 = [2]) := by
  refine ⟨by decide!, by decide!, ?_⟩
  intro TArraySort hSort
  have hL : sampleCloseScores.ScenarioStatistics.map
      (fun StatPair => (StatPair.2.ScenarioId, PopularityScore StatPair.2))
      = [(1, 2831155 / 1048576), (2, 11324621 / 4194304)] := by decide!
  obtain ⟨hperm, hsorted⟩ := hSort [(1, 2831155 / 1048576), (2, 11324621 / 4194304)]
  have hS : TArraySort [(1, 2831155 / 1048576), (2, 11324621 / 4194304)]
      = [(2, 11324621 / 4194304), (1, 2831155 / 1048576)] := by
    obtain ⟨S, hSdef⟩ : ∃ S, S = TArraySort [(1, 2831155 / 1048576), (2, 11324621 / 4194304)] :=
      ⟨_, rfl⟩
    rw [← hSdef] at hperm hsorted ⊢
    have hlen := hperm.length_eq
    have hnd : S.Nodup := hperm.nodup_iff.2 (by decide)
    match S, hlen, hperm, hsorted, hnd with
    | [x, y], _, hperm, hsorted, hnd =>
      have hx : x ∈ [((1 : Nat), (2831155 / 1048576 : ℚ)), (2, 11324621 / 4194304)] :=
        hperm.mem_iff.1 (List.mem_cons_self _ _)
      have hy : y ∈ [((1 : Nat), (2831155 / 1048576 : ℚ)), (2, 11324621 / 4194304)] :=
        hperm.mem_iff.1 (List.mem_cons_of_mem _ (List.mem_cons_self _ _))
      have hxy : x ≠ y := by
        intro e
        subst e
        simp at hnd
      have hord : ¬ y.2 > x.2 := by
        simp only [List.pairwise_cons, List.mem_singleton, forall_eq] at hsorted
        exact hsorted.1
      simp only [List.mem_cons, List.mem_singleton, List.not_mem_nil, or_false] at hx hy
      rcases hx with hx | hx <;> rcases hy with hy | hy
      · exact absurd (hx.trans hy.symm) hxy
      · subst hx
        subst hy
        exact absurd (by decide! : ((2 : Nat), (11324621 / 4194304 : ℚ)).2
          > ((1 : Nat), (2831155 / 1048576 : ℚ)).2) hord
      · rw [hx, hy]
      · exact absurd (hx.trans hy.symm) hxy
  simp only [GetWeightedScenarioOptions, hL, hS]
  exact ⟨by decide, by decide⟩

/-- C21 (amended): for every reachable statistics table and every `Count ≥ 0`, with a
`TArray::Sort` that sorts by the predicate, `GetWeightedScenarioOptions(Count)` returns
exactly `min(Count, number of records)` pairwise distinct identifiers of recorded
scenarios, in non-increasing order of the `float` score that the code computes
(`((float)TotalVotes / TimesPlayed) * 0.7f + AveragePlayerCount * 0.3f` with every
operation rounded to `float` when `TimesPlayed > 0`, else 0), every recorded scenario that
is not returned has a `float` score no greater than that of every returned one, and the
result depends on the statistics table and `Count` only. -/
theorem C21_weighted_options_are_top_scores
    (TArraySort : List (Nat × ℚ) → List (Nat × ℚ)) (pm : UScenarioPersistenceManager)
    (Count : Int) (hSort : SortsByScore TArraySort) (hpm : PersistenceReachable pm)
    (hCount : 0 ≤ Count) :
    (GetWeightedScenarioOptions TArraySort pm Count).length
        = min Count.toNat pm.ScenarioStatistics.length ∧
    (GetWeightedScenarioOptions TArraySort pm Count).Nodup ∧
    (∀ x ∈ GetWeightedScenarioOptions TArraySort pm Count,
      x ∈ pm.ScenarioStatistics.map Prod.fst) ∧
    (GetWeightedScenarioOptions TArraySort pm Count).Pairwise
      (fun a b => PopularityScore (GetScenarioStats pm b)
        ≤ PopularityScore (GetScenarioStats pm a)) ∧
    (∀ k ∈ pm.ScenarioStatistics.map Prod.fst,
      k ∉ GetWeightedScenarioOptions TArraySort pm Count →
      ∀ x ∈ GetWeightedScenarioOptions TArraySort pm Count,
        PopularityScore (GetScenarioStats pm k) ≤ PopularityScore (GetScenarioStats pm x)) ∧
    (∀ Stats : FScenarioStats,
      PopularityScore Stats
        = if Stats.TimesPlayed > 0 then
            ToFloat
              (ToFloat
                  (ToFloat (ToFloat (Stats.TotalVotes : ℚ) / ToFloat (Stats.TimesPlayed : ℚ))
                    * ToFloat (7 / 10))
                + ToFloat (Stats.AveragePlayerCount * ToFloat (3 / 10)))
          else 0) ∧
    (∀ pm2 : UScenarioPersistenceManager,
      pm2.ScenarioStatistics = pm.ScenarioStatistics →
      GetWeightedScenarioOptions TArraySort pm2 Count
        = GetWeightedScenarioOptions TArraySort pm Count) := by
  obtain ⟨hnd, hfield⟩ := wellKeyed_of_reachable pm hpm
  obtain ⟨L, hLdef⟩ : ∃ L, L = pm.ScenarioStatistics.map
      (fun StatPair => (StatPair.2.ScenarioId, PopularityScore StatPair.2)) := ⟨_, rfl⟩
  have hLfst : L.map Prod.fst = pm.ScenarioStatistics.map Prod.fst := by
    rw [hLdef, List.map_map]
    apply List.map_congr_left
    intro p hp
    exact hfield p hp
  have hLscore : ∀ a ∈ L, a.2 = PopularityScore (GetScenarioStats pm a.1) := by
    intro a ha
    rw [hLdef, List.mem_map] at ha
    obtain ⟨p, hp, rfl⟩ := ha
    obtain ⟨k, st⟩ := p
    have hk : st.ScenarioId = k := hfield (k, st) hp
    have hfind := TMapFind_of_mem pm.ScenarioStatistics k st hnd hp
    simp only [GetScenarioStats, hk, hfind]
  obtain ⟨hperm, hsorted⟩ := hSort L
  obtain ⟨S, hSdef⟩ : ∃ S, S = TArraySort L := ⟨_, rfl⟩
  rw [← hSdef] at hperm hsorted
  have hSlen : S.length = pm.ScenarioStatistics.length := by
    rw [hperm.length_eq, hLdef, List.length_map]
  have hSnd : (S.map Prod.fst).Nodup := by
    rw [(hperm.map Prod.fst).nodup_iff, hLfst]
    exact hnd
  have hSscore : ∀ a ∈ S, a.2 = PopularityScore (GetScenarioStats pm a.1) :=
    fun a ha => hLscore a (hperm.mem_iff.1 ha)
  obtain ⟨m, hmdef⟩ : ∃ m, m = (min Count (S.length : Int)).toNat := ⟨_, rfl⟩
  have hR : GetWeightedScenarioOptions TArraySort pm Count = (S.take m).map Prod.fst := by
    rw [hmdef, hSdef, hLdef]
    rfl
  have hm : m = min Count.toNat pm.ScenarioStatistics.length := by
    rw [hmdef, hSlen]
    omega
  have hsub : List.Sublist (S.take m) S := List.take_sublist m S
  have hsplit : S = S.take m ++ S.drop m := (List.take_append_drop m S).symm
  have hsorted2 : (S.take m ++ S.drop m).Pairwise (fun A B => ¬ (B.2 > A.2)) := by
    rw [← hsplit]
    exact hsorted
  rw [List.pairwise_append] at hsorted2
  refine ⟨?_, ?_, ?_, ?_, ?_, ?_, ?_⟩
  · rw [hR, List.length_map, List.length_take, hSlen, hm]
    omega
  · rw [hR]
    exact List.Nodup.sublist (hsub.map Prod.fst) hSnd
  · intro x hx
    rw [hR] at hx
    have hx2 : x ∈ S.map Prod.fst := (hsub.map Prod.fst).subset hx
    rw [← hLfst]
    exact (hperm.map Prod.fst).mem_iff.1 hx2
  · rw [hR, List.pairwise_map]
    refine List.Pairwise.imp_of_mem ?_ hsorted2.1
    intro a b ha hb hab
    rw [← hSscore a (hsub.subset ha), ← hSscore b (hsub.subset hb)]
    exact not_lt.1 hab
  · intro k hk hkR x hx
    rw [hR] at hkR hx
    rw [← hLfst] at hk
    have hkS : k ∈ S.map Prod.fst := (hperm.map Prod.fst).mem_iff.2 hk
    rw [List.mem_map] at hkS hx
    obtain ⟨b, hb, rfl⟩ := hkS
    obtain ⟨a, ha, rfl⟩ := hx
    have hb2 : b ∈ S.drop m := by
      rw [hsplit, List.mem_append] at hb
      rcases hb with hb | hb
      · exact absurd (List.mem_map_of_mem Prod.fst hb) hkR
      · exact hb
    rw [← hSscore a (hsub.subset ha), ← hSscore b hb]
    exact not_lt.1 (hsorted2.2.2 a ha b hb2)
  · intro Stats
    rfl
  · intro pm2 h2
    simp only [GetWeightedScenarioOptions, h2]

/-- Witness of C21: the two best of the three scenarios of `sampleStatistics`, sorted by
insertion sort. -/
theorem C21_weighted_options_are_top_scores_witness :
    (GetWeightedScenarioOptions sampleSort sampleStatistics 2).length
        = min (2 : Int).toNat sampleStatistics.ScenarioStatistics.length ∧
    (GetWeightedScenarioOptions sampleSort sampleStatistics 2).Nodup ∧
    (GetWeightedScenarioOptions sampleSort sampleStatistics 2).Pairwise
      (fun a b => PopularityScore (GetScenarioStats sampleStatistics b)
        ≤ PopularityScore (GetScenarioStats sampleStatistics a)) :=
  have h := C21_weighted_options_are_top_scores sampleSort sampleStatistics 2
    sampleSort_sorts
    (PersistenceReachable.play _ 3 100 (some 2)
      (PersistenceReachable.save _ _
        (PersistenceReachable.save _ _ (PersistenceReachable.init none))))
    (by decide)
  ⟨h.1, h.2.1, h.2.2.2.1⟩

/-! ## The veto-used flag -/

/-- The flag is set exactly when the weight record exists with `bHasVetoed`. -/
theorem vetoFlag_eq_true_iff (c : EnhancedStateView) (Player : Nat) :
    vetoFlag c Player = true
      ↔ ∃ w, TMapFind c.PlayerWeights Player = some w ∧ w.bHasVetoed = true := by
  unfold vetoFlag
  cases h : TMapFind c.PlayerWeights Player with
  | none => simp
  | some w => simp

/-- The override `GenerateVotingOptions` does not touch `PlayerWeights`. -/
theorem GenerateVotingOptions_PlayerWeights (c : EnhancedStateView)
    (PersistenceManager : Option UScenarioPersistenceManager)
    (TArraySort : List (Nat × ℚ) → List (Nat × ℚ)) (ValidScenarios : List Nat)
    (rng : Nat → Nat) (CurrentTime : Int) :
    (c.GenerateVotingOptions PersistenceManager TArraySort ValidScenarios rng
      CurrentTime).PlayerWeights = c.PlayerWeights := by
  cases PersistenceManager with
  | none => rfl
  | some pm => rfl

/-- The inherited `StartVoting` does not touch `PlayerWeights`. -/
theorem StartVoting_PlayerWeights (c : EnhancedStateView)
    (PersistenceManager : Option UScenarioPersistenceManager)
    (TArraySort : List (Nat × ℚ) → List (Nat × ℚ)) (ValidScenarios : List Nat)
    (rng : Nat → Nat) (CurrentTime : Int) :
    (c.StartVoting PersistenceManager TArraySort ValidScenarios rng
      CurrentTime).PlayerWeights = c.PlayerWeights := by
  unfold EnhancedStateView.StartVoting
  by_cases h : c.Super.OwnerRole ≠ ENetRole.ROLE_Authority
  · rw [if_pos h]
  · rw [if_neg h, GenerateVotingOptions_PlayerWeights]

/-- The weighted `ProcessVotingResults` does not touch `PlayerWeights`. -/
theorem ProcessVotingResults_PlayerWeights (c : EnhancedStateView)
    (PersistenceManager : Option UScenarioPersistenceManager) (rng : Nat → Nat)
    (UtcNow : Int) (PlayerArrayNum : Option Nat) :
    (c.ProcessVotingResults PersistenceManager rng UtcNow PlayerArrayNum).1.PlayerWeights
      = c.PlayerWeights := by
  unfold EnhancedStateView.ProcessVotingResults
  by_cases h : c.Super.VotingState.bVotingActive = false
  · rw [if_pos h]
  · rw [if_neg h]

/-- `ServerUpdatePlayerPerformance` keeps the flag of every participant. -/
theorem ServerUpdatePlayerPerformance_vetoFlag (c : EnhancedStateView)
    (PlayerState : Option Nat) (PerformanceScore : ℚ) (q : Nat) :
    vetoFlag (ServerUpdatePlayerPerformance c PlayerState PerformanceScore) q
      = vetoFlag c q := by
  cases PlayerState with
  | none => rfl
  | some Player =>
    have hpw : (ServerUpdatePlayerPerformance c (some Player) PerformanceScore).PlayerWeights
        = TMapAdd (TMapFindOrAdd c.PlayerWeights Player FPlayerVoteWeight.Default) Player
            { (TMapFind (TMapFindOrAdd c.PlayerWeights Player FPlayerVoteWeight.Default)
                Player).getD FPlayerVoteWeight.Default with
              PerformanceMultiplier :=
                Clamp (PerformanceScore * c.PerformanceWeightMultiplier) c.MinimumVoteWeight
                  c.MaximumVoteWeight } := by
      simp only [ServerUpdatePlayerPerformance]
      split_ifs <;> rfl
    unfold vetoFlag
    rw [hpw, TMapFind_TMapAdd]
    by_cases hqp : Player = q
    · subst hqp
      rw [if_pos rfl]
      simp only [TMapFind_TMapFindOrAdd, if_true, Option.getD_some]
      cases TMapFind c.PlayerWeights Player <;> rfl
    · rw [if_neg hqp, TMapFind_TMapFindOrAdd, if_neg hqp]

/-- `InitializePlayerWeight` keeps the flag of every participant. -/
theorem InitializePlayerWeight_vetoFlag (c : EnhancedStateView)
    (PlayerState q : Nat) :
    vetoFlag (InitializePlayerWeight c PlayerState) q = vetoFlag c q := by
  unfold InitializePlayerWeight
  by_cases h : (TMapFind c.PlayerWeights PlayerState).isSome = false
  · rw [if_pos h]
    unfold vetoFlag
    simp only [TMapFind_TMapAdd]
    by_cases hqp : PlayerState = q
    · subst hqp
      rw [if_pos rfl]
      cases hf : TMapFind c.PlayerWeights PlayerState with
      | none => rfl
      | some w => rw [hf] at h; simp at h
    · rw [if_neg hqp]
  · rw [if_neg h]

/-- A set flag survives every call on the component. -/
theorem applyComponentCall_keeps_flag (c : EnhancedStateView)
    (Player : Nat) (call : ComponentCall) (h : vetoFlag c Player = true) :
    vetoFlag (applyComponentCall c call) Player = true := by
  cases call with
  | StartVoting pm srt valid rng t =>
    unfold vetoFlag at h ⊢
    simp only [applyComponentCall, StartVoting_PlayerWeights]
    exact h
  | GenerateVotingOptions pm srt valid rng t =>
    unfold vetoFlag at h ⊢
    simp only [applyComponentCall, GenerateVotingOptions_PlayerWeights]
    exact h
  | ProcessVotingResults pm rng now pc =>
    unfold vetoFlag at h ⊢
    simp only [applyComponentCall, ProcessVotingResults_PlayerWeights]
    exact h
  | InitializePlayerWeight ps =>
    simp only [applyComponentCall, InitializePlayerWeight_vetoFlag]
    exact h
  | Server rc =>
    rw [vetoFlag_eq_true_iff] at h ⊢
    exact applyCall_keeps_flag c Player rc h

/-- A set flag survives every sequence of calls on the component. -/
theorem applyComponentCalls_keeps_flag (calls : List ComponentCall)
    (c : EnhancedStateView) (Player : Nat)
    (h : vetoFlag c Player = true) :
    vetoFlag (applyComponentCalls c calls) Player = true := by
  induction calls generalizing c with
  | nil => exact h
  | cons call rest ih =>
    simp only [applyComponentCalls, List.foldl_cons]
    exact ih _ (applyComponentCall_keeps_flag c Player call h)

/-- A veto call that changes the component sets the flag of the caller. -/
theorem ServerVetoScenario_accepted (c : EnhancedStateView)
    (Player Target : Nat) (hacc : ServerVetoScenario c (some Player) Target ≠ c) :
    vetoFlag (ServerVetoScenario c (some Player) Target) Player = true := by
  unfold ServerVetoScenario at hacc ⊢
  by_cases hact : c.Super.VotingState.bVotingActive = false
  · rw [if_pos hact] at hacc
    exact absurd rfl hacc
  · rw [if_neg hact] at hacc ⊢
    simp only [] at hacc ⊢
    cases hq : TMapFind c.PlayerWeights Player with
    | none =>
      rw [hq] at hacc
      exact absurd rfl hacc
    | some pw =>
      rw [hq] at hacc
      simp only [] at hacc ⊢
      by_cases hv : pw.bHasVetoed = true
      · rw [if_pos hv] at hacc
        exact absurd rfl hacc
      · rw [if_neg hv] at hacc ⊢
        by_cases hm : (vetoLoop c.EnhancedVoteOptions Target).2 = true
        · rw [if_pos hm]
          unfold vetoFlag
          simp only [TMapFind_TMapAdd, if_true]
        · rw [if_neg hm] at hacc
          exact absurd rfl hacc

/-- Behind the cast: on a view no statement of the weighted voting component clears the
veto-used flag `bHasVetoed` of a participant: `StartVoting`, `GenerateVotingOptions`,
`ProcessVotingResults` and `ServerUpdatePlayerPerformance` leave the flag of every
participant as it was; so after a veto of a participant has been accepted (the call changed
the view), whatever calls follow, the flag of that participant is set and every
`ServerVetoScenario` call of that participant leaves the view, and with it every veto
counter, unchanged. -/
theorem view_veto_flag_is_never_cleared (c0 : EnhancedStateView)
    (Player Target : Nat) (hacc : ServerVetoScenario c0 (some Player) Target ≠ c0) :
    (∀ (calls : List ComponentCall) (ScenarioId : Nat),
      vetoFlag (applyComponentCalls (ServerVetoScenario c0 (some Player) Target) calls) Player
        = true ∧
      ServerVetoScenario
          (applyComponentCalls (ServerVetoScenario c0 (some Player) Target) calls)
          (some Player) ScenarioId
        = applyComponentCalls (ServerVetoScenario c0 (some Player) Target) calls) ∧
    (∀ (c : EnhancedStateView) (q : Nat)
        (PersistenceManager : Option UScenarioPersistenceManager)
        (TArraySort : List (Nat × ℚ) → List (Nat × ℚ)) (ValidScenarios : List Nat)
        (rng : Nat → Nat) (CurrentTime : Int),
      vetoFlag (c.StartVoting PersistenceManager TArraySort ValidScenarios rng CurrentTime) q
        = vetoFlag c q ∧
      vetoFlag
          (c.GenerateVotingOptions PersistenceManager TArraySort ValidScenarios rng
            CurrentTime) q
        = vetoFlag c q) ∧
    (∀ (c : EnhancedStateView) (q : Nat)
        (PersistenceManager : Option UScenarioPersistenceManager) (rng : Nat → Nat)
        (UtcNow : Int) (PlayerArrayNum : Option Nat),
      vetoFlag (c.ProcessVotingResults PersistenceManager rng UtcNow PlayerArrayNum).1 q
        = vetoFlag c q) ∧
    (∀ (c : EnhancedStateView) (q : Nat) (PlayerState : Option Nat)
        (PerformanceScore : ℚ),
      vetoFlag (ServerUpdatePlayerPerformance c PlayerState PerformanceScore) q
        = vetoFlag c q) := by
  refine ⟨?_, ?_, ?_, ?_⟩
  · intro calls ScenarioId
    have hflag := applyComponentCalls_keeps_flag calls _ Player
      (ServerVetoScenario_accepted c0 Player Target hacc)
    refine ⟨hflag, ?_⟩
    obtain ⟨w, hw, hset⟩ := (vetoFlag_eq_true_iff _ Player).1 hflag
    exact ServerVetoScenario_of_flag _ Player ScenarioId w hw hset
  · intro c q pm srt valid rng t
    unfold vetoFlag
    rw [StartVoting_PlayerWeights, GenerateVotingOptions_PlayerWeights]
    exact ⟨rfl, rfl⟩
  · intro c q pm rng now pc
    unfold vetoFlag
    rw [ProcessVotingResults_PlayerWeights]
  · intro c q ps score
    exact ServerUpdatePlayerPerformance_vetoFlag c ps score q


/-! ## FTagStackContainer -/

/-- Lookup after `TMap::Remove`. -/
theorem TMapFind_TMapRemove {ν : Type} (m : List (Nat × ν)) (k k' : Nat) :
    TMapFind (TMapRemove m k) k' = if k = k' then none else TMapFind m k' := by
  induction m with
  | nil =>
    simp [TMapRemove, TMapFind]
  | cons kv rest ih =>
    obtain ⟨a, v⟩ := kv
    unfold TMapRemove at ih ⊢
    by_cases ha : a = k
    · subst ha
      simp only [List.filter_cons, decide_True, Bool.not_true, Bool.false_eq_true, if_false, ih,
        TMapFind]
      by_cases hk : a = k'
      · simp [hk]
      · simp [hk]
    · simp only [List.filter_cons, ha, decide_False, Bool.not_false, if_true, TMapFind, ih]
      by_cases hk : k = k'
      · subst hk
        simp [ha]
      · simp [hk]

/-- Assignment through `operator[]` succeeds on a present key and acts as `Add`. -/
theorem TMapSet_of_find {ν : Type} (m : List (Nat × ν)) (k : Nat) (v x : ν)
    (h : TMapFind m k = some x) : TMapSet m k v = some (TMapAdd m k v) := by
  simp [TMapSet, h]

/-- The lookup map of an array: the count of the first stack that carries the tag. -/
theorem TMapFind_stackPair (arr : List FTagStack) (t : Nat) :
    TMapFind (arr.map stackPair) t
      = (findStack t arr).map (fun Stack => Stack.StackCount) := by
  induction arr with
  | nil => rfl
  | cons a rest ih =>
    by_cases h : a.Tag = t
    · simp [TMapFind, findStack, stackPair, h]
    · simp only [List.map_cons, stackPair, TMapFind, findStack, if_neg h]
      exact ih

/-- The stack found carries the tag and is in the array. -/
theorem findStack_some (arr : List FTagStack) (t : Nat) (st : FTagStack)
    (h : findStack t arr = some st) : st ∈ arr ∧ st.Tag = t := by
  induction arr with
  | nil => simp [findStack] at h
  | cons a rest ih =>
    by_cases ha : a.Tag = t
    · simp only [findStack, if_pos ha, Option.some.injEq] at h
      subst h
      exact ⟨List.mem_cons_self _ _, ha⟩
    · simp only [findStack, if_neg ha] at h
      exact ⟨List.mem_cons_of_mem _ (ih h).1, (ih h).2⟩

/-- No stack found: the tag is not in the array. -/
theorem findStack_none (arr : List FTagStack) (t : Nat)
    (h : findStack t arr = none) : t ∉ arr.map (fun Stack => Stack.Tag) := by
  induction arr with
  | nil => simp
  | cons a rest ih =>
    by_cases ha : a.Tag = t
    · simp [findStack, ha] at h
    · simp only [findStack, if_neg ha] at h
      simp only [List.map_cons, List.mem_cons, not_or]
      exact ⟨fun e => ha e.symm, ih h⟩

/-- The lookup map after an assignment to the stack found. -/
theorem map_stackPair_assignFirst (arr : List FTagStack) (t : Nat) (v : Int)
    (st : FTagStack) (h : findStack t arr = some st) :
    TMapAdd (arr.map stackPair) t v = (assignFirst t v arr).map stackPair := by
  induction arr with
  | nil => simp [findStack] at h
  | cons a rest ih =>
    by_cases ha : a.Tag = t
    · simp [TMapAdd, assignFirst, stackPair, ha]
    · simp only [findStack, if_neg ha] at h
      simp only [List.map_cons, stackPair, TMapAdd, assignFirst, if_neg ha, List.cons.injEq,
        true_and]
      exact ih h

/-- The lookup map after a new stack is appended. -/
theorem map_stackPair_append (arr : List FTagStack) (t : Nat) (v : Int)
    (h : findStack t arr = none) :
    TMapAdd (arr.map stackPair) t v
      = (arr ++ [({ Tag := t, StackCount := v } : FTagStack)]).map stackPair := by
  induction arr with
  | nil => rfl
  | cons a rest ih =>
    by_cases ha : a.Tag = t
    · simp [findStack, ha] at h
    · simp only [findStack, if_neg ha] at h
      simp only [List.map_cons, stackPair, TMapAdd, if_neg ha, List.cons_append, List.cons.injEq,
        true_and]
      exact ih h

/-- The lookup map after the stack found is removed from an array with pairwise distinct
tags. -/
theorem map_stackPair_removeFirst (arr : List FTagStack) (t : Nat)
    (hnd : (arr.map (fun Stack => Stack.Tag)).Nodup) :
    TMapRemove (arr.map stackPair) t = (removeFirst t arr).map stackPair := by
  induction arr with
  | nil => rfl
  | cons a rest ih =>
    simp only [List.map_cons, List.nodup_cons] at hnd
    unfold TMapRemove at ih ⊢
    by_cases ha : a.Tag = t
    · subst ha
      simp only [List.map_cons, stackPair, List.filter_cons, decide_True, Bool.not_true,
        Bool.false_eq_true, if_false, removeFirst, if_true]
      apply List.filter_eq_self.2
      intro p hp
      rw [List.mem_map] at hp
      obtain ⟨x, hx, rfl⟩ := hp
      have : x.Tag ≠ a.Tag := by
        intro e
        exact hnd.1 (by rw [← e]; exact List.mem_map_of_mem (fun Stack => Stack.Tag) hx)
      simp [stackPair, this]
    · simp only [List.map_cons, stackPair, List.filter_cons, ha, decide_False, Bool.not_false,
        if_true, removeFirst, if_false, List.cons.injEq, true_and]
      exact ih hnd.2

/-- An assignment keeps the tags of the array. -/
theorem tags_assignFirst (arr : List FTagStack) (t : Nat) (v : Int) :
    (assignFirst t v arr).map (fun Stack => Stack.Tag)
      = arr.map (fun Stack => Stack.Tag) := by
  induction arr with
  | nil => rfl
  | cons a rest ih =>
    by_cases ha : a.Tag = t
    · simp [assignFirst, ha]
    · simp [assignFirst, ha, ih]

/-- The items of the array after an assignment: old ones, or the one assigned to. -/
theorem mem_assignFirst (arr : List FTagStack) (t : Nat) (v : Int) (x : FTagStack)
    (hx : x ∈ assignFirst t v arr) : x ∈ arr ∨ x.StackCount = v := by
  induction arr with
  | nil => simp [assignFirst] at hx
  | cons a rest ih =>
    by_cases ha : a.Tag = t
    · simp only [assignFirst, if_pos ha, List.mem_cons] at hx
      rcases hx with hx | hx
      · subst hx
        exact Or.inr rfl
      · exact Or.inl (List.mem_cons_of_mem _ hx)
    · simp only [assignFirst, if_neg ha, List.mem_cons] at hx
      rcases hx with hx | hx
      · subst hx
        exact Or.inl (List.mem_cons_self _ _)
      · rcases ih hx with h1 | h1
        · exact Or.inl (List.mem_cons_of_mem _ h1)
        · exact Or.inr h1

/-- Removing the stack found leaves a sublist. -/
theorem removeFirst_sublist (arr : List FTagStack) (t : Nat) :
    List.Sublist (removeFirst t arr) arr := by
  induction arr with
  | nil => exact List.Sublist.slnil
  | cons a rest ih =>
    by_cases ha : a.Tag = t
    · simp only [removeFirst, if_pos ha]
      exact List.sublist_cons_self a rest
    · simp only [removeFirst, if_neg ha]
      exact List.Sublist.cons₂ a ih

/-- The invariant after an assignment of a positive count to the stack found. -/
theorem invariant_assign (c : FTagStackContainer) (t : Nat) (v : Int) (st : FTagStack)
    (b : List (Nat × Int × Int)) (h : TagStackInvariant c)
    (hf : findStack t c.Stacks = some st) (hv : 0 < v) :
    TagStackInvariant
      { Stacks := assignFirst t v c.Stacks
        TagToCountMap := TMapAdd c.TagToCountMap t v
        Broadcasts := b } := by
  obtain ⟨hmap, hnd, hpos⟩ := h
  refine ⟨?_, ?_, ?_⟩
  · simp only [hmap]
    exact map_stackPair_assignFirst c.Stacks t v st hf
  · simp only [tags_assignFirst]
    exact hnd
  · intro x hx
    rcases mem_assignFirst c.Stacks t v x hx with h1 | h1
    · exact hpos x h1
    · rw [h1]
      exact hv

/-- The invariant after a stack with a new tag and a positive count is appended. -/
theorem invariant_append (c : FTagStackContainer) (t : Nat) (v : Int)
    (b : List (Nat × Int × Int)) (h : TagStackInvariant c)
    (hf : findStack t c.Stacks = none) (hv : 0 < v) :
    TagStackInvariant
      { Stacks := c.Stacks ++ [{ Tag := t, StackCount := v }]
        TagToCountMap := TMapAdd c.TagToCountMap t v
        Broadcasts := b } := by
  obtain ⟨hmap, hnd, hpos⟩ := h
  refine ⟨?_, ?_, ?_⟩
  · simp only [hmap]
    exact map_stackPair_append c.Stacks t v hf
  · simp only [List.map_append, List.map_cons, List.map_nil]
    refine List.nodup_append.2 ⟨hnd, List.nodup_singleton _, ?_⟩
    intro a ha hb
    rw [List.mem_singleton] at hb
    subst hb
    exact findStack_none c.Stacks a hf ha
  · intro x hx
    simp only [List.mem_append, List.mem_singleton] at hx
    rcases hx with h1 | h1
    · exact hpos x h1
    · rw [h1]
      exact hv

/-- The invariant after the stack found is removed. -/
theorem invariant_remove (c : FTagStackContainer) (t : Nat) (b : List (Nat × Int × Int))
    (h : TagStackInvariant c) :
    TagStackInvariant
      { Stacks := removeFirst t c.Stacks
        TagToCountMap := TMapRemove c.TagToCountMap t
        Broadcasts := b } := by
  obtain ⟨hmap, hnd, hpos⟩ := h
  refine ⟨?_, ?_, ?_⟩
  · simp only [hmap]
    exact map_stackPair_removeFirst c.Stacks t hnd
  · exact List.Nodup.sublist ((removeFirst_sublist c.Stacks t).map _) hnd
  · intro x hx
    exact hpos x ((removeFirst_sublist c.Stacks t).subset hx)

/-- Under the invariant the map lookup is the count of the stack found. -/
theorem find_of_invariant (c : FTagStackContainer) (t : Nat) (h : TagStackInvariant c) :
    TMapFind c.TagToCountMap t
      = (findStack t c.Stacks).map (fun Stack => Stack.StackCount) := by
  rw [h.1]
  exact TMapFind_stackPair c.Stacks t

/-- `AddStack` keeps the invariant. -/
theorem AddStack_invariant (c c1 : FTagStackContainer) (t : Nat) (n : Int)
    (h : TagStackInvariant c) (hs : AddStack c t n = some c1) : TagStackInvariant c1 := by
  unfold AddStack at hs
  by_cases hv : IsValidTag t = false
  · rw [if_pos hv] at hs
    injection hs with hs
    subst hs
    exact h
  · rw [if_neg hv] at hs
    by_cases hn : n > 0
    · rw [if_pos hn] at hs
      cases hf : findStack t c.Stacks with
      | none =>
        simp only [hf] at hs
        injection hs with hs
        subst hs
        exact invariant_append c t n _ h hf hn
      | some st =>
        simp only [hf] at hs
        by_cases ho : st.StackCount + n > MAX_int32
        · rw [if_pos ho] at hs
          cases hs
        · rw [if_neg ho] at hs
          have hfind : TMapFind c.TagToCountMap t = some st.StackCount := by
            rw [find_of_invariant c t h, hf]
            rfl
          rw [TMapSet_of_find _ _ _ _ hfind] at hs
          simp only [] at hs
          injection hs with hs
          subst hs
          have hst : 0 < st.StackCount := h.2.2 st (findStack_some c.Stacks t st hf).1
          exact invariant_assign c t _ st _ h hf (by omega)
    · rw [if_neg hn] at hs
      injection hs with hs
      subst hs
      exact h

/-- `RemoveStack` keeps the invariant. -/
theorem RemoveStack_invariant (c c1 : FTagStackContainer) (t : Nat) (n : Int)
    (h : TagStackInvariant c) (hs : RemoveStack c t n = some c1) : TagStackInvariant c1 := by
  unfold RemoveStack at hs
  by_cases hv : IsValidTag t = false
  · rw [if_pos hv] at hs
    injection hs with hs
    subst hs
    exact h
  · rw [if_neg hv] at hs
    by_cases hn : n > 0
    · rw [if_pos hn] at hs
      cases hf : findStack t c.Stacks with
      | none =>
        simp only [hf] at hs
        injection hs with hs
        subst hs
        exact h
      | some st =>
        simp only [hf] at hs
        by_cases hle : st.StackCount ≤ n
        · rw [if_pos hle] at hs
          injection hs with hs
          subst hs
          exact invariant_remove c t _ h
        · rw [if_neg hle] at hs
          have hfind : TMapFind c.TagToCountMap t = some st.StackCount := by
            rw [find_of_invariant c t h, hf]
            rfl
          rw [TMapSet_of_find _ _ _ _ hfind] at hs
          simp only [] at hs
          injection hs with hs
          subst hs
          exact invariant_assign c t _ st _ h hf (by omega)
    · rw [if_neg hn] at hs
      injection hs with hs
      subst hs
      exact h

/-- `SetStack` keeps the invariant. -/
theorem SetStack_invariant (c c1 : FTagStackContainer) (t : Nat) (n : Int)
    (h : TagStackInvariant c) (hs : SetStack c t n = some c1) : TagStackInvariant c1 := by
  unfold SetStack at hs
  by_cases hv : IsValidTag t = false
  · rw [if_pos hv] at hs
    injection hs with hs
    subst hs
    exact h
  · rw [if_neg hv] at hs
    by_cases hn : n > 0
    · rw [if_pos hn] at hs
      cases hf : findStack t c.Stacks with
      | none =>
        simp only [hf] at hs
        injection hs with hs
        subst hs
        exact invariant_append c t n _ h hf hn
      | some st =>
        simp only [hf] at hs
        have hfind : TMapFind c.TagToCountMap t = some st.StackCount := by
          rw [find_of_invariant c t h, hf]
          rfl
        rw [TMapSet_of_find _ _ _ _ hfind] at hs
        simp only [] at hs
        injection hs with hs
        subst hs
        exact invariant_assign c t _ st _ h hf hn
    · rw [if_neg hn] at hs
      injection hs with hs
      subst hs
      exact h

/-- `ClearStack` keeps the invariant. -/
theorem ClearStack_invariant (c : FTagStackContainer) (t : Nat) (h : TagStackInvariant c) :
    TagStackInvariant (ClearStack c t) := by
  unfold ClearStack
  by_cases hv : IsValidTag t = false
  · rw [if_pos hv]
    exact h
  · rw [if_neg hv]
    cases hf : findStack t c.Stacks with
    | none => exact h
    | some st => exact invariant_remove c t _ h

/-- Every reachable container satisfies the invariant. -/
theorem invariant_of_reachable (c : FTagStackContainer) (h : TagStackReachable c) :
    TagStackInvariant c := by
  induction h with
  | empty => exact ⟨rfl, List.nodup_nil, fun x hx => by simp [FTagStackContainer.Empty] at hx⟩
  | add c c1 t n _ hs ih => exact AddStack_invariant c c1 t n ih hs
  | remove c c1 t n _ hs ih => exact RemoveStack_invariant c c1 t n ih hs
  | set c c1 t n _ hs ih => exact SetStack_invariant c c1 t n ih hs
  | clear c t _ ih => exact ClearStack_invariant c t ih

/-- Under the invariant `AddStack` with a valid tag and a positive amount returns, absent
overflow, and the lookup map afterwards holds the old count plus the amount for the tag
and is as before for every other tag. -/
theorem AddStack_find (c : FTagStackContainer) (t : Nat) (n : Int)
    (h : TagStackInvariant c) (hv : IsValidTag t = true) (hn : 0 < n)
    (ho : GetStackCount c t + n ≤ MAX_int32) :
    ∃ c1, AddStack c t n = some c1 ∧
      ∀ u, TMapFind c1.TagToCountMap u
        = if t = u then some (GetStackCount c t + n) else TMapFind c.TagToCountMap u := by
  have hv2 : ¬ IsValidTag t = false := by simp [hv]
  have hn2 : n > 0 := hn
  unfold AddStack
  rw [if_neg hv2, if_pos hn2]
  have hfi := find_of_invariant c t h
  cases hf : findStack t c.Stacks with
  | none =>
    rw [hf] at hfi
    have hg : GetStackCount c t = 0 := by simp [GetStackCount, hfi]
    refine ⟨_, rfl, ?_⟩
    intro u
    simp only [TMapFind_TMapAdd, hg, zero_add]
  | some st =>
    rw [hf] at hfi
    have hfind : TMapFind c.TagToCountMap t = some st.StackCount := hfi
    have hg : GetStackCount c t = st.StackCount := by simp [GetStackCount, hfind]
    rw [hg] at ho
    have ho2 : ¬ st.StackCount + n > MAX_int32 := by omega
    simp only [if_neg ho2, TMapSet_of_find _ _ _ _ hfind]
    refine ⟨_, rfl, ?_⟩
    intro u
    simp only [TMapFind_TMapAdd, hg]

/-- Under the invariant `RemoveStack` with a valid tag and a positive amount returns, and
the lookup map afterwards has no entry for the tag when the old count is at most the
amount, else the old count minus the amount, and is as before for every other tag. -/
theorem RemoveStack_find (c : FTagStackContainer) (t : Nat) (n : Int)
    (h : TagStackInvariant c) (hv : IsValidTag t = true) (hn : 0 < n) :
    ∃ c1, RemoveStack c t n = some c1 ∧
      ∀ u, TMapFind c1.TagToCountMap u
        = if t = u then
            (if GetStackCount c t ≤ n then none else some (GetStackCount c t - n))
          else TMapFind c.TagToCountMap u := by
  have hv2 : ¬ IsValidTag t = false := by simp [hv]
  have hn2 : n > 0 := hn
  unfold RemoveStack
  rw [if_neg hv2, if_pos hn2]
  have hfi := find_of_invariant c t h
  cases hf : findStack t c.Stacks with
  | none =>
    rw [hf] at hfi
    have hfind : TMapFind c.TagToCountMap t = none := hfi
    have hg : GetStackCount c t = 0 := by simp [GetStackCount, hfind]
    refine ⟨_, rfl, ?_⟩
    intro u
    by_cases htu : t = u
    · subst htu
      rw [if_pos rfl, hg, if_pos (le_of_lt hn)]
      exact hfind
    · rw [if_neg htu]
  | some st =>
    rw [hf] at hfi
    have hfind : TMapFind c.TagToCountMap t = some st.StackCount := hfi
    have hg : GetStackCount c t = st.StackCount := by simp [GetStackCount, hfind]
    by_cases hle : st.StackCount ≤ n
    · simp only [if_pos hle]
      refine ⟨_, rfl, ?_⟩
      intro u
      simp only [TMapFind_TMapRemove, hg, if_pos hle]
    · simp only [if_neg hle, TMapSet_of_find _ _ _ _ hfind]
      refine ⟨_, rfl, ?_⟩
      intro u
      simp only [TMapFind_TMapAdd, hg, if_neg hle]

/-- C23: in every state of the tag-stack container reachable by `AddStack`, `RemoveStack`,
`SetStack` and `ClearStack`: for a valid tag `t` and `n > 0`, `AddStack(t, n)` returns,
absent int32 overflow, and makes `GetStackCount(t)` the old count plus `n`;
`RemoveStack(t, n)` returns and makes it `max(old count - n, 0)`, with `ContainsTag(t)`
false afterwards exactly when the old count is at most `n`; both leave count and presence
of every other tag unchanged; with an invalid tag or `n ≤ 0` both return the container
unchanged; every stored count (in the lookup map and in the array) is strictly positive
and `GetStackCount` is never negative. -/
theorem C23_tag_stack_is_a_positive_count_map (c : FTagStackContainer)
    (hc : TagStackReachable c) :
    (∀ (t : Nat) (n : Int), IsValidTag t = true → 0 < n →
      GetStackCount c t + n ≤ MAX_int32 →
      ∃ c1, AddStack c t n = some c1 ∧
        GetStackCount c1 t = GetStackCount c t + n ∧
        ∀ u, u ≠ t →
          GetStackCount c1 u = GetStackCount c u ∧ ContainsTag c1 u = ContainsTag c u) ∧
    (∀ (t : Nat) (n : Int), IsValidTag t = true → 0 < n →
      ∃ c1, RemoveStack c t n = some c1 ∧
        GetStackCount c1 t = max (GetStackCount c t - n) 0 ∧
        (ContainsTag c1 t = false ↔ GetStackCount c t ≤ n) ∧
        ∀ u, u ≠ t →
          GetStackCount c1 u = GetStackCount c u ∧ ContainsTag c1 u = ContainsTag c u) ∧
    (∀ (t : Nat) (n : Int), (IsValidTag t = false ∨ n ≤ 0) →
      AddStack c t n = some c ∧ RemoveStack c t n = some c) ∧
    (∀ p ∈ c.TagToCountMap, 0 < p.2) ∧
    (∀ Stack ∈ c.Stacks, 0 < Stack.StackCount) ∧
    (∀ t : Nat, 0 ≤ GetStackCount c t) := by
  have h := invariant_of_reachable c hc
  refine ⟨?_, ?_, ?_, ?_, h.2.2, ?_⟩
  · intro t n hv hn ho
    obtain ⟨c1, hs, hfind⟩ := AddStack_find c t n h hv hn ho
    refine ⟨c1, hs, ?_, ?_⟩
    · simp only [GetStackCount, hfind t, if_true, Option.getD_some]
    · intro u hu
      have hne : ¬ t = u := fun e => hu e.symm
      simp only [GetStackCount, ContainsTag, hfind u, if_neg hne, and_self]
  · intro t n hv hn
    obtain ⟨c1, hs, hfind⟩ := RemoveStack_find c t n h hv hn
    refine ⟨c1, hs, ?_, ?_, ?_⟩
    · have hft := hfind t
      rw [if_pos rfl] at hft
      by_cases hle : GetStackCount c t ≤ n
      · rw [if_pos hle] at hft
        have h0 : GetStackCount c1 t = 0 := by simp [GetStackCount, hft]
        rw [h0]
        omega
      · rw [if_neg hle] at hft
        have h0 : GetStackCount c1 t = GetStackCount c t - n := by
          rw [GetStackCount, hft, Option.getD_some]
        rw [h0]
        omega
    · have hft := hfind t
      rw [if_pos rfl] at hft
      by_cases hle : GetStackCount c t ≤ n
      · rw [if_pos hle] at hft
        simp [ContainsTag, hft, hle]
      · rw [if_neg hle] at hft
        simp [ContainsTag, hft, hle]
    · intro u hu
      have hne : ¬ t = u := fun e => hu e.symm
      simp only [GetStackCount, ContainsTag, hfind u, if_neg hne, and_self]
  · intro t n hbad
    by_cases hv : IsValidTag t = false
    · simp [AddStack, RemoveStack, hv]
    · rcases hbad with hb | hb
      · exact absurd hb hv
      · have hn : ¬ n > 0 := by omega
        simp [AddStack, RemoveStack, hn]
  · intro p hp
    rw [h.1, List.mem_map] at hp
    obtain ⟨x, hx, rfl⟩ := hp
    exact h.2.2 x hx
  · intro t
    rw [GetStackCount, find_of_invariant c t h]
    cases hf : findStack t c.Stacks with
    | none => simp
    | some st =>
      have := h.2.2 st (findStack_some c.Stacks t st hf).1
      simp only [Option.map_some', Option.getD_some]
      omega

/-- Witness of C23: the container after `AddStack(1, 3)`, `AddStack(2, 5)`,
`RemoveStack(1, 1)`; one more `RemoveStack(2, 7)` removes the entry of tag 2. -/
theorem C23_tag_stack_is_a_positive_count_map_witness :
    (∃ c1, RemoveStack sampleStacks 2 7 = some c1 ∧
      GetStackCount c1 2 = max (GetStackCount sampleStacks 2 - 7) 0 ∧
      (ContainsTag c1 2 = false ↔ GetStackCount sampleStacks 2 ≤ 7) ∧
      ∀ u, u ≠ 2 →
        GetStackCount c1 u = GetStackCount sampleStacks u ∧
        ContainsTag c1 u = ContainsTag sampleStacks u) ∧
    (∀ t : Nat, 0 ≤ GetStackCount sampleStacks t) :=
  have h := C23_tag_stack_is_a_positive_count_map sampleStacks
    (TagStackReachable.remove
      { Stacks := [{ Tag := 1, StackCount := 3 }, { Tag := 2, StackCount := 5 }]
        TagToCountMap := [(1, 3), (2, 5)]
        Broadcasts := [(1, 3, 0), (2, 5, 0)] }
      sampleStacks 1 1
      (TagStackReachable.add
        { Stacks := [{ Tag := 1, StackCount := 3 }]
          TagToCountMap := [(1, 3)]
          Broadcasts := [(1, 3, 0)] }
        { Stacks := [{ Tag := 1, StackCount := 3 }, { Tag := 2, StackCount := 5 }]
          TagToCountMap := [(1, 3), (2, 5)]
          Broadcasts := [(1, 3, 0), (2, 5, 0)] }
        2 5
        (TagStackReachable.add FTagStackContainer.Empty
          { Stacks := [{ Tag := 1, StackCount := 3 }]
            TagToCountMap := [(1, 3)]
            Broadcasts := [(1, 3, 0)] }
          1 3 TagStackReachable.empty (by decide))
        (by decide))
      (by decide))
  ⟨h.2.1 2 7 (by decide) (by decide), h.2.2.2.2.2⟩

/-! ## Single-precision values -/

/-- Values of `ToFloat`: the constants `0.7f`, `0.3f`, `0.1f` and `0.45f`, the `float`
nearest to 20/3, an integer beyond 24 bits, a tie that goes to the even neighbour, and
values that are `float` already. -/
theorem ToFloat_values :
    ToFloat (7 / 10) = 11744051 / 16777216 ∧
    ToFloat (3 / 10) = 5033165 / 16777216 ∧
    ToFloat (1 / 10) = 13421773 / 134217728 ∧
    ToFloat (9 / 20) = 7549747 / 16777216 ∧
    ToFloat (20 / 3) = 13981013 / 2097152 ∧
    ToFloat 16777217 = 16777216 ∧
    ToFloat 16777219 = 16777220 ∧
    ToFloat 1 = 1 ∧ ToFloat (9 / 2) = 9 / 2 ∧ ToFloat (-3) = -3 ∧ ToFloat 0 = 0 := by
  refine ⟨by decide!, by decide!, by decide!, by decide!, by decide!, by decide!, by decide!,
    by decide!, by decide!, by decide!, by decide!⟩

/-- On the component of a view the cast yields the view. -/
theorem CastVotingState_Component (v : EnhancedStateView) :
    v.Component.CastVotingState = some v := by
  obtain ⟨_, _, _, _, _, _, _, _, _⟩ := v
  rfl

/-! ## The weighted component as declared -/

/-- On the member as declared the cast yields no view. -/
theorem CastVotingState_declared (c : UEnhancedScenarioTransitionComponent)
    (hdecl : c.VotingStateAsEnhanced = none) : c.CastVotingState = none := by
  simp [UEnhancedScenarioTransitionComponent.CastVotingState, hdecl]

/-- On the member as declared the weighted `ProcessVotingResults` of an active round ends in
the cast. -/
theorem ProcessVotingResults_declared (c : UEnhancedScenarioTransitionComponent)
    (PersistenceManager : Option UScenarioPersistenceManager) (rng : Nat → Nat)
    (UtcNow : Int) (PlayerArrayNum : Option Nat)
    (hdecl : c.VotingStateAsEnhanced = none)
    (hact : c.Super.VotingState.bVotingActive = true) :
    c.ProcessVotingResults PersistenceManager rng UtcNow PlayerArrayNum = none := by
  simp [UEnhancedScenarioTransitionComponent.ProcessVotingResults, hact,
    CastVotingState_declared c hdecl]

/-- On the member as declared every veto call that returns leaves the component as it
was. -/
theorem ServerVetoScenario_declared_unchanged (c d : UEnhancedScenarioTransitionComponent)
    (PlayerState : Option Nat) (ScenarioId : Nat)
    (hdecl : c.VotingStateAsEnhanced = none)
    (h : c.ServerVetoScenario_Implementation PlayerState ScenarioId = some d) : d = c := by
  unfold UEnhancedScenarioTransitionComponent.ServerVetoScenario_Implementation at h
  by_cases hact : c.Super.VotingState.bVotingActive = false
  · rw [if_pos hact] at h
    injection h with h
    exact h.symm
  · rw [if_neg hact] at h
    cases PlayerState with
    | none =>
      simp only [] at h
      injection h with h
      exact h.symm
    | some Player =>
      simp only [] at h
      cases hw : TMapFind c.PlayerWeights Player with
      | none =>
        rw [hw] at h
        simp only [] at h
        injection h with h
        exact h.symm
      | some PlayerWeight =>
        rw [hw] at h
        simp only [] at h
        by_cases hv : PlayerWeight.bHasVetoed = true
        · rw [if_pos hv] at h
          injection h with h
          exact h.symm
        · rw [if_neg hv, CastVotingState_declared c hdecl] at h
          simp at h

/-- On the member as declared `ServerUpdatePlayerPerformance` for a player ends, in an
active round, in the cast of `UpdateVoteWeights`. -/
theorem ServerUpdatePlayerPerformance_declared (c : UEnhancedScenarioTransitionComponent)
    (Player : Nat) (PerformanceScore : ℚ)
    (hdecl : c.VotingStateAsEnhanced = none)
    (hact : c.Super.VotingState.bVotingActive = true) :
    c.ServerUpdatePlayerPerformance_Implementation (some Player) PerformanceScore = none := by
  simp only [UEnhancedScenarioTransitionComponent.ServerUpdatePlayerPerformance_Implementation,
    hact, if_true, UEnhancedScenarioTransitionComponent.UpdateVoteWeights,
    UEnhancedScenarioTransitionComponent.CastVotingState, hdecl, Option.map_none']

/-- The constructor leaves the member as declared, and every call that returns keeps it
so: no call constructs an `FEnhancedVotingState`. -/
theorem declared_is_invariant (c d : UEnhancedScenarioTransitionComponent)
    (hdecl : c.VotingStateAsEnhanced = none) :
    (∀ Super : UScenarioTransitionComponent,
      (UEnhancedScenarioTransitionComponent.Construct Super).VotingStateAsEnhanced = none) ∧
    (∀ PlayerState ScenarioId,
      (c.ServerCastVote PlayerState ScenarioId).VotingStateAsEnhanced = none) ∧
    (∀ PlayerState ScenarioId,
      c.ServerVetoScenario_Implementation PlayerState ScenarioId = some d →
      d.VotingStateAsEnhanced = none) ∧
    (∀ PlayerState PerformanceScore,
      c.ServerUpdatePlayerPerformance_Implementation PlayerState PerformanceScore = some d →
      d.VotingStateAsEnhanced = none) ∧
    (∀ PersistenceManager TArraySort ValidScenarios rng CurrentTime,
      c.StartVoting PersistenceManager TArraySort ValidScenarios rng CurrentTime = some d →
      d.VotingStateAsEnhanced = none) ∧
    (∀ PersistenceManager rng UtcNow PlayerArrayNum pm2 Winner,
      c.ProcessVotingResults PersistenceManager rng UtcNow PlayerArrayNum
        = some (d, pm2, Winner) →
      d.VotingStateAsEnhanced = none) := by
  refine ⟨fun _ => rfl, fun _ _ => hdecl, ?_, ?_, ?_, ?_⟩
  · intro ps y h
    rw [ServerVetoScenario_declared_unchanged c d ps y hdecl h]
    exact hdecl
  · intro ps score h
    cases ps with
    | none =>
      simp only [UEnhancedScenarioTransitionComponent.ServerUpdatePlayerPerformance_Implementation,
        Option.some.injEq] at h
      rw [← h]
      exact hdecl
    | some Player =>
      by_cases hact : c.Super.VotingState.bVotingActive = true
      · rw [ServerUpdatePlayerPerformance_declared c Player score hdecl hact] at h
        simp at h
      · have hf : c.Super.VotingState.bVotingActive = false := by
          cases hb : c.Super.VotingState.bVotingActive
          · rfl
          · exact absurd hb hact
        simp only [UEnhancedScenarioTransitionComponent.ServerUpdatePlayerPerformance_Implementation,
          hf, Bool.false_eq_true, if_false, Option.some.injEq] at h
        rw [← h]
        exact hdecl
  · intro pm srt valid rng t h
    unfold UEnhancedScenarioTransitionComponent.StartVoting at h
    by_cases hauth : c.Super.OwnerRole ≠ ENetRole.ROLE_Authority
    · rw [if_pos hauth] at h
      injection h with h
      rw [← h]
      exact hdecl
    · rw [if_neg hauth] at h
      cases pm with
      | none =>
        simp only [UEnhancedScenarioTransitionComponent.GenerateVotingOptions,
          Option.some.injEq] at h
        rw [← h]
        exact hdecl
      | some pm =>
        simp only [UEnhancedScenarioTransitionComponent.GenerateVotingOptions,
          UEnhancedScenarioTransitionComponent.CastVotingState, hdecl, Option.map_none'] at h
        simp at h
  · intro pm rng now pc pm2 W h
    by_cases hact : c.Super.VotingState.bVotingActive = true
    · rw [ProcessVotingResults_declared c pm rng now pc hdecl hact] at h
      simp at h
    · have hf : c.Super.VotingState.bVotingActive = false := by
        cases hb : c.Super.VotingState.bVotingActive
        · rfl
        · exact absurd hb hact
      unfold UEnhancedScenarioTransitionComponent.ProcessVotingResults at h
      rw [if_pos hf] at h
      injection h with h
      injection h with h1 h2
      rw [← h1]
      exact hdecl

end SharedGamemode
